import Mathlib

/-!
# go-upcloud: request construction, execution and authentication

A shallow embedding of `upcloud/upcloud.go` and of the account service of
`upcloud/accounts.go`.  Go strings and byte slices are byte sequences; the
standard-library functions the client calls (`encoding/json`, `net/url`,
`net/http`, `encoding/base64`) are modelled next to the code that calls them.
-/

namespace Upcloud

/-! ## Strings -/

/-- A Go `string` or `[]byte`: a sequence of bytes, each a natural number below 256. -/
abbrev Bytes := List Nat

/-- The bytes of an ASCII literal of the source. -/
def str (s : String) : Bytes := s.toList.map Char.toNat

/-! ## encoding/json: syntax -/

/-- A JSON document as `encoding/json` reads it.  Numbers keep their literal text,
strings are unquoted, object members keep their order (and duplicates). -/
inductive JSON where
  | null : JSON
  | bool (b : Bool) : JSON
  | num (raw : Bytes) : JSON
  | str (s : Bytes) : JSON
  | arr (xs : List JSON) : JSON
  | obj (kvs : List (Bytes × JSON)) : JSON

/-- The `*json.SyntaxError` values of the scanner. -/
inductive SyntaxError where
  /-- "unexpected end of JSON input" -/
  | unexpectedEnd : SyntaxError
  /-- "invalid character ..." -/
  | invalidChar (c : Nat) : SyntaxError
  /-- "exceeded max depth" -/
  | maxDepth : SyntaxError
  deriving DecidableEq, Repr

/-- The scanner's nesting limit (`maxNestingDepth`). -/
def maxNestingDepth : Nat := 10000

/-- The scanner's `isSpace`: space, tab, carriage return, line feed. -/
def isSpace (c : Nat) : Bool := c = 32 || c = 9 || c = 13 || c = 10

/-- Drops leading JSON white space. -/
def skipSpace : Bytes → Bytes
  | [] => []
  | c :: s => if isSpace c then skipSpace s else c :: s

/-- An ASCII decimal digit. -/
def isDigit (c : Nat) : Bool := 48 ≤ c && c ≤ 57

/-- The value of a hexadecimal digit, if it is one. -/
def hexVal (c : Nat) : Option Nat :=
  if 48 ≤ c && c ≤ 57 then some (c - 48)
  else if 97 ≤ c && c ≤ 102 then some (c - 97 + 10)
  else if 65 ≤ c && c ≤ 70 then some (c - 65 + 10)
  else none

/-- Consumes the rest of a literal name (`true`, `false`, `null`) after its first byte. -/
def expectLit : Bytes → Bytes → Except SyntaxError Bytes
  | [], s => .ok s
  | _ :: _, [] => .error .unexpectedEnd
  | l :: ls, c :: s => if c = l then expectLit ls s else .error (.invalidChar c)

/-- Splits off the longest run of decimal digits. -/
def spanDigits : Bytes → Bytes × Bytes
  | [] => ([], [])
  | c :: s => if isDigit c then (c :: (spanDigits s).1, (spanDigits s).2) else ([], c :: s)

/-- One or more digits, as the scanner requires after `.`, `e`, `e+`, `e-`. -/
def scanDigits1 (s : Bytes) : Except SyntaxError (Bytes × Bytes) :=
  match s with
  | [] => .error .unexpectedEnd
  | c :: _ => if isDigit c then .ok (spanDigits s) else .error (.invalidChar c)

/-- The optional exponent of a number. -/
def scanExp (s : Bytes) : Except SyntaxError (Bytes × Bytes) :=
  match s with
  | c :: rest =>
    if c = 101 || c = 69 then
      match rest with
      | sg :: rest2 =>
        if sg = 43 || sg = 45 then
          match scanDigits1 rest2 with
          | .ok (d, r) => .ok (c :: sg :: d, r)
          | .error e => .error e
        else
          match scanDigits1 rest with
          | .ok (d, r) => .ok (c :: d, r)
          | .error e => .error e
      | [] => .error .unexpectedEnd
    else .ok ([], s)
  | [] => .ok ([], [])

/-- The optional fraction of a number. -/
def scanFrac (s : Bytes) : Except SyntaxError (Bytes × Bytes) :=
  match s with
  | 46 :: rest =>
    match scanDigits1 rest with
    | .ok (d, r) => .ok (46 :: d, r)
    | .error e => .error e
  | _ => .ok ([], s)

/-- The integer part of a number: `0`, or a non-zero digit followed by digits. -/
def scanInt (s : Bytes) : Except SyntaxError (Bytes × Bytes) :=
  match s with
  | [] => .error .unexpectedEnd
  | c :: rest =>
    if c = 48 then .ok ([48], rest)
    else if isDigit c then .ok (c :: (spanDigits rest).1, (spanDigits rest).2)
    else .error (.invalidChar c)

/-- A number literal after its optional sign: integer part, optional fraction, optional
exponent.  The result is the literal text, sign included, and the remaining input. -/
def scanUnsigned (sign s1 : Bytes) : Except SyntaxError (Bytes × Bytes) :=
  match scanInt s1 with
  | .error e => .error e
  | .ok (i, s2) =>
    match scanFrac s2 with
    | .error e => .error e
    | .ok (f, s3) =>
      match scanExp s3 with
      | .error e => .error e
      | .ok (x, s4) => .ok (sign ++ i ++ f ++ x, s4)

/-- A number literal whose first byte (`-` or a digit) is at the head of the input:
the literal text and the remaining input. -/
def scanNumber (s : Bytes) : Except SyntaxError (Bytes × Bytes) :=
  match s with
  | [] => scanUnsigned [] []
  | c :: rest => if c = 45 then scanUnsigned [45] rest else scanUnsigned [] (c :: rest)

/-- The body of a string literal after its opening quote: the raw text up to the
closing quote, and the input after it.  Control bytes and bad escapes are errors. -/
def scanString : Bytes → Except SyntaxError (Bytes × Bytes)
  | [] => .error .unexpectedEnd
  | 34 :: rest => .ok ([], rest)
  | 92 :: [] => .error .unexpectedEnd
  | 92 :: 117 :: rest =>
    match rest with
    | a :: b :: c :: d :: rest2 =>
      match hexVal a, hexVal b, hexVal c, hexVal d with
      | some _, some _, some _, some _ =>
        match scanString rest2 with
        | .ok (r, t) => .ok (92 :: 117 :: a :: b :: c :: d :: r, t)
        | .error e => .error e
      | none, _, _, _ => .error (.invalidChar a)
      | some _, none, _, _ => .error (.invalidChar b)
      | some _, some _, none, _ => .error (.invalidChar c)
      | some _, some _, some _, none => .error (.invalidChar d)
    | a :: b :: c :: [] =>
      match hexVal a, hexVal b, hexVal c with
      | some _, some _, some _ => .error .unexpectedEnd
      | none, _, _ => .error (.invalidChar a)
      | some _, none, _ => .error (.invalidChar b)
      | some _, some _, none => .error (.invalidChar c)
    | a :: b :: [] =>
      match hexVal a, hexVal b with
      | some _, some _ => .error .unexpectedEnd
      | none, _ => .error (.invalidChar a)
      | some _, none => .error (.invalidChar b)
    | a :: [] =>
      match hexVal a with
      | some _ => .error .unexpectedEnd
      | none => .error (.invalidChar a)
    | [] => .error .unexpectedEnd
  | 92 :: e :: rest =>
    if e = 34 || e = 92 || e = 47 || e = 98 || e = 102 || e = 110 || e = 114 || e = 116 then
      match scanString rest with
      | .ok (r, t) => .ok (92 :: e :: r, t)
      | .error err => .error err
    else .error (.invalidChar e)
  | c :: rest =>
    if c < 32 then .error (.invalidChar c)
    else
      match scanString rest with
      | .ok (r, t) => .ok (c :: r, t)
      | .error e => .error e

/-! ## encoding/json: unquoting -/

/-- The UTF-8 encoding of a rune (`utf8.EncodeRune`); surrogates and values beyond
U+10FFFF encode as U+FFFD. -/
def encodeRune (r : Nat) : Bytes :=
  if r < 0x80 then [r]
  else if r < 0x800 then [0xC0 + r / 64, 0x80 + r % 64]
  else if (0xD800 ≤ r && r < 0xE000) || 0x10FFFF < r then [0xEF, 0xBF, 0xBD]
  else if r < 0x10000 then [0xE0 + r / 4096, 0x80 + r / 64 % 64, 0x80 + r % 64]
  else [0xF0 + r / 262144, 0x80 + r / 4096 % 64, 0x80 + r / 64 % 64, 0x80 + r % 64]

/-- A UTF-8 continuation byte. -/
def isCont (b : Nat) : Bool := 0x80 ≤ b && b ≤ 0xBF

/-- A well-formed two-byte UTF-8 sequence. -/
def valid2 (b0 b1 : Nat) : Bool := 0xC2 ≤ b0 && b0 ≤ 0xDF && isCont b1

/-- A well-formed three-byte UTF-8 sequence (no overlong forms, no surrogates). -/
def valid3 (b0 b1 b2 : Nat) : Bool :=
  ((b0 = 0xE0 && 0xA0 ≤ b1 && b1 ≤ 0xBF)
    || (((0xE1 ≤ b0 && b0 ≤ 0xEC) || b0 = 0xEE || b0 = 0xEF) && isCont b1)
    || (b0 = 0xED && 0x80 ≤ b1 && b1 ≤ 0x9F))
  && isCont b2

/-- A well-formed four-byte UTF-8 sequence (no overlong forms, at most U+10FFFF). -/
def valid4 (b0 b1 b2 b3 : Nat) : Bool :=
  ((b0 = 0xF0 && 0x90 ≤ b1 && b1 ≤ 0xBF)
    || (0xF1 ≤ b0 && b0 ≤ 0xF3 && isCont b1)
    || (b0 = 0xF4 && 0x80 ≤ b1 && b1 ≤ 0x8F))
  && isCont b2 && isCont b3

/-- The value of four hexadecimal digits (`getu4`), `none` if one is not a digit. -/
def u4 (a b c d : Nat) : Option Nat :=
  match hexVal a, hexVal b, hexVal c, hexVal d with
  | some x, some y, some z, some w => some (x * 4096 + y * 256 + z * 16 + w)
  | _, _, _, _ => none

/-- The `\uXXXX` escape at the head of the input, if there is one. -/
def getu4 : Bytes → Option Nat
  | 92 :: 117 :: a :: b :: c :: d :: _ => u4 a b c d
  | _ => none

/-- The byte a single-character escape stands for. -/
def escByte (e : Nat) : Nat :=
  if e = 98 then 8 else if e = 102 then 12 else if e = 110 then 10
  else if e = 114 then 13 else if e = 116 then 9 else e

/-- Unquoting of a scanned string body (`unquoteBytes`): escapes are replaced,
`\u` surrogate pairs are combined, lone surrogates and malformed UTF-8 become U+FFFD.
The first argument bounds the number of steps; the length of the text is enough. -/
def unquoteAux : Nat → Bytes → Bytes
  | 0, _ => []
  | _ + 1, [] => []
  | n + 1, 92 :: 117 :: a :: b :: c :: d :: rest =>
    match u4 a b c d with
    | none => []
    | some rr =>
      if 0xD800 ≤ rr && rr < 0xE000 then
        match getu4 rest with
        | some rr1 =>
          if rr < 0xDC00 && 0xDC00 ≤ rr1 && rr1 < 0xE000 then
            encodeRune ((rr - 0xD800) * 1024 + (rr1 - 0xDC00) + 0x10000) ++ unquoteAux n (rest.drop 6)
          else [0xEF, 0xBF, 0xBD] ++ unquoteAux n rest
        | none => [0xEF, 0xBF, 0xBD] ++ unquoteAux n rest
      else encodeRune rr ++ unquoteAux n rest
  | n + 1, 92 :: e :: rest => escByte e :: unquoteAux n rest
  | _ + 1, 92 :: [] => []
  | n + 1, c :: rest =>
    if c < 0x80 then c :: unquoteAux n rest
    else
      match rest with
      | b1 :: b2 :: b3 :: rest3 =>
        if valid2 c b1 then c :: b1 :: unquoteAux n (b2 :: b3 :: rest3)
        else if valid3 c b1 b2 then c :: b1 :: b2 :: unquoteAux n (b3 :: rest3)
        else if valid4 c b1 b2 b3 then c :: b1 :: b2 :: b3 :: unquoteAux n rest3
        else [0xEF, 0xBF, 0xBD] ++ unquoteAux n rest
      | b1 :: b2 :: [] =>
        if valid2 c b1 then c :: b1 :: unquoteAux n [b2]
        else if valid3 c b1 b2 then [c, b1, b2]
        else [0xEF, 0xBF, 0xBD] ++ unquoteAux n rest
      | b1 :: [] => if valid2 c b1 then [c, b1] else [0xEF, 0xBF, 0xBD] ++ unquoteAux n rest
      | [] => [0xEF, 0xBF, 0xBD]

/-- The Go string a scanned string body denotes. -/
def unquote (raw : Bytes) : Bytes := unquoteAux raw.length raw

/-! ## encoding/json: values -/

mutual
/-- A JSON value at the head of the input (after optional white space), and the
input after it.  Arguments: a step bound (the length of the input plus one is
enough, every nested call follows a consumed byte), the nesting depth, the input. -/
def parseValue : Nat → Nat → Bytes → Except SyntaxError (JSON × Bytes)
  | 0, _, _ => .error .unexpectedEnd
  | fuel + 1, depth, s =>
    match skipSpace s with
    | [] => .error .unexpectedEnd
    | c :: rest =>
      if c = 123 then
        if maxNestingDepth ≤ depth then .error .maxDepth
        else
          match skipSpace rest with
          | [] => .error .unexpectedEnd
          | k :: rest1 =>
            if k = 125 then .ok (.obj [], rest1)
            else if k = 34 then
              match scanString rest1 with
              | .error e => .error e
              | .ok (rawKey, rest2) =>
                match skipSpace rest2 with
                | [] => .error .unexpectedEnd
                | colon :: rest3 =>
                  if colon = 58 then
                    match parseValue fuel (depth + 1) rest3 with
                    | .error e => .error e
                    | .ok (v, rest4) =>
                      match parseMembers fuel (depth + 1) rest4 with
                      | .error e => .error e
                      | .ok (more, rest5) => .ok (.obj ((unquote rawKey, v) :: more), rest5)
                  else .error (.invalidChar colon)
            else .error (.invalidChar k)
      else if c = 91 then
        if maxNestingDepth ≤ depth then .error .maxDepth
        else
          match skipSpace rest with
          | [] => .error .unexpectedEnd
          | k :: rest1 =>
            if k = 93 then .ok (.arr [], rest1)
            else
              match parseValue fuel (depth + 1) rest with
              | .error e => .error e
              | .ok (v, rest2) =>
                match parseElems fuel (depth + 1) rest2 with
                | .error e => .error e
                | .ok (more, rest3) => .ok (.arr (v :: more), rest3)
      else if c = 34 then
        match scanString rest with
        | .error e => .error e
        | .ok (raw, rest1) => .ok (.str (unquote raw), rest1)
      else if c = 45 || isDigit c then
        match scanNumber (c :: rest) with
        | .error e => .error e
        | .ok (raw, rest1) => .ok (.num raw, rest1)
      else if c = 116 then
        match expectLit [114, 117, 101] rest with
        | .error e => .error e
        | .ok rest1 => .ok (.bool true, rest1)
      else if c = 102 then
        match expectLit [97, 108, 115, 101] rest with
        | .error e => .error e
        | .ok rest1 => .ok (.bool false, rest1)
      else if c = 110 then
        match expectLit [117, 108, 108] rest with
        | .error e => .error e
        | .ok rest1 => .ok (.null, rest1)
      else .error (.invalidChar c)
/-- The members of an object after its first one: `,"key":value` repeated, then `}`. -/
def parseMembers : Nat → Nat → Bytes → Except SyntaxError (List (Bytes × JSON) × Bytes)
  | 0, _, _ => .error .unexpectedEnd
  | fuel + 1, depth, s =>
    match skipSpace s with
    | [] => .error .unexpectedEnd
    | c :: rest =>
      if c = 125 then .ok ([], rest)
      else if c = 44 then
        match skipSpace rest with
        | [] => .error .unexpectedEnd
        | q :: rest1 =>
          if q = 34 then
            match scanString rest1 with
            | .error e => .error e
            | .ok (rawKey, rest2) =>
              match skipSpace rest2 with
              | [] => .error .unexpectedEnd
              | colon :: rest3 =>
                if colon = 58 then
                  match parseValue fuel depth rest3 with
                  | .error e => .error e
                  | .ok (v, rest4) =>
                    match parseMembers fuel depth rest4 with
                    | .error e => .error e
                    | .ok (more, rest5) => .ok ((unquote rawKey, v) :: more, rest5)
                else .error (.invalidChar colon)
          else .error (.invalidChar q)
      else .error (.invalidChar c)
/-- The elements of an array after its first one: `,value` repeated, then `]`. -/
def parseElems : Nat → Nat → Bytes → Except SyntaxError (List JSON × Bytes)
  | 0, _, _ => .error .unexpectedEnd
  | fuel + 1, depth, s =>
    match skipSpace s with
    | [] => .error .unexpectedEnd
    | c :: rest =>
      if c = 93 then .ok ([], rest)
      else if c = 44 then
        match parseValue fuel depth rest with
        | .error e => .error e
        | .ok (v, rest1) =>
          match parseElems fuel depth rest1 with
          | .error e => .error e
          | .ok (more, rest2) => .ok (v :: more, rest2)
      else .error (.invalidChar c)
end

/-- The whole input as one JSON document: `checkValid` followed by the reading of the
value.  Only white space may follow the top-level value. -/
def parseJSON (data : Bytes) : Except SyntaxError JSON :=
  match parseValue (data.length + 1) 0 data with
  | .error e => .error e
  | .ok (v, rest) =>
    match skipSpace rest with
    | [] => .ok v
    | c :: _ => .error (.invalidChar c)

/-! ## strings -/

/-- The function `strings.HasPrefix`. -/
def HasPrefix (s pre : Bytes) : Bool := pre.isPrefixOf s

/-- The function `strings.HasSuffix`. -/
def HasSuffix (s suf : Bytes) : Bool := suf.isSuffixOf s

/-- The function `strings.Cut` for a separator of one byte: the text before the first
separator, the text after it, and whether there is one. -/
def cutByte (sep : Nat) : Bytes → Bytes × Bytes × Bool
  | [] => ([], [], false)
  | x :: s => if x = sep then ([], s, true) else (x :: (cutByte sep s).1, (cutByte sep s).2.1, (cutByte sep s).2.2)

/-- The function `strings.IndexByte`. -/
def indexByte (c : Nat) : Bytes → Option Nat
  | [] => none
  | x :: s => if x = c then some 0 else (indexByte c s).map (· + 1)

/-- The function `strings.LastIndexByte`. -/
def lastIndexByte (c : Nat) : Bytes → Option Nat
  | [] => none
  | x :: s =>
    match lastIndexByte c s with
    | some i => some (i + 1)
    | none => if x = c then some 0 else none

/-- The function `strings.Index`. -/
def indexOf (sub : Bytes) : Bytes → Option Nat
  | [] => if sub = [] then some 0 else none
  | x :: s => if sub.isPrefixOf (x :: s) then some 0 else (indexOf sub s).map (· + 1)

/-- The function `strings.Split` for a separator of one byte. -/
def splitByte (sep : Nat) : Bytes → List Bytes
  | [] => [[]]
  | x :: s =>
    if x = sep then [] :: splitByte sep s
    else
      match splitByte sep s with
      | [] => [[x]]
      | seg :: segs => (x :: seg) :: segs

/-- An ASCII lower-case letter. -/
def isLower (c : Nat) : Bool := 97 ≤ c && c ≤ 122

/-- An ASCII upper-case letter. -/
def isUpper (c : Nat) : Bool := 65 ≤ c && c ≤ 90

/-- An ASCII letter. -/
def isLetter (c : Nat) : Bool := isLower c || isUpper c

/-- The function `strings.ToLower` on ASCII text. -/
def toLowerASCII (s : Bytes) : Bytes := s.map fun c => if isUpper c then c + 32 else c

/-! ## net/url: escaping -/

/-- The part of a URL a text is escaped for (`encoding` of net/url). -/
inductive Encoding where
  | encodePath : Encoding
  | encodePathSegment : Encoding
  | encodeHost : Encoding
  | encodeZone : Encoding
  | encodeUserPassword : Encoding
  | encodeQueryComponent : Encoding
  | encodeFragment : Encoding
  deriving DecidableEq, Repr

/-- The function `shouldEscape`: must the byte be written as `%XX` in this part? -/
def shouldEscape (c : Nat) (mode : Encoding) : Bool :=
  if isLetter c || isDigit c then false
  else if (mode = .encodeHost || mode = .encodeZone)
      && (c = 33 || c = 36 || c = 38 || c = 39 || c = 40 || c = 41 || c = 42 || c = 43 || c = 44
        || c = 59 || c = 61 || c = 58 || c = 91 || c = 93 || c = 60 || c = 62 || c = 34) then false
  else if c = 45 || c = 95 || c = 46 || c = 126 then false
  else if c = 36 || c = 38 || c = 43 || c = 44 || c = 47 || c = 58 || c = 59 || c = 61 || c = 63
      || c = 64 then
    match mode with
    | .encodePath => c = 63
    | .encodePathSegment => c = 47 || c = 59 || c = 44 || c = 63
    | .encodeUserPassword => c = 64 || c = 47 || c = 63 || c = 58
    | .encodeQueryComponent => true
    | .encodeFragment => false
    | _ => true
  else if mode = .encodeFragment && (c = 33 || c = 40 || c = 41 || c = 42) then false
  else true

/-- An upper-case hexadecimal digit (`upperhex`). -/
def upperhex (n : Nat) : Nat := if n < 10 then 48 + n else 55 + n

/-- The function `escape`. -/
def escape (s : Bytes) (mode : Encoding) : Bytes :=
  match s with
  | [] => []
  | c :: rest =>
    if shouldEscape c mode then
      if c = 32 ∧ mode = .encodeQueryComponent then 43 :: escape rest mode
      else 37 :: upperhex (c / 16) :: upperhex (c % 16) :: escape rest mode
    else c :: escape rest mode

/-- The check of `unescape`: every `%` is followed by two hexadecimal digits (and, in
a host, escapes only what a host may escape), and a host has no byte it may not hold.
The result is the offending text, if any, and whether it is an escape. -/
def unescapeCheck (mode : Encoding) : Bytes → Option (Bytes × Bool)
  | [] => none
  | c :: rest =>
    if c = 37 then
      match rest with
      | a :: b :: rest2 =>
        match hexVal a, hexVal b with
        | some x, some y =>
          if mode = .encodeHost ∧ x < 8 ∧ ¬ (a = 50 ∧ b = 53) then some ([37, a, b], true)
          else if mode = .encodeZone ∧ ¬ (a = 50 ∧ b = 53) ∧ x * 16 + y ≠ 32
              ∧ shouldEscape (x * 16 + y) .encodeHost then some ([37, a, b], true)
          else unescapeCheck mode rest2
        | _, _ => some ([37, a, b], true)
      | _ => some (37 :: rest, true)
    else if (mode = .encodeHost ∨ mode = .encodeZone) ∧ c < 0x80 ∧ shouldEscape c .encodeHost then
      some ([c], false)
    else unescapeCheck mode rest

/-- The rewriting of `unescape` on a checked text. -/
def unescapeBytes (mode : Encoding) : Bytes → Bytes
  | [] => []
  | c :: rest =>
    if c = 37 then
      match rest with
      | a :: b :: rest2 => ((hexVal a).getD 0 * 16 + (hexVal b).getD 0) :: unescapeBytes mode rest2
      | _ => c :: rest
    else (if c = 43 ∧ mode = .encodeQueryComponent then 32 else c) :: unescapeBytes mode rest

/-- The function `unescape`; the error is the text of the `EscapeError` or
`InvalidHostError`. -/
def unescape (s : Bytes) (mode : Encoding) : Except Bytes Bytes :=
  match unescapeCheck mode s with
  | some (bad, true) => .error (str "invalid URL escape " ++ bad)
  | some (bad, false) => .error (str "invalid character in host name " ++ bad)
  | none => .ok (unescapeBytes mode s)

/-- The function `validEncoded`. -/
def validEncoded (s : Bytes) (mode : Encoding) : Bool :=
  s.all fun c =>
    c = 33 || c = 36 || c = 38 || c = 39 || c = 40 || c = 41 || c = 42 || c = 43 || c = 44
      || c = 59 || c = 61 || c = 58 || c = 64 || c = 91 || c = 93 || c = 37
      || !shouldEscape c mode

/-! ## Requests, responses and errors -/

/-- The user part of a URL (`url.Userinfo`). -/
structure Userinfo where
  username : Bytes
  password : Bytes
  passwordSet : Bool
  deriving DecidableEq, Repr

/-- A parsed URL (`url.URL`). -/
structure URL where
  Scheme : Bytes := []
  Opaque : Bytes := []
  User : Option Userinfo := none
  Host : Bytes := []
  Path : Bytes := []
  RawPath : Bytes := []
  OmitHost : Bool := false
  ForceQuery : Bool := false
  RawQuery : Bytes := []
  Fragment : Bytes := []
  RawFragment : Bytes := []
  deriving DecidableEq, Repr

/-- A header map (`http.Header`, a `map[string][]string`) as a list of entries. -/
abbrev Header := List (Bytes × List Bytes)

/-- The map lookup `h[k]`. -/
def Header.get (h : Header) (k : Bytes) : Option (List Bytes) :=
  match h with
  | [] => none
  | (k1, v) :: rest => if k1 = k then some v else Header.get rest k

/-- The map assignment `h[k] = v`. -/
def Header.put (h : Header) (k : Bytes) (v : List Bytes) : Header :=
  (k, v) :: h.filter (fun e => decide (e.1 ≠ k))

/-- The errors `ctx.Err()` reports. -/
inductive CtxErr where
  /-- The value `context.Canceled`. -/
  | canceled : CtxErr
  /-- The value `context.DeadlineExceeded`. -/
  | deadlineExceeded : CtxErr
  /-- Any other error of a custom context. -/
  | other (tag : Nat) : CtxErr
  deriving DecidableEq, Repr

/-- A `context.Context` as `Do` observes it after the underlying client failed:
is `Done()` ready, and what `Err()` returns. -/
structure Context where
  done : Bool
  err : Option CtxErr
  deriving DecidableEq, Repr

/-- An `http.Request`; `H` is how the header map is held (by value, or by address
where aliasing matters). -/
structure RequestOf (H : Type) where
  Method : Bytes
  URL : URL
  Header : H
  Body : Option Bytes
  Host : Bytes
  ctx : Option Context
  deriving DecidableEq, Repr

/-- An `http.Request` with its header map. -/
abbrev Request := RequestOf Header

/-- The method `(*http.Request).WithContext`: a shallow copy carrying `ctx`. -/
def RequestOf.WithContext {H : Type} (r : RequestOf H) (ctx : Context) : RequestOf H :=
  { r with ctx := some ctx }

/-- A response body: the bytes it yields, and the read error that ends it, if one
does (otherwise it ends with end-of-file). -/
structure ReadCloser where
  data : Bytes
  err : Option Nat
  deriving DecidableEq, Repr

/-- An `http.Response`. -/
structure Response where
  StatusCode : Int
  Header : Header
  Body : ReadCloser
  Request : Option Request
  deriving DecidableEq, Repr

/-- The structured API error inside an `ErrorResponse`. -/
structure APIError where
  Message : Bytes
  Code : Bytes
  deriving DecidableEq, Repr

/-- ErrorResponse reports an error caused by the API request. -/
structure ErrorResponse where
  Response : Option Response
  APIError : Option APIError
  deriving DecidableEq, Repr

/-- The values of Go's `error` interface that occur. -/
inductive Error where
  /-- An error of `errors.New` or `fmt.Errorf`. -/
  | text (msg : Bytes) : Error
  /-- The value `io.EOF`. -/
  | eof : Error
  /-- An error of the context. -/
  | context (e : CtxErr) : Error
  /-- An error of the underlying HTTP client. -/
  | transport (tag : Nat) : Error
  /-- An error of reading the response body. -/
  | read (tag : Nat) : Error
  /-- A `*json.SyntaxError`. -/
  | badJSON (e : SyntaxError) : Error
  /-- A `*json.UnmarshalTypeError`: a JSON value of kind `value` for the Go field `field`. -/
  | unmarshalType (value : Bytes) (field : Bytes) : Error
  /-- A `*json.InvalidUnmarshalError`. -/
  | invalidUnmarshal : Error
  /-- An error of the JSON encoder. -/
  | marshal (tag : Nat) : Error
  /-- A `*url.Error` of `url.Parse`. -/
  | urlParse (msg : Bytes) : Error
  /-- The error of `http.NewRequest` for a method that is not a token. -/
  | invalidMethod (method : Bytes) : Error
  /-- The error of `NewRequest` for a base URL whose path does not end in a slash:
  "BaseURL must have a trailing slash, but %q does not". -/
  | trailingSlash (base : URL) : Error
  /-- An `*ErrorResponse`. -/
  | api (e : ErrorResponse) : Error
  deriving DecidableEq, Repr

/-- Is the error an `*ErrorResponse`? -/
def Error.isErrorResponse : Error → Bool
  | .api _ => true
  | _ => false

/-- The function `ioutil.ReadAll`: all bytes up to end-of-file or an error.  The
slice returned is never nil. -/
def ReadAll (b : ReadCloser) : Option Bytes × Option Error :=
  (some b.data, b.err.map Error.read)

/-! ## encoding/json: decoding -/

/-- What `json.Unmarshal` does with a valid document for a target of type `τ`: the
target afterwards and the error returned. -/
abbrev Decoder (τ : Type) := JSON → τ → τ × Option Error

/-- What decoding a JSON value into an `*http.Response` does: the pointer afterwards,
and the kind and field of the `*json.UnmarshalTypeError` it reports, if any. -/
abbrev ResponseDecoder := JSON → Option Response → Option Response × Option (Bytes × Bytes)

/-- The function `json.Unmarshal(data, v)` for a non-nil `v`: the input is checked
first, and a syntax error leaves the target alone. -/
def Unmarshal {τ : Type} (dec : Decoder τ) (data : Bytes) (v : τ) : τ × Option Error :=
  match parseJSON data with
  | .error e => (v, some (.badJSON e))
  | .ok j => dec j v

/-- The kind of a JSON value as `UnmarshalTypeError.Value` names it. -/
def JSON.kind : JSON → Bytes
  | .null => Upcloud.str "null"
  | .bool _ => Upcloud.str "bool"
  | .num _ => Upcloud.str "number"
  | .str _ => Upcloud.str "string"
  | .arr _ => Upcloud.str "array"
  | .obj _ => Upcloud.str "object"

/-- Case folding of a key for the match with an ASCII field name: ASCII letters
fold to lower case, U+017F folds with `s` and U+212A with `k`. -/
def foldName : Bytes → Bytes
  | [] => []
  | 0xC5 :: 0xBF :: rest => 115 :: foldName rest
  | 0xE2 :: 0x84 :: 0xAA :: rest => 107 :: foldName rest
  | c :: rest => (if 65 ≤ c ∧ c ≤ 90 then c + 32 else c) :: foldName rest

/-- Does the object key select the struct field of this JSON name?  (An exact match
is tried first and a case-insensitive one next; no two names of a struct here fold
to the same text, so the second subsumes the first.) -/
def fieldMatches (name key : Bytes) : Bool := foldName key = foldName name

/-- Only the first error of a decoding is kept (`saveError`). -/
def saveError (saved new : Option Error) : Option Error :=
  match saved with
  | some e => some e
  | none => new

/-- Decoding of a JSON value into a field of kind `string`. -/
def storeString (field : Bytes) (j : JSON) (cur : Bytes) : Bytes × Option Error :=
  match j with
  | .str s => (s, none)
  | .null => (cur, none)
  | other => (cur, some (.unmarshalType other.kind field))

/-- Decoding of the members of an object into the anonymous struct of `APIError`. -/
def decodeAPIErrorMembers : List (Bytes × JSON) → APIError × Option Error → APIError × Option Error
  | [], acc => acc
  | (k, v) :: rest, (a, err) =>
    if fieldMatches (str "error_message") k then
      let r := storeString (str "error_message") v a.Message
      decodeAPIErrorMembers rest ({ a with Message := r.1 }, saveError err r.2)
    else if fieldMatches (str "error_code") k then
      let r := storeString (str "error_code") v a.Code
      decodeAPIErrorMembers rest ({ a with Code := r.1 }, saveError err r.2)
    else decodeAPIErrorMembers rest (a, err)

/-- Decoding of a JSON value into the field `APIError`, a pointer to a struct:
`null` sets it to nil, anything else allocates it when it is nil. -/
def storeAPIError (j : JSON) (cur : Option APIError) : Option APIError × Option Error :=
  match j with
  | .null => (none, none)
  | .obj kvs =>
    let r := decodeAPIErrorMembers kvs (cur.getD { Message := [], Code := [] }, none)
    (some r.1, r.2)
  | other => (some (cur.getD { Message := [], Code := [] }), some (.unmarshalType other.kind (str "error")))

/-- Decoding of the members of an object into an `ErrorResponse`.  The field
`Response` has no tag and so answers to the key `Response`; what a JSON value does to
an `*http.Response` is the argument `decResp`. -/
def decodeErrorResponseMembers (decResp : ResponseDecoder) :
    List (Bytes × JSON) → ErrorResponse × Option Error → ErrorResponse × Option Error
  | [], acc => acc
  | (k, v) :: rest, (e, err) =>
    if fieldMatches (str "Response") k then
      let r := decResp v e.Response
      decodeErrorResponseMembers decResp rest
        ({ e with Response := r.1 }, saveError err (r.2.map fun t => Error.unmarshalType t.1 t.2))
    else if fieldMatches (str "error") k then
      let r := storeAPIError v e.APIError
      decodeErrorResponseMembers decResp rest ({ e with APIError := r.1 }, saveError err r.2)
    else decodeErrorResponseMembers decResp rest (e, err)

/-- The decoder of `*ErrorResponse`. -/
def decodeErrorResponse (decResp : ResponseDecoder) : Decoder ErrorResponse :=
  fun j e =>
    match j with
    | .obj kvs => decodeErrorResponseMembers decResp kvs (e, none)
    | .null => (e, none)
    | other => (e, some (.unmarshalType other.kind (str "ErrorResponse")))

/-! ## net/url: parsing -/

/-- The function `stringContainsCTLByte`. -/
def containsCTL (s : Bytes) : Bool := s.any fun b => b < 32 || b = 127

/-- The loop of `getScheme` at position `i` of `rawURL`, the rest of it being the last
argument. -/
def getSchemeAux (rawURL : Bytes) : Nat → Bytes → Except Bytes (Bytes × Bytes)
  | _, [] => .ok ([], rawURL)
  | i, c :: rest =>
    if isLetter c then getSchemeAux rawURL (i + 1) rest
    else if isDigit c || c = 43 || c = 45 || c = 46 then
      if i = 0 then .ok ([], rawURL) else getSchemeAux rawURL (i + 1) rest
    else if c = 58 then
      if i = 0 then .error (str "missing protocol scheme") else .ok (rawURL.take i, rest)
    else .ok ([], rawURL)

/-- The function `getScheme`: the scheme before the first colon, if the text starts
with one, and the text after it. -/
def getScheme (rawURL : Bytes) : Except Bytes (Bytes × Bytes) := getSchemeAux rawURL 0 rawURL

/-- The function `validOptionalPort`. -/
def validOptionalPort : Bytes → Bool
  | [] => true
  | c :: digits => c = 58 && digits.all isDigit

/-- The function `validUserinfo`. -/
def validUserinfo (s : Bytes) : Bool :=
  s.all fun r =>
    isLetter r || isDigit r || r = 45 || r = 46 || r = 95 || r = 58 || r = 126 || r = 33
      || r = 36 || r = 38 || r = 39 || r = 40 || r = 41 || r = 42 || r = 43 || r = 44 || r = 59
      || r = 61 || r = 37 || r = 64

/-- The function `parseHost`. -/
def parseHost (host : Bytes) : Except Bytes Bytes :=
  if HasPrefix host [91] then
    match lastIndexByte 93 host with
    | none => .error (str "missing ']' in host")
    | some i =>
      if !validOptionalPort (host.drop (i + 1)) then .error (str "invalid port after host")
      else
        match indexOf (str "%25") (host.take i) with
        | some zone =>
          match unescape (host.take zone) .encodeHost with
          | .error e => .error e
          | .ok host1 =>
            match unescape ((host.take i).drop zone) .encodeZone with
            | .error e => .error e
            | .ok host2 =>
              match unescape (host.drop i) .encodeHost with
              | .error e => .error e
              | .ok host3 => .ok (host1 ++ host2 ++ host3)
        | none => unescape host .encodeHost
  else
    match lastIndexByte 58 host with
    | some i =>
      if !validOptionalPort (host.drop i) then .error (str "invalid port after host")
      else unescape host .encodeHost
    | none => unescape host .encodeHost

/-- The function `parseAuthority`: the user and the host of `user:password@host:port`. -/
def parseAuthority (authority : Bytes) : Except Bytes (Option Userinfo × Bytes) :=
  match lastIndexByte 64 authority with
  | none =>
    match parseHost authority with
    | .error e => .error e
    | .ok host => .ok (none, host)
  | some i =>
    match parseHost (authority.drop (i + 1)) with
    | .error e => .error e
    | .ok host =>
      let userinfo := authority.take i
      if !validUserinfo userinfo then .error (str "net/url: invalid userinfo")
      else if !userinfo.contains 58 then
        match unescape userinfo .encodeUserPassword with
        | .error e => .error e
        | .ok u => .ok (some { username := u, password := [], passwordSet := false }, host)
      else
        match unescape (cutByte 58 userinfo).1 .encodeUserPassword with
        | .error e => .error e
        | .ok u =>
          match unescape (cutByte 58 userinfo).2.1 .encodeUserPassword with
          | .error e => .error e
          | .ok pw => .ok (some { username := u, password := pw, passwordSet := true }, host)

/-- The method `setPath`: Path is the unescaped text, RawPath the text itself when it
is not the default escaping of Path. -/
def URL.setPath (u : URL) (p : Bytes) : Except Bytes URL :=
  match unescape p .encodePath with
  | .error e => .error e
  | .ok path =>
    .ok { u with Path := path, RawPath := if p = escape path .encodePath then [] else p }

/-- The method `setFragment`. -/
def URL.setFragment (u : URL) (f : Bytes) : Except Bytes URL :=
  match unescape f .encodeFragment with
  | .error e => .error e
  | .ok frag =>
    .ok { u with Fragment := frag, RawFragment := if f = escape frag .encodeFragment then [] else f }

/-- The function `parse` of net/url for a URL reference (`viaRequest` false), the
fragment already cut off. -/
def parse (rawURL : Bytes) : Except Bytes URL :=
  if containsCTL rawURL then .error (str "net/url: invalid control character in URL")
  else if rawURL = [42] then .ok { Path := [42] }
  else
    match getScheme rawURL with
    | .error e => .error e
    | .ok (scheme0, rest0) =>
      let scheme := toLowerASCII scheme0
      let force := HasSuffix rest0 [63] && rest0.count 63 = 1
      let rest := if force then rest0.dropLast else (cutByte 63 rest0).1
      let query := if force then [] else (cutByte 63 rest0).2.1
      if !HasPrefix rest [47] && scheme ≠ [] then
        .ok { Scheme := scheme, Opaque := rest, ForceQuery := force, RawQuery := query }
      else if !HasPrefix rest [47] && (cutByte 47 rest).1.contains 58 then
        .error (str "first path segment in URL cannot contain colon")
      else if (scheme ≠ [] || !HasPrefix rest [47, 47, 47]) && HasPrefix rest [47, 47] then
        let authority0 := rest.drop 2
        let authority := match indexByte 47 authority0 with
          | some i => authority0.take i
          | none => authority0
        let rest1 := match indexByte 47 authority0 with
          | some i => authority0.drop i
          | none => []
        match parseAuthority authority with
        | .error e => .error e
        | .ok (user, host) =>
          URL.setPath { Scheme := scheme, User := user, Host := host, ForceQuery := force,
                        RawQuery := query } rest1
      else
        URL.setPath { Scheme := scheme, ForceQuery := force, RawQuery := query,
                      OmitHost := scheme ≠ [] && HasPrefix rest [47] } rest

/-- The function `url.Parse`. -/
def Parse (rawURL : Bytes) : Except Error URL :=
  match parse (cutByte 35 rawURL).1 with
  | .error e => .error (.urlParse e)
  | .ok url =>
    if (cutByte 35 rawURL).2.1 = [] then .ok url
    else
      match url.setFragment (cutByte 35 rawURL).2.1 with
      | .error e => .error (.urlParse e)
      | .ok url1 => .ok url1

/-- Does `unescape` succeed on `raw` with the result `s`? -/
def unescapesTo (raw : Bytes) (mode : Encoding) (s : Bytes) : Bool :=
  match unescape raw mode with
  | .ok p => p = s
  | .error _ => false

/-- The method `EscapedPath`. -/
def URL.EscapedPath (u : URL) : Bytes :=
  if u.RawPath ≠ [] ∧ validEncoded u.RawPath .encodePath
      ∧ unescapesTo u.RawPath .encodePath u.Path then u.RawPath
  else if u.Path = [42] then [42]
  else escape u.Path .encodePath

/-- The method `EscapedFragment`. -/
def URL.EscapedFragment (u : URL) : Bytes :=
  if u.RawFragment ≠ [] ∧ validEncoded u.RawFragment .encodeFragment
      ∧ unescapesTo u.RawFragment .encodeFragment u.Fragment then u.RawFragment
  else escape u.Fragment .encodeFragment

/-- The method `(*Userinfo).String`. -/
def Userinfo.String (u : Userinfo) : Bytes :=
  escape u.username .encodeUserPassword
    ++ (if u.passwordSet then 58 :: escape u.password .encodeUserPassword else [])

/-- The method `(*URL).String`. -/
def URL.String (u : URL) : Bytes :=
  let scheme := if u.Scheme ≠ [] then u.Scheme ++ [58] else []
  let body :=
    if u.Opaque ≠ [] then scheme ++ u.Opaque
    else
      let auth :=
        if u.Scheme ≠ [] ∨ u.Host ≠ [] ∨ u.User ≠ none then
          if u.OmitHost ∧ u.Host = [] ∧ u.User = none then []
          else
            (if u.Host ≠ [] ∨ u.Path ≠ [] ∨ u.User ≠ none then [47, 47] else [])
              ++ (match u.User with
                  | some ui => ui.String ++ [64]
                  | none => [])
              ++ (if u.Host ≠ [] then escape u.Host .encodeHost else [])
        else []
      let path := u.EscapedPath
      let buf := scheme ++ auth
        ++ (if path ≠ [] ∧ path.head? ≠ some 47 ∧ u.Host ≠ [] then [47] else [])
      let buf := if buf = [] ∧ (cutByte 47 path).1.contains 58 then [46, 47] else buf
      buf ++ path
  body
    ++ (if u.ForceQuery ∨ u.RawQuery ≠ [] then 63 :: u.RawQuery else [])
    ++ (if u.Fragment ≠ [] then 35 :: u.EscapedFragment else [])

/-! ## net/url: resolving a reference -/

/-- One round of the loop of `resolvePath`: the text written so far (after the slash
written first), the flag `first`, and the next element. -/
def resolveStep (st : Bytes × Bool) (elem : Bytes) : Bytes × Bool :=
  if elem = [46] then (st.1, false)
  else if elem = [46, 46] then
    match lastIndexByte 47 st.1 with
    | none => ([], true)
    | some index => (st.1.take index, st.2)
  else ((if st.2 then st.1 else st.1 ++ [47]) ++ elem, false)

/-- The text `full` of `resolvePath`: the base, the reference put after the last slash
of the base, or the reference alone if it starts with a slash. -/
def resolveFull (base ref : Bytes) : Bytes :=
  if ref = [] then base
  else if ref.head? ≠ some 47 then
    (match lastIndexByte 47 base with
     | some i => base.take (i + 1)
     | none => []) ++ ref
  else ref

/-- The function `resolvePath`: the reference path resolved against the base path, dot
segments removed.  The elements that the loop cuts off one by one are those of
`strings.Split(full, "/")`. -/
def resolvePath (base ref : Bytes) : Bytes :=
  let full := resolveFull base ref
  if full = [] then []
  else
    let elems := splitByte 47 full
    let dst := (elems.foldl resolveStep ([], true)).1
    let last := elems.getLast?.getD []
    let r := 47 :: (if last = [46] ∨ last = [46, 46] then dst ++ [47] else dst)
    if r.tail.head? = some 47 then r.tail else r

/-- The method `ResolveReference`. -/
def URL.ResolveReference (u ref : URL) : URL :=
  let url : URL := if ref.Scheme = [] then { ref with Scheme := u.Scheme } else ref
  if ref.Scheme ≠ [] ∨ ref.Host ≠ [] ∨ ref.User ≠ none then
    match url.setPath (resolvePath ref.EscapedPath []) with
    | .ok r => r
    | .error _ => url
  else if ref.Opaque ≠ [] then { url with User := none, Host := [], Path := [] }
  else
    let url1 : URL :=
      if ref.Path = [] ∧ ¬ ref.ForceQuery ∧ ref.RawQuery = [] then
        if ref.Fragment = [] then
          { url with RawQuery := u.RawQuery, Fragment := u.Fragment, RawFragment := u.RawFragment }
        else { url with RawQuery := u.RawQuery }
      else url
    if ref.Path = [] ∧ u.Opaque ≠ [] then
      { url1 with Opaque := u.Opaque, User := none, Host := [], Path := [] }
    else
      match ({ url1 with Host := u.Host, User := u.User } : URL).setPath
          (resolvePath u.EscapedPath ref.EscapedPath) with
      | .ok r => r
      | .error _ => { url1 with Host := u.Host, User := u.User }

/-- The method `(*URL).Parse`: the reference parsed and resolved against the receiver. -/
def URL.Parse (u : URL) (ref : Bytes) : Except Error URL :=
  match Upcloud.Parse ref with
  | .error e => .error e
  | .ok refURL => .ok (u.ResolveReference refURL)

/-! ## Client.Do -/

/-- The underlying `*http.Client`: what its `Do` returns for a request. -/
structure HTTPClient where
  Do : Request → Except Error Response

/-- The address of a `Client` in the store: a `*Client`. -/
abbrev Addr := Nat

/-- The struct `service`: a back-reference to the client. -/
structure service where
  client : Option Addr
  deriving DecidableEq, Repr

/-- A pointer to a `service`, as the facades hold one: the address of the field
`common` of the client at `owner`. -/
structure ServicePtr where
  owner : Addr
  deriving DecidableEq, Repr

/-- Client for Upcloud API. -/
structure Client where
  client : HTTPClient
  BaseURL : Option URL
  UserAgent : Bytes
  common : service := { client := none }
  Accounts : Option ServicePtr := none
  Pricing : Option ServicePtr := none
  Zones : Option ServicePtr := none

/-- The outcome of a call that may panic. -/
inductive Outcome (α : Type) where
  /-- The call returns. -/
  | ret (a : α) : Outcome α
  /-- The call panics (a nil pointer is dereferenced). -/
  | panic : Outcome α

/-! ## net/http: requests and headers -/

/-- The function `validHeaderFieldByte`: a token byte of RFC 7230. -/
def isTokenByte (c : Nat) : Bool :=
  isLetter c || isDigit c || c = 33 || c = 35 || c = 36 || c = 37 || c = 38 || c = 39 || c = 42
    || c = 43 || c = 45 || c = 46 || c = 94 || c = 95 || c = 96 || c = 124 || c = 126

/-- The rewriting of `canonicalMIMEHeaderKey`: upper case at the start and after a
dash, lower case elsewhere. -/
def canonicalAux : Bool → Bytes → Bytes
  | _, [] => []
  | upper, c :: s =>
    (if upper && isLower c then c - 32 else if !upper && isUpper c then c + 32 else c)
      :: canonicalAux (c = 45) s

/-- The function `textproto.CanonicalMIMEHeaderKey`: a key with a byte that is not a
token byte is left as it is. -/
def CanonicalMIMEHeaderKey (s : Bytes) : Bytes :=
  if s.all isTokenByte then canonicalAux true s else s

/-- The method `Header.Set`. -/
def Header.Set (h : Header) (key value : Bytes) : Header :=
  h.put (CanonicalMIMEHeaderKey key) [value]

/-- The function `validMethod` of net/http. -/
def validMethod (method : Bytes) : Bool := method ≠ [] && method.all isTokenByte

/-- The function `removeEmptyPort`: a host ending in a colon that starts its port
loses the colon. -/
def removeEmptyPort (host : Bytes) : Bytes :=
  let hasPort : Bool :=
    match lastIndexByte 58 host, lastIndexByte 93 host with
    | some i, some j => decide (j < i)
    | some _, none => true
    | none, _ => false
  if hasPort && HasSuffix host [58] then host.dropLast else host

/-- The function `http.NewRequest`; the body is the content of the buffer, if one is
given.  The header map is fresh and empty, the context is the background context. -/
def httpNewRequest (method url : Bytes) (body : Option Bytes) : Except Error Request :=
  let method := if method = [] then str "GET" else method
  if !validMethod method then .error (.invalidMethod method)
  else
    match Parse url with
    | .error e => .error e
    | .ok u =>
      .ok { Method := method, URL := { u with Host := removeEmptyPort u.Host }, Header := [],
            Body := body, Host := removeEmptyPort u.Host,
            ctx := some { done := false, err := none } }

/-! ## Client.NewRequest and NewClient -/

/-- The constant `defaultBaseURL`. -/
def defaultBaseURL : Bytes := str "https://api.upcloud.com/1.3/"

/-- The constant `userAgent`. -/
def userAgent : Bytes := str "go-upcloud"

/-- A non-nil `body` argument of `NewRequest`, seen through what the JSON encoder
(with `SetEscapeHTML(false)`) makes of it: the text written to the buffer, which ends
in a line feed, or the encoder's error. -/
structure Body where
  encode : Except Nat Bytes

/-- NewRequest creates a new API request. -/
def Client.NewRequest (c : Client) (method urlStr : Bytes) (body : Option Body) :
    Outcome (Except Error Request) :=
  match c.BaseURL with
  | none => .panic
  | some base =>
    if !HasSuffix base.Path [47] then .ret (.error (.trailingSlash base))
    else
      match base.Parse urlStr with
      | .error err => .ret (.error err)
      | .ok u =>
        let encoded : Except Error (Option Bytes) :=
          match body with
          | none => .ok none
          | some b =>
            match b.encode with
            | .error tag => .error (.marshal tag)
            | .ok text => .ok (some text)
        match encoded with
        | .error err => .ret (.error err)
        | .ok buf =>
          match httpNewRequest method u.String buf with
          | .error err => .ret (.error err)
          | .ok req =>
            let h1 := if body.isSome then req.Header.Set (str "Content-Type") (str "application/json")
              else req.Header
            let h2 := h1.Set (str "Accept") (str "application/json")
            let h3 := if c.UserAgent ≠ [] then h2.Set (str "User-Agent") c.UserAgent else h2
            .ret (.ok { req with Header := h3 })

/-- The clients allocated so far; a `*Client` is an index into the list. -/
abbrev Store := List Client

/-- NewClient returns a new Upcloud API Client.  If httpClient is nil, a new
http.Client is created (`defaultClient`, the behaviour of `&http.Client{}`).  The result
is the address of the new client and the store holding it. -/
def NewClient (defaultClient : HTTPClient) (httpClient : Option HTTPClient) (st : Store) :
    Addr × Store :=
  let httpClient := httpClient.getD defaultClient
  let baseURL :=
    match Parse defaultBaseURL with
    | .ok u => some u
    | .error _ => none
  let c : Addr := st.length
  let obj : Client := { client := httpClient, BaseURL := baseURL, UserAgent := userAgent }
  let obj := { obj with common := { client := some c } }
  let obj := { obj with Accounts := some { owner := c } }
  let obj := { obj with Pricing := some { owner := c } }
  let obj := { obj with Zones := some { owner := c } }
  (c, st ++ [obj])

/-- The service a facade pointer points to. -/
def Store.service (st : Store) (p : ServicePtr) : Option service :=
  (st.get? p.owner).map fun c => c.common

/-- What a call of `Client.Do` leaves behind: the two results, the decode target
afterwards, and the requests handed to the underlying client, in order. -/
structure DoResult (τ : Type) where
  resp : Option Response
  err : Option Error
  v : Option τ
  sent : List Request

/-- Do sends API request and returns http.Response.  (The deferred close of the body
does not enter the results and is left out.) -/
def Client.Do {τ : Type} (dec : Decoder τ) (decResp : ResponseDecoder)
    (c : Client) (ctx : Option Context) (req : Request) (v : Option τ) : DoResult τ :=
  match ctx with
  | none => { resp := none, err := some (.text (str "context must be non-nil")), v := v, sent := [] }
  | some cx =>
    let req := req.WithContext cx
    match c.client.Do req with
    | .error err =>
      if cx.done then { resp := none, err := cx.err.map Error.context, v := v, sent := [req] }
      else { resp := none, err := some err, v := v, sent := [req] }
    | .ok resp =>
      match ReadAll resp.Body with
      | (_, some err) => { resp := some resp, err := some err, v := v, sent := [req] }
      | (data, none) =>
        if 200 ≤ resp.StatusCode ∧ resp.StatusCode ≤ 299 then
          match v, data with
          | some target, some d =>
            let r := Unmarshal dec d target
            let decErr := match r.2 with
              | some .eof => none
              | e => e
            { resp := some resp, err := decErr, v := some r.1, sent := [req] }
          | _, _ => { resp := some resp, err := none, v := v, sent := [req] }
        else
          let errResp : ErrorResponse := { Response := some resp, APIError := none }
          match data with
          | some d =>
            let r := Unmarshal (decodeErrorResponse decResp) d errResp
            match r.2 with
            | some err => { resp := some resp, err := some err, v := v, sent := [req] }
            | none => { resp := some resp, err := some (.api r.1), v := v, sent := [req] }
          | none => { resp := some resp, err := some (.api errResp), v := v, sent := [req] }

/-! ## Resource services -/

/-- The resource services of the library, one type per file: `AccountService`,
`PricingService`, `ZonesService`, `PlansService`, `TimezonesService`. -/
inductive ServiceKind where
  | Accounts : ServiceKind
  | Pricing : ServiceKind
  | Zones : ServiceKind
  | Plans : ServiceKind
  | Timezones : ServiceKind
  deriving DecidableEq, Repr

/-- The facade a client holds for a service: the field of `Client` whose type is the
pointer to that service.  The struct has the fields Accounts, Pricing and Zones, and
none for `*PlansService` or `*TimezonesService`. -/
def Client.facade (c : Client) : ServiceKind → Option ServicePtr
  | .Accounts => c.Accounts
  | .Pricing => c.Pricing
  | .Zones => c.Zones
  | .Plans => none
  | .Timezones => none

/-- What a service method leaves behind: the decoded payload, the response, the error,
and the requests handed to the underlying client. -/
structure CallResult (τ : Type) where
  value : Option τ
  resp : Option Response
  err : Option Error
  sent : List Request

/-- GetAccountDetails returns a detailed account response for a given username.  A nil
`s.client` makes `NewRequest` dereference a nil `*Client`. -/
def AccountService.GetAccountDetails {τ : Type} (dec : Decoder τ) (decResp : ResponseDecoder)
    (st : Store) (s : service) (ctx : Option Context) (username : Bytes) (account : τ) :
    Outcome (CallResult τ) :=
  -- u := fmt.Sprintf("account/details/%v", username)
  let u := str "account/details/" ++ username
  match s.client with
  | none => .panic
  | some a =>
    match st.get? a with
    | none => .panic
    | some c =>
      match c.NewRequest (str "GET") u none with
      | .panic => .panic
      | .ret (.error err) => .ret { value := none, resp := none, err := some err, sent := [] }
      | .ret (.ok req) =>
        let r := c.Do dec decResp ctx req (some account)
        match r.err with
        | some err => .ret { value := none, resp := r.resp, err := some err, sent := r.sent }
        | none => .ret { value := r.v, resp := r.resp, err := none, sent := r.sent }

/-- ListAvailablePlans returns the description of each plan. -/
def PlansService.ListAvailablePlans {τ : Type} (dec : Decoder τ) (decResp : ResponseDecoder)
    (st : Store) (s : service) (ctx : Option Context) (planList : τ) : Outcome (CallResult τ) :=
  match s.client with
  | none => .panic
  | some a =>
    match st.get? a with
    | none => .panic
    | some c =>
      match c.NewRequest (str "GET") (str "plan") none with
      | .panic => .panic
      | .ret (.error err) => .ret { value := none, resp := none, err := some err, sent := [] }
      | .ret (.ok req) =>
        let r := c.Do dec decResp ctx req (some planList)
        match r.err with
        | some err => .ret { value := none, resp := r.resp, err := some err, sent := r.sent }
        | none => .ret { value := r.v, resp := r.resp, err := none, sent := r.sent }

/-- ListTimezones returns the list of timezones. -/
def TimezonesService.ListTimezones {τ : Type} (dec : Decoder τ) (decResp : ResponseDecoder)
    (st : Store) (s : service) (ctx : Option Context) (timezoneList : τ) :
    Outcome (CallResult τ) :=
  match s.client with
  | none => .panic
  | some a =>
    match st.get? a with
    | none => .panic
    | some c =>
      match c.NewRequest (str "GET") (str "timezone") none with
      | .panic => .panic
      | .ret (.error err) => .ret { value := none, resp := none, err := some err, sent := [] }
      | .ret (.ok req) =>
        let r := c.Do dec decResp ctx req (some timezoneList)
        match r.err with
        | some err => .ret { value := none, resp := r.resp, err := some err, sent := r.sent }
        | none => .ret { value := r.v, resp := r.resp, err := none, sent := r.sent }

/-- Did the call panic? -/
def Outcome.isPanic {α : Type} : Outcome α → Bool
  | .panic => true
  | .ret _ => false

/-! ## BasicAuthTransport -/

/-- A digit of the standard base64 alphabet. -/
def b64char (n : Nat) : Nat :=
  if n < 26 then 65 + n
  else if n < 52 then 97 + (n - 26)
  else if n < 62 then 48 + (n - 52)
  else if n = 62 then 43
  else 47

/-- The encoding `base64.StdEncoding.EncodeToString`, with padding. -/
def base64 : Bytes → Bytes
  | a :: b :: c :: rest =>
    b64char (a / 4) :: b64char (a % 4 * 16 + b / 16) :: b64char (b % 16 * 4 + c / 64)
      :: b64char (c % 64) :: base64 rest
  | [a, b] => [b64char (a / 4), b64char (a % 4 * 16 + b / 16), b64char (b % 16 * 4), 61]
  | [a] => [b64char (a / 4), b64char (a % 4 * 16), 61, 61]
  | [] => []

/-- The value `SetBasicAuth` gives the Authorization header: "Basic " and the base64
text of `username:password`. -/
def basicAuthValue (username password : Bytes) : Bytes :=
  str "Basic " ++ base64 (username ++ [58] ++ password)

/-- The header maps in memory; the address of a map is its index. -/
abbrev HeaderHeap := List Header

/-- A request object whose field Header holds the address of its map, or nil. -/
abbrev RequestRef := RequestOf (Option Addr)

/-- The map a request's Header field refers to; a nil map reads as the empty map. -/
def HeaderHeap.headerOf (heap : HeaderHeap) (r : RequestRef) : Header :=
  match r.Header with
  | some a => (heap.get? a).getD []
  | none => []

/-- The request as its reader sees it: the fields and the content of the header map. -/
def HeaderHeap.load (heap : HeaderHeap) (r : RequestRef) : Request :=
  { Method := r.Method, URL := r.URL, Header := heap.headerOf r, Body := r.Body, Host := r.Host,
    ctx := r.ctx }

/-- An `http.RoundTripper`: what it answers to a request it reads. -/
structure RoundTripper where
  RoundTrip : Request → Except Error Response

/-- BasicAuthTransport is an http.RoundTripper that authenticates all requests using
HTTP Basic Authentication with the provided username and password. -/
structure BasicAuthTransport where
  Username : Bytes
  Password : Bytes
  Transport : Option RoundTripper

/-- The method `transport`: the wrapped transport, or `http.DefaultTransport`. -/
def BasicAuthTransport.transport (defaultTransport : RoundTripper) (t : BasicAuthTransport) :
    RoundTripper :=
  match t.Transport with
  | some rt => rt
  | none => defaultTransport

/-- What a call of `RoundTrip` leaves behind: the header maps in memory, the request
object handed to the wrapped transport, and that transport's answer. -/
structure RoundTripResult where
  heap : HeaderHeap
  forwarded : RequestRef
  result : Except Error Response

/-- RoundTrip implements the RoundTripper interface. -/
def BasicAuthTransport.RoundTrip (defaultTransport : RoundTripper) (t : BasicAuthTransport)
    (heap : HeaderHeap) (req : RequestRef) : RoundTripResult :=
  -- req2 := new(http.Request); *req2 = *req
  let req2 : RequestRef := req
  -- req2.Header = make(http.Header, len(req.Header))
  let fresh : Addr := heap.length
  let heap1 : HeaderHeap := heap ++ [[]]
  let req2 : RequestRef := { req2 with Header := some fresh }
  -- for k, s := range req.Header: req2.Header[k] = append([]string(nil), s...)
  let copied : Header :=
    (heap1.headerOf req).foldl (fun m e => Header.put m e.1 e.2) ((heap1.get? fresh).getD [])
  let heap2 : HeaderHeap := heap1.set fresh copied
  -- req2.SetBasicAuth(t.Username, t.Password)
  let heap3 : HeaderHeap :=
    heap2.set fresh
      (Header.Set (heap2.headerOf req2) (str "Authorization") (basicAuthValue t.Username t.Password))
  -- return t.transport().RoundTrip(req2)
  { heap := heap3, forwarded := req2,
    result := (t.transport defaultTransport).RoundTrip (heap3.load req2) }

/-! ## Inputs of the examples -/

/-- A canned underlying client: every request gets the given response. -/
def cannedClient (resp : Response) : Client :=
  { client := { Do := fun _ => .ok resp }, BaseURL := none, UserAgent := [] }

/-- A failing underlying client: every request gets the given error. -/
def failingClient (e : Error) : Client :=
  { client := { Do := fun _ => .error e }, BaseURL := none, UserAgent := [] }

/-- A response with the given status and body and nothing else. -/
def cannedResponse (status : Int) (body : Bytes) : Response :=
  { StatusCode := status, Header := [], Body := { data := body, err := none }, Request := none }

/-- A request for the examples. -/
def sampleRequest : Request :=
  { Method := str "GET", URL := { Scheme := str "https", Host := str "api.upcloud.com", Path := str "/1.3/account" },
    Header := [], Body := none, Host := str "api.upcloud.com", ctx := none }

/-- A context that is not done. -/
def liveContext : Context := { done := false, err := none }

/-- A context that was cancelled. -/
def cancelledContext : Context := { done := true, err := some .canceled }

/-- A response decoder for the examples: the key `Response` is a type error. -/
def sampleResponseDecoder : ResponseDecoder := fun j r => (r, some (j.kind, str "Response"))

/-- The error envelope `{"error":{"error_code":code,"error_message":msg}}`. -/
def errorEnvelope (code msg : Bytes) : JSON :=
  .obj [(str "error", .obj [(str "error_code", .str code), (str "error_message", .str msg)])]

/-- The error body of the specification's example, an object with the one member
`error` holding `error_code` "INVALID" and `error_message` "bad field". -/
def sampleErrorBody : Bytes :=
  str "\x7b\"error\":\x7b\"error_code\":\"INVALID\",\"error_message\":\"bad field\"\x7d\x7d"

/-- A target decoder for the examples: it leaves the target alone. -/
def idleDecoder : Decoder Nat := fun _ n => (n, none)

/-- The header map `NewRequest` builds from the empty one. -/
def builtHeader (c : Client) (body : Option Body) : Header :=
  let h1 := if body.isSome then Header.Set [] (str "Content-Type") (str "application/json") else []
  let h2 := h1.Set (str "Accept") (str "application/json")
  if c.UserAgent ≠ [] then h2.Set (str "User-Agent") c.UserAgent else h2

/-- An underlying client for the examples: every call fails with a connection error. -/
def sampleHTTP : HTTPClient := { Do := fun _ => .error (.transport 0) }

/-- The URL that `defaultBaseURL` parses to. -/
def defaultBase : URL := { Scheme := str "https", Host := str "api.upcloud.com", Path := str "/1.3/" }

/-- A base URL without the trailing slash. -/
def noSlashBase : URL := { Scheme := str "https", Host := str "api.upcloud.com", Path := str "/1.3" }

/-- The client for the examples: the default base URL and user agent. -/
def sampleClient : Client :=
  { client := sampleHTTP, BaseURL := some defaultBase, UserAgent := userAgent }

/-- A body for the examples: an empty JSON object. -/
def sampleBody : Body := { encode := .ok (str "\x7b\x7d\n") }

/-- The request `NewRequest` builds for a PUT of the sample body to `account/details/bob`. -/
def samplePut : Request :=
  { Method := str "PUT",
    URL := { Scheme := str "https", Host := str "api.upcloud.com",
             Path := str "/1.3/account/details/bob" },
    Header := [(str "User-Agent", [str "go-upcloud"]), (str "Accept", [str "application/json"]),
               (str "Content-Type", [str "application/json"])],
    Body := some (str "\x7b\x7d\n"), Host := str "api.upcloud.com",
    ctx := some { done := false, err := none } }

/-- Is the error the one of the base-URL guard of `NewRequest`? -/
def Error.isTrailingSlash : Error → Bool
  | .trailingSlash _ => true
  | _ => false

/-- A header map for the examples, with an Authorization entry to be replaced. -/
def sampleHeader : Header :=
  [(str "Accept", [str "application/json"]), (str "Authorization", [str "Basic b2xk"])]

/-- A request object for the examples whose header map is at address 0. -/
def sampleRequestRef : RequestRef :=
  { Method := str "GET", URL := defaultBase, Header := some 0, Body := none,
    Host := str "api.upcloud.com", ctx := none }

/-- The transport of the examples: the credentials of RFC 7617 over the default
transport. -/
def sampleAuth : BasicAuthTransport :=
  { Username := str "Aladdin", Password := str "open sesame", Transport := none }

/-! ## Plain URLs and paths -/

/-- A byte that a path segment may hold as it is: a letter, a digit, or one of
`- _ . ~ $ & + , : ; = @`. -/
def pathSafe (c : Nat) : Bool :=
  isLetter c || isDigit c || c = 45 || c = 95 || c = 46 || c = 126 || c = 36 || c = 38 || c = 43
    || c = 44 || c = 58 || c = 59 || c = 61 || c = 64

/-- A byte of a plain host name: a letter, a digit, `-` or `.`. -/
def hostSafe (c : Nat) : Bool := isLetter c || isDigit c || c = 45 || c = 46

/-- A byte of a lower-case scheme after its first letter. -/
def schemeSafe (c : Nat) : Bool := isLower c || isDigit c || c = 43 || c = 45 || c = 46

/-- The text whose elements `strings.Split(s, "/")` yields. -/
def joinSlash : List Bytes → Bytes
  | [] => []
  | seg :: segs => seg ++ segs.flatMap (fun s => 47 :: s)

/-- No element of the path is `.` or `..`. -/
def noDotSegments (s : Bytes) : Bool :=
  (splitByte 47 s).all fun seg => decide (seg ≠ [46]) && decide (seg ≠ [46, 46])

/-- A lower-case scheme: a lower-case letter, then lower-case letters, digits, `+`, `-`
or `.`. -/
def plainScheme : Bytes → Bool
  | [] => false
  | c :: rest => isLower c && rest.all schemeSafe

/-- A text of path-safe bytes and slashes. -/
def plainText (s : Bytes) : Bool := s.all fun c => pathSafe c || c = 47

/-- A plain host name: not empty, of letters, digits, `-` and `.`. -/
def plainHost (h : Bytes) : Bool := h ≠ [] && h.all hostSafe

/-- A plain directory path: rooted, ending in a slash, of path-safe bytes and slashes,
without dot segments. -/
def plainDir (p : Bytes) : Bool :=
  decide (p.head? = some 47) && HasSuffix p [47] && plainText p && noDotSegments p

/-- A base URL in plain form: `scheme://host/dir/` with a lower-case scheme, a plain
host, a plain directory path, and neither user, opaque part nor RawPath. -/
def URL.isPlain (b : URL) : Bool :=
  plainScheme b.Scheme && decide (b.Opaque = []) && decide (b.User = none) && plainHost b.Host
    && plainDir b.Path && decide (b.RawPath = [])

/-- A user name that is one plain path segment: path-safe bytes, and neither `.` nor
`..`. -/
def plainSegment (u : Bytes) : Bool :=
  u.all pathSafe && decide (u ≠ [46]) && decide (u ≠ [46, 46])

/-- A relative path in plain form: not empty, not rooted, of path-safe bytes and
slashes, without dot segments and without a colon in its first element. -/
def plainRelative (ref : Bytes) : Bool :=
  decide (ref ≠ []) && decide (ref.head? ≠ some 47) && plainText ref && noDotSegments ref
    && !(cutByte 47 ref).1.contains 58

/-! ## Inputs of the examples for the account service -/

/-- The store after `NewClient(nil)` on an empty store; the client is at address 0. -/
def sampleStore : Store := (NewClient sampleHTTP none []).2

/-- The client `NewClient(nil)` allocates in an empty store. -/
def newSampleClient : Client :=
  { client := sampleHTTP, BaseURL := some defaultBase, UserAgent := userAgent,
    common := { client := some 0 }, Accounts := some { owner := 0 },
    Pricing := some { owner := 0 }, Zones := some { owner := 0 } }

/-- The request built for the user name `a?b`. -/
def queryRequest : Request :=
  { Method := str "GET",
    URL := { Scheme := str "https", Host := str "api.upcloud.com",
             Path := str "/1.3/account/details/a", RawQuery := str "b" },
    Header := [(str "User-Agent", [str "go-upcloud"]), (str "Accept", [str "application/json"])],
    Body := none, Host := str "api.upcloud.com", ctx := some { done := false, err := none } }

/-- The request built for the user name `..`. -/
def parentRequest : Request :=
  { Method := str "GET",
    URL := { Scheme := str "https", Host := str "api.upcloud.com", Path := str "/1.3/account/" },
    Header := [(str "User-Agent", [str "go-upcloud"]), (str "Accept", [str "application/json"])],
    Body := none, Host := str "api.upcloud.com", ctx := some { done := false, err := none } }

/-! ## ErrorResponse.Error -/

/-- The decimal text of an integer, as the verb `%d` prints it. -/
def formatInt (n : Int) : Bytes :=
  match n with
  | .ofNat k => (Nat.toDigits 10 k).map Char.toNat
  | .negSucc k => 45 :: (Nat.toDigits 10 (k + 1)).map Char.toNat

/-- The method `(*ErrorResponse).Error`:
`fmt.Sprintf("%v %v: %d %v - %v", r.Response.Request.Method, r.Response.Request.URL,
r.Response.StatusCode, r.APIError.Code, r.APIError.Message)`.  Each of `r.Response`,
`r.Response.Request` and `r.APIError` is dereferenced; a nil one panics. -/
def ErrorResponse.Error (r : ErrorResponse) : Outcome Bytes :=
  match r.Response with
  | none => .panic
  | some resp =>
    match resp.Request with
    | none => .panic
    | some req =>
      match r.APIError with
      | none => .panic
      | some e =>
        .ret (req.Method ++ [32] ++ req.URL.String ++ [58, 32] ++ formatInt resp.StatusCode ++ [32]
          ++ e.Code ++ [32, 45, 32] ++ e.Message)

/-- A response with the given status and body that echoes the sample request, as the
responses of `http.Client` do. -/
def echoResponse (status : Int) (body : Bytes) : Response :=
  { StatusCode := status, Header := [], Body := { data := body, err := none },
    Request := some sampleRequest }

/-- The body that is the empty object. -/
def emptyObjectBody : Bytes := str "\x7b\x7d"

/-- The body `null`. -/
def nullBody : Bytes := str "null"

/-- The body that is an object with the one member `error`, which is `null`. -/
def nullErrorBody : Bytes := str "\x7b\"error\":null\x7d"

/-- The `*ErrorResponse` that Do starts from: the response, and no APIError. -/
def bareErrorResponse (resp : Response) : ErrorResponse :=
  { Response := some resp, APIError := none }

/-! ## encoding/json: encoding -/

/-- A lower-case hexadecimal digit (`hex` of encoding/json). -/
def hexLower (n : Nat) : Nat := if n < 10 then 48 + n else 87 + n

/-- The body of `appendString` without HTML escaping: `"` and `\` get a backslash,
control bytes their short or `\u00XX` escape, malformed UTF-8 becomes the escape of U+FFFD, and
U+2028 and U+2029 are written as escapes.  The first argument bounds the number of
steps; the length of the text is enough. -/
def quoteAux : Nat → Bytes → Bytes
  | 0, _ => []
  | _ + 1, [] => []
  | n + 1, c :: rest =>
    if c < 0x80 then
      (if c = 92 ∨ c = 34 then [92, c]
       else if c = 8 then [92, 98]
       else if c = 12 then [92, 102]
       else if c = 10 then [92, 110]
       else if c = 13 then [92, 114]
       else if c = 9 then [92, 116]
       else if c < 32 then [92, 117, 48, 48, hexLower (c / 16), hexLower (c % 16)]
       else [c]) ++ quoteAux n rest
    else
      match rest with
      | b1 :: b2 :: b3 :: rest3 =>
        if valid2 c b1 then c :: b1 :: quoteAux n (b2 :: b3 :: rest3)
        else if valid3 c b1 b2 then
          (if c = 0xE2 ∧ b1 = 0x80 ∧ (b2 = 0xA8 ∨ b2 = 0xA9) then
            [92, 117, 50, 48, 50, hexLower (b2 % 16)]
           else [c, b1, b2]) ++ quoteAux n (b3 :: rest3)
        else if valid4 c b1 b2 b3 then c :: b1 :: b2 :: b3 :: quoteAux n rest3
        else [92, 117, 102, 102, 102, 100] ++ quoteAux n rest
      | b1 :: b2 :: [] =>
        if valid2 c b1 then c :: b1 :: quoteAux n [b2]
        else if valid3 c b1 b2 then
          (if c = 0xE2 ∧ b1 = 0x80 ∧ (b2 = 0xA8 ∨ b2 = 0xA9) then
            [92, 117, 50, 48, 50, hexLower (b2 % 16)]
           else [c, b1, b2])
        else [92, 117, 102, 102, 102, 100] ++ quoteAux n rest
      | b1 :: [] =>
        if valid2 c b1 then [c, b1] else [92, 117, 102, 102, 102, 100] ++ quoteAux n rest
      | [] => [92, 117, 102, 102, 102, 100]

/-- A Go string as a JSON string literal. -/
def quoteString (s : Bytes) : Bytes := 34 :: quoteAux s.length s ++ [34]

mutual
/-- The compact text the encoder writes for a JSON value. -/
def encodeJSON : JSON → Bytes
  | .null => str "null"
  | .bool b => if b then str "true" else str "false"
  | .num raw => raw
  | .str s => quoteString s
  | .arr xs => 91 :: encodeElems xs ++ [93]
  | .obj kvs => 123 :: encodeMembers kvs ++ [125]
/-- The elements of an array, separated by commas. -/
def encodeElems : List JSON → Bytes
  | [] => []
  | [x] => encodeJSON x
  | x :: y :: xs => encodeJSON x ++ 44 :: encodeElems (y :: xs)
/-- The members of an object, separated by commas. -/
def encodeMembers : List (Bytes × JSON) → Bytes
  | [] => []
  | [(k, v)] => quoteString k ++ 58 :: encodeJSON v
  | (k, v) :: kv :: kvs => quoteString k ++ 58 :: encodeJSON v ++ 44 :: encodeMembers (kv :: kvs)
end

mutual
/-- Does the key occur in an object of the document, at any depth? -/
def JSON.hasKey (key : Bytes) : JSON → Bool
  | .arr xs => elemsHaveKey key xs
  | .obj kvs => membersHaveKey key kvs
  | _ => false
/-- Does the key occur in one of the elements? -/
def elemsHaveKey (key : Bytes) : List JSON → Bool
  | [] => false
  | x :: xs => JSON.hasKey key x || elemsHaveKey key xs
/-- Does the key occur among the members or inside one of their values? -/
def membersHaveKey (key : Bytes) : List (Bytes × JSON) → Bool
  | [] => false
  | (k, v) :: kvs => decide (k = key) || JSON.hasKey key v || membersHaveKey key kvs
end

/-! ## Accounts -/

/-- Roles represents the list of roles an account may have. -/
structure Roles where
  Role : Option (List Bytes)
  deriving DecidableEq, Repr

/-- The struct of the field `NetworkAccess`. -/
structure NetworkAccess where
  Networks : Option (List Bytes)
  deriving DecidableEq, Repr

/-- An element of `ServerAccess.Servers`. -/
structure ServerEntry where
  Storage : Bytes
  UUID : Bytes
  deriving DecidableEq, Repr

/-- The struct of the field `ServerAccess`. -/
structure ServerAccess where
  Servers : Option (List ServerEntry)
  deriving DecidableEq, Repr

/-- The struct of the field `StorageAccess`. -/
structure StorageAccess where
  Storage : Option (List Bytes)
  deriving DecidableEq, Repr

/-- An element of `TagAccess.Tags`. -/
structure TagEntry where
  Name : Bytes
  Storage : Bytes
  deriving DecidableEq, Repr

/-- The struct of the field `TagAccess`. -/
structure TagAccess where
  Tags : Option (List TagEntry)
  deriving DecidableEq, Repr

/-- The struct of the field `IPFilters`. -/
structure IPFilterList where
  IPFilters : Option (List Bytes)
  deriving DecidableEq, Repr

/-- Account represents a detailed account on Upcloud.  A slice is `none` when nil; the
field `Type` is written `Type_`. -/
structure Account where
  MainAccount : Bytes
  Type_ : Bytes
  Username : Bytes
  FirstName : Bytes
  LastName : Bytes
  Company : Bytes
  Address : Bytes
  PostalCode : Bytes
  City : Bytes
  State : Bytes
  Country : Bytes
  Currency : Bytes
  Language : Bytes
  Phone : Bytes
  Email : Bytes
  VATNumber : Bytes
  Timezone : Bytes
  Password : Bytes
  Roles : Roles
  AllowAPI : Bytes
  AllowGUI : Bytes
  Enable3rdPartyServices : Bytes
  NetworkAccess : NetworkAccess
  ServerAccess : ServerAccess
  StorageAccess : StorageAccess
  TagAccess : TagAccess
  IPFilters : IPFilterList
  deriving DecidableEq, Repr

/-- AccountDetails represents the request/response from the Details API method; the
field is a `*Account`, an address in the memory of accounts. -/
structure AccountDetails where
  Account : Option Addr
  deriving DecidableEq, Repr

/-- A string field tagged `omitempty`: no member when the string is empty. -/
def omitEmptyString (key value : Bytes) : List (Bytes × JSON) :=
  if value = [] then [] else [(key, .str value)]

/-- A `[]string` as JSON: `null` when nil, an array of strings otherwise. -/
def stringsJSON : Option (List Bytes) → JSON
  | none => .null
  | some xs => .arr (xs.map JSON.str)

/-- A slice field tagged `omitempty`: no member when the slice has no element. -/
def omitEmptyStrings (key : Bytes) (value : Option (List Bytes)) : List (Bytes × JSON) :=
  match value with
  | none => []
  | some [] => []
  | some (x :: xs) => [(key, stringsJSON (some (x :: xs)))]

/-- An element of `ServerAccess.Servers` as JSON. -/
def ServerEntry.toJSON (e : ServerEntry) : JSON :=
  .obj [(str "storage", .str e.Storage), (str "uuid", .str e.UUID)]

/-- An element of `TagAccess.Tags` as JSON. -/
def TagEntry.toJSON (e : TagEntry) : JSON :=
  .obj [(str "name", .str e.Name), (str "storage", .str e.Storage)]

/-- The slice `ServerAccess.Servers` as JSON: `null` when nil, an array otherwise. -/
def serversJSON : Option (List ServerEntry) → JSON
  | none => .null
  | some es => .arr (es.map ServerEntry.toJSON)

/-- The slice `TagAccess.Tags` as JSON: `null` when nil, an array otherwise. -/
def tagsJSON : Option (List TagEntry) → JSON
  | none => .null
  | some es => .arr (es.map TagEntry.toJSON)

/-- The members the encoder writes for an `Account`, in the order of the fields and
under the names of their tags.  A field tagged `omitempty` is left out when it is an
empty string or a slice without elements; a struct is never left out. -/
def Account.members (a : Account) : List (Bytes × JSON) :=
  omitEmptyString (str "main_account") a.MainAccount
    ++ omitEmptyString (str "type") a.Type_
    ++ omitEmptyString (str "username") a.Username
    ++ omitEmptyString (str "first_name") a.FirstName
    ++ omitEmptyString (str "last_name") a.LastName
    ++ omitEmptyString (str "company") a.Company
    ++ omitEmptyString (str "address") a.Address
    ++ omitEmptyString (str "postal_code") a.PostalCode
    ++ omitEmptyString (str "city") a.City
    ++ omitEmptyString (str "state") a.State
    ++ omitEmptyString (str "country") a.Country
    ++ [(str "currency", .str a.Currency), (str "language", .str a.Language),
        (str "phone", .str a.Phone), (str "email", .str a.Email)]
    ++ omitEmptyString (str "vat_number") a.VATNumber
    ++ [(str "timezone", .str a.Timezone)]
    ++ omitEmptyString (str "password") a.Password
    ++ [(str "roles", .obj [(str "role", stringsJSON a.Roles.Role)]),
        (str "allow_api", .str a.AllowAPI), (str "allow_gui", .str a.AllowGUI)]
    ++ omitEmptyString (str "enable_3rd_party_services") a.Enable3rdPartyServices
    ++ [(str "network_access", .obj (omitEmptyStrings (str "network") a.NetworkAccess.Networks)),
        (str "server_access", .obj [(str "server", serversJSON a.ServerAccess.Servers)]),
        (str "storage_access", .obj [(str "storage", stringsJSON a.StorageAccess.Storage)]),
        (str "tag_access", .obj [(str "tag", tagsJSON a.TagAccess.Tags)]),
        (str "ip_filters", .obj [(str "ip_filter", stringsJSON a.IPFilters.IPFilters)])]

/-- An `Account` as JSON. -/
def Account.toJSON (a : Account) : JSON := .obj a.members

/-- The accounts in memory; a `*Account` is an index into the list. -/
abbrev AccountMemory := List Account

/-- An `*AccountDetails` as JSON: the envelope `account` around the account its
pointer refers to, `null` for a nil pointer. -/
def AccountDetails.toJSON (mem : AccountMemory) (d : AccountDetails) : JSON :=
  .obj [(str "account",
    match d.Account with
    | none => .null
    | some p =>
      match mem.get? p with
      | some a => a.toJSON
      | none => .null)]

/-- An `*AccountDetails` as the body of a request: the encoder writes its JSON text
and a line feed, and cannot fail on these types. -/
def AccountDetails.body (mem : AccountMemory) (d : AccountDetails) : Body :=
  { encode := .ok (encodeJSON (d.toJSON mem) ++ [10]) }

/-- The decoder of a call of Do whose target `v` is nil: there is nothing to decode
into. -/
def noTarget : Decoder Unit := fun _ v => (v, none)

/-- What a call of `ModifyAccount` leaves behind: the two results, the requests handed
to the underlying client, and the accounts in memory. -/
structure ModifyResult where
  resp : Option Response
  err : Option Error
  sent : List Request
  accounts : AccountMemory

/-- ModifyAccount you probably want ModifyAccountDetails or ModifySubAccountDetails;
kind can only be `details` or `sub`.  The local `trimAccount`, whose address is
taken, is the last account of the memory afterwards. -/
def AccountService.ModifyAccount (decResp : ResponseDecoder) (st : Store) (mem : AccountMemory)
    (s : service) (ctx : Option Context) (kind : Bytes) (account : Option Addr)
    (username : Bytes) : Outcome ModifyResult :=
  match account with
  | none => .panic
  | some p =>
    match mem.get? p with
    | none => .panic
    | some a =>
      -- trimAccount := *account
      let trimAccount : Account := a
      let trimAccount := { trimAccount with MainAccount := [] }
      let trimAccount := { trimAccount with Username := [] }
      let trimAccount := { trimAccount with Type_ := [] }
      let trimAccount := { trimAccount with Password := [] }
      let mem1 : AccountMemory := mem ++ [trimAccount]
      -- u := fmt.Sprintf("account/%v/%v", kind, username)
      let u := str "account/" ++ kind ++ [47] ++ username
      match s.client with
      | none => .panic
      | some ca =>
        match st.get? ca with
        | none => .panic
        | some c =>
          match c.NewRequest (str "PUT") u
              (some (AccountDetails.body mem1 { Account := some mem.length })) with
          | .panic => .panic
          | .ret (.error err) => .ret { resp := none, err := some err, sent := [], accounts := mem1 }
          | .ret (.ok req) =>
            let r := c.Do noTarget decResp ctx req none
            .ret { resp := r.resp, err := r.err, sent := r.sent, accounts := mem1 }

/-- ModifyAccountDetails modifies the details of the given username with properties
defined in acc. -/
def AccountService.ModifyAccountDetails (decResp : ResponseDecoder) (st : Store)
    (mem : AccountMemory) (s : service) (ctx : Option Context) (acc : Option Addr)
    (username : Bytes) : Outcome ModifyResult :=
  AccountService.ModifyAccount decResp st mem s ctx (str "details") acc username

/-- ModifySubAccountDetails modifies the details of a sub account of the given username
with properties defined in acc. -/
def AccountService.ModifySubAccountDetails (decResp : ResponseDecoder) (st : Store)
    (mem : AccountMemory) (s : service) (ctx : Option Context) (acc : Option Addr)
    (username : Bytes) : Outcome ModifyResult :=
  AccountService.ModifyAccount decResp st mem s ctx (str "sub") acc username

/-! ## Inputs of the examples for ModifyAccount -/

/-- An account for the examples. -/
def sampleAccount : Account :=
  { MainAccount := str "yes", Type_ := str "main", Username := str "ada", FirstName := str "Ada",
    LastName := str "L", Company := [], Address := [], PostalCode := [], City := [], State := [],
    Country := str "GBR", Currency := str "GBP", Language := str "en", Phone := [],
    Email := str "ada@example.com", VATNumber := [], Timezone := str "UTC",
    Password := str "secret", Roles := { Role := none }, AllowAPI := str "yes",
    AllowGUI := str "no", Enable3rdPartyServices := [],
    NetworkAccess := { Networks := none }, ServerAccess := { Servers := some [] },
    StorageAccess := { Storage := none },
    TagAccess := { Tags := some [{ Name := str "t", Storage := str "no" }] },
    IPFilters := { IPFilters := some [str "10.0.0.1"] } }

/-- The keys the encoder can write for an account, other than `main_account`, `type`,
`username` and `password`. -/
def otherKeys : List Bytes :=
  [str "first_name", str "last_name", str "company", str "address", str "postal_code",
   str "city", str "state", str "country", str "currency", str "language", str "phone",
   str "email", str "vat_number", str "timezone", str "roles", str "role", str "allow_api",
   str "allow_gui", str "enable_3rd_party_services", str "network_access", str "network",
   str "server_access", str "server", str "storage", str "uuid", str "storage_access",
   str "tag_access", str "tag", str "name", str "ip_filters", str "ip_filter"]

/-- The text the encoder writes for the envelope of the trimmed sample account. -/
def sampleTrimmedText : Bytes :=
  str ("\x7b\"account\":\x7b\"first_name\":\"Ada\",\"last_name\":\"L\",\"country\":\"GBR\","
    ++ "\"currency\":\"GBP\",\"language\":\"en\",\"phone\":\"\",\"email\":\"ada@example.com\","
    ++ "\"timezone\":\"UTC\",\"roles\":\x7b\"role\":null\x7d,\"allow_api\":\"yes\","
    ++ "\"allow_gui\":\"no\",\"network_access\":\x7b\x7d,\"server_access\":\x7b\"server\":[]\x7d,"
    ++ "\"storage_access\":\x7b\"storage\":null\x7d,"
    ++ "\"tag_access\":\x7b\"tag\":[\x7b\"name\":\"t\",\"storage\":\"no\"\x7d]\x7d,"
    ++ "\"ip_filters\":\x7b\"ip_filter\":[\"10.0.0.1\"]\x7d\x7d\x7d\n")

/-- The method, the path and the body of the requests a call handed to the underlying
client, and the accounts in memory afterwards. -/
def ModifyResult.summary (r : ModifyResult) : List (Bytes × Bytes × Option Bytes) × AccountMemory :=
  (r.sent.map fun q => (q.Method, q.URL.Path, q.Body), r.accounts)

/-- The summary of a call that returned. -/
def Outcome.summary : Outcome ModifyResult → Option (List (Bytes × Bytes × Option Bytes) × AccountMemory)
  | .ret r => some r.summary
  | .panic => none

/-- The sample account after the four fields are cleared. -/
def sampleTrimmed : Account :=
  { sampleAccount with MainAccount := [], Username := [], Type_ := [], Password := [] }

/-! # Theorems -/

/-! ## Properties of Client.Do -/

/-- C1: for a status outside 200..299 and a body that is the JSON object
`{"error":{"error_code":c,"error_message":m}}`, Do with a non-nil context returns the
transport's response (with that status) and an `*ErrorResponse` whose APIError has code
`c` and message `m` and whose Response is that response. -/
theorem Do_api_error_translation {τ : Type} (dec : Decoder τ) (decResp : ResponseDecoder)
    (c : Client) (cx : Context) (req : Request) (v : Option τ) (resp : Response)
    (status : Int) (body code msg : Bytes)
    (hsend : c.client.Do (req.WithContext cx) = .ok resp)
    (hcode : resp.StatusCode = status)
    (hstatus : status < 200 ∨ 299 < status)
    (hbody : resp.Body = { data := body, err := none })
    (hjson : parseJSON body = .ok (errorEnvelope code msg)) :
    (c.Do dec decResp (some cx) req v).resp = some resp
    ∧ (c.Do dec decResp (some cx) req v).err
        = some (.api { Response := some resp, APIError := some { Code := code, Message := msg } })
    ∧ (∀ r, (c.Do dec decResp (some cx) req v).resp = some r → r.StatusCode = status) := by
  have hns : ¬ (200 ≤ resp.StatusCode ∧ resp.StatusCode ≤ 299) := by omega
  have hd : (c.Do dec decResp (some cx) req v)
      = { resp := some resp,
          err := some (.api { Response := some resp, APIError := some { Code := code, Message := msg } }),
          v := v, sent := [req.WithContext cx] } := by
    simp only [Client.Do, hsend, ReadAll, hbody, Option.map_none', if_neg hns, Unmarshal, hjson,
      errorEnvelope, decodeErrorResponse]
    have e1 : fieldMatches (str "Response") (str "error") = false := by decide
    have e2 : fieldMatches (str "error") (str "error") = true := by decide
    have e3 : fieldMatches (str "error_message") (str "error_code") = false := by decide
    have e4 : fieldMatches (str "error_code") (str "error_code") = true := by decide
    have e5 : fieldMatches (str "error_message") (str "error_message") = true := by decide
    simp [decodeErrorResponseMembers, storeAPIError, decodeAPIErrorMembers, storeString,
      saveError, e1, e2, e3, e4, e5]
  rw [hd]
  refine ⟨rfl, rfl, ?_⟩
  intro r hr
  cases hr
  exact hcode

/-- C1, witness: status 422 with the body of the specification. -/
theorem Do_api_error_translation_witness :
    (let resp := cannedResponse 422
        sampleErrorBody
     let r := (cannedClient resp).Do (fun (_ : JSON) (n : Nat) => (n, none)) sampleResponseDecoder
        (some liveContext) sampleRequest (some 0)
     r.resp = some resp
     ∧ r.err = some (.api
          { Response := some resp, APIError := some { Code := str "INVALID", Message := str "bad field" } })
     ∧ (∀ r1, r.resp = some r1 → r1.StatusCode = 422)) :=
  Do_api_error_translation (fun (_ : JSON) (n : Nat) => (n, none)) sampleResponseDecoder
    (cannedClient (cannedResponse 422
      sampleErrorBody))
    liveContext sampleRequest (some 0)
    (cannedResponse 422 sampleErrorBody) 422 sampleErrorBody
    (str "INVALID") (str "bad field") rfl rfl (by decide) rfl (by rfl)

/-- C2 (what the code does): a canned transport answers 204 with an empty body and the
decode target is non-nil.  Do returns the response, leaves the target as it was, and
returns the syntax error "unexpected end of JSON input" of `json.Unmarshal`: the
comparison with `io.EOF` never holds for an error of `json.Unmarshal`. -/
theorem Do_empty_success_body_is_decode_error {τ : Type} (dec : Decoder τ)
    (decResp : ResponseDecoder) (t : τ) :
    ((cannedClient (cannedResponse 204 [])).Do dec decResp (some liveContext) sampleRequest
        (some t)).resp = some (cannedResponse 204 [])
    ∧ ((cannedClient (cannedResponse 204 [])).Do dec decResp (some liveContext) sampleRequest
        (some t)).err = some (.badJSON .unexpectedEnd)
    ∧ ((cannedClient (cannedResponse 204 [])).Do dec decResp (some liveContext) sampleRequest
        (some t)).v = some t := by
  refine ⟨rfl, rfl, rfl⟩

/-- With a non-nil context Do hands exactly one request to the underlying client: the
request bound to the context. -/
theorem Do_sent {τ : Type} (dec : Decoder τ) (decResp : ResponseDecoder)
    (c : Client) (cx : Context) (req : Request) (v : Option τ) :
    (c.Do dec decResp (some cx) req v).sent = [req.WithContext cx] := by
  simp only [Client.Do]
  cases c.client.Do (req.WithContext cx) with
  | error e =>
    by_cases hd : cx.done = true
    · simp [hd]
    · simp [hd]
  | ok resp =>
    simp only [ReadAll]
    cases resp.Body.err with
    | some n => simp
    | none =>
      simp only [Option.map_none']
      by_cases hs : 200 ≤ resp.StatusCode ∧ resp.StatusCode ≤ 299
      · rw [if_pos hs]
        cases v with
        | none => rfl
        | some t => rfl
      · rw [if_neg hs]
        cases (Unmarshal (decodeErrorResponse decResp) resp.Body.data
          { Response := some resp, APIError := none }).2 with
        | none => rfl
        | some e => rfl

/-- C5: with a nil context Do returns no response and an error and the underlying
client is not invoked; with a non-nil context the underlying client is invoked exactly
once, with the request bound to that context. -/
theorem Do_context_and_single_attempt {τ : Type} (dec : Decoder τ) (decResp : ResponseDecoder)
    (c : Client) (req : Request) (v : Option τ) :
    ((c.Do dec decResp none req v).resp = none
      ∧ (c.Do dec decResp none req v).err ≠ none
      ∧ (c.Do dec decResp none req v).sent = [])
    ∧ (∀ cx : Context, (c.Do dec decResp (some cx) req v).sent = [req.WithContext cx]
        ∧ (c.Do dec decResp (some cx) req v).sent.length = 1) := by
  refine ⟨⟨rfl, by simp [Client.Do], rfl⟩, ?_⟩
  intro cx
  have h := Do_sent dec decResp c cx req v
  exact ⟨h, by rw [h]; rfl⟩

/-- C6: when the underlying client returns an error, Do returns no response, and the
error is `ctx.Err()` if the context is done and the client's error, unchanged, if not. -/
theorem Do_cancellation_preference {τ : Type} (dec : Decoder τ) (decResp : ResponseDecoder)
    (c : Client) (cx : Context) (req : Request) (v : Option τ) (e : Error)
    (hsend : c.client.Do (req.WithContext cx) = .error e) :
    (c.Do dec decResp (some cx) req v).resp = none
    ∧ (c.Do dec decResp (some cx) req v).err
        = (if cx.done then cx.err.map Error.context else some e) := by
  simp only [Client.Do, hsend]
  by_cases hd : cx.done = true
  · simp [hd]
  · simp [hd]

/-- C6, witness: a client failing with a connection error, under a cancelled context
and under a live one. -/
theorem Do_cancellation_preference_witness :
    (((failingClient (.transport 7)).Do idleDecoder sampleResponseDecoder (some cancelledContext)
        sampleRequest (some 0)).resp = none
      ∧ ((failingClient (.transport 7)).Do idleDecoder sampleResponseDecoder (some cancelledContext)
        sampleRequest (some 0)).err = some (.context .canceled))
    ∧ (((failingClient (.transport 7)).Do idleDecoder sampleResponseDecoder (some liveContext)
        sampleRequest (some 0)).resp = none
      ∧ ((failingClient (.transport 7)).Do idleDecoder sampleResponseDecoder (some liveContext)
        sampleRequest (some 0)).err = some (.transport 7)) :=
  ⟨Do_cancellation_preference idleDecoder sampleResponseDecoder (failingClient (.transport 7))
      cancelledContext sampleRequest (some 0) (.transport 7) rfl,
   Do_cancellation_preference idleDecoder sampleResponseDecoder (failingClient (.transport 7))
      liveContext sampleRequest (some 0) (.transport 7) rfl⟩

/-- The errors of decoding into the struct of `APIError` are type errors. -/
theorem decodeAPIErrorMembers_err (kvs : List (Bytes × JSON)) (acc : APIError × Option Error)
    (h : ∀ e, acc.2 = some e → e.isErrorResponse = false) :
    ∀ e, (decodeAPIErrorMembers kvs acc).2 = some e → e.isErrorResponse = false := by
  induction kvs generalizing acc with
  | nil => simpa [decodeAPIErrorMembers] using h
  | cons kv rest ih =>
    obtain ⟨k, j⟩ := kv
    obtain ⟨a, err⟩ := acc
    have hs : ∀ (f cur : Bytes) (e : Error),
        saveError err (storeString f j cur).2 = some e → e.isErrorResponse = false := by
      intro f cur e he
      cases err with
      | some e0 => exact h e (by simpa [saveError] using he)
      | none =>
        cases j <;> simp [saveError, storeString] at he <;> subst he <;> rfl
    simp only [decodeAPIErrorMembers]
    split
    · exact ih _ (hs _ _)
    · split
      · exact ih _ (hs _ _)
      · exact ih _ h

/-- The errors of decoding into an `ErrorResponse` are type errors, never an
`*ErrorResponse`. -/
theorem decodeErrorResponseMembers_err (decResp : ResponseDecoder) (kvs : List (Bytes × JSON))
    (acc : ErrorResponse × Option Error)
    (h : ∀ e, acc.2 = some e → e.isErrorResponse = false) :
    ∀ e, (decodeErrorResponseMembers decResp kvs acc).2 = some e → e.isErrorResponse = false := by
  induction kvs generalizing acc with
  | nil => simpa [decodeErrorResponseMembers] using h
  | cons kv rest ih =>
    obtain ⟨k, j⟩ := kv
    obtain ⟨a, err⟩ := acc
    simp only [decodeErrorResponseMembers]
    split
    · apply ih
      intro e he
      cases err with
      | some e0 => exact h e (by simpa [saveError] using he)
      | none =>
        cases hr : (decResp j a.Response).2 with
        | none => simp [saveError, hr] at he
        | some t =>
          simp [saveError, hr] at he
          subst he
          rfl
    · split
      · apply ih
        intro e he
        cases err with
        | some e0 => exact h e (by simpa [saveError] using he)
        | none =>
          simp only [saveError] at he
          cases j with
          | obj kvs2 =>
            refine decodeAPIErrorMembers_err kvs2 _ ?_ e (by simpa [storeAPIError] using he)
            intro _ h0
            cases h0
          | null => simp [storeAPIError] at he
          | bool b => simp [storeAPIError] at he; subst he; rfl
          | num n => simp [storeAPIError] at he; subst he; rfl
          | str n => simp [storeAPIError] at he; subst he; rfl
          | arr n => simp [storeAPIError] at he; subst he; rfl
      · exact ih _ h

/-- The errors of `json.Unmarshal` into an `*ErrorResponse` are JSON errors, never an
`*ErrorResponse`. -/
theorem Unmarshal_errorResponse_err (decResp : ResponseDecoder) (data : Bytes)
    (e0 : ErrorResponse) (e : Error)
    (h : (Unmarshal (decodeErrorResponse decResp) data e0).2 = some e) :
    e.isErrorResponse = false := by
  unfold Unmarshal at h
  cases hp : parseJSON data with
  | error se =>
    simp [hp] at h
    subst h
    rfl
  | ok j =>
    simp only [hp] at h
    cases j with
    | obj kvs =>
      refine decodeErrorResponseMembers_err decResp kvs _ ?_ e h
      intro _ h0
      cases h0
    | null => simp [decodeErrorResponse] at h
    | bool b => simp [decodeErrorResponse] at h; subst h; rfl
    | num n => simp [decodeErrorResponse] at h; subst h; rfl
    | str n => simp [decodeErrorResponse] at h; subst h; rfl
    | arr n => simp [decodeErrorResponse] at h; subst h; rfl

/-- C7: for a status outside 200..299 and a body that `json.Unmarshal` cannot decode
into the error envelope, Do returns the transport's response together with that decode
error, which is not an `*ErrorResponse`; the decode target is left alone. -/
theorem Do_malformed_error_body {τ : Type} (dec : Decoder τ) (decResp : ResponseDecoder)
    (c : Client) (cx : Context) (req : Request) (v : Option τ) (resp : Response)
    (status : Int) (body : Bytes)
    (hsend : c.client.Do (req.WithContext cx) = .ok resp)
    (hcode : resp.StatusCode = status)
    (hstatus : status < 200 ∨ 299 < status)
    (hbody : resp.Body = { data := body, err := none })
    (hfail : (Unmarshal (decodeErrorResponse decResp) body
      { Response := some resp, APIError := none }).2 ≠ none) :
    ∃ e, (Unmarshal (decodeErrorResponse decResp) body
        { Response := some resp, APIError := none }).2 = some e
      ∧ (c.Do dec decResp (some cx) req v).resp = some resp
      ∧ (c.Do dec decResp (some cx) req v).err = some e
      ∧ e.isErrorResponse = false
      ∧ (c.Do dec decResp (some cx) req v).v = v := by
  have hns : ¬ (200 ≤ resp.StatusCode ∧ resp.StatusCode ≤ 299) := by omega
  cases hu : (Unmarshal (decodeErrorResponse decResp) body
      { Response := some resp, APIError := none }).2 with
  | none => exact absurd hu hfail
  | some e =>
    refine ⟨e, rfl, ?_, ?_, Unmarshal_errorResponse_err decResp body _ e hu, ?_⟩ <;>
      simp only [Client.Do, hsend, ReadAll, hbody, Option.map_none', if_neg hns, hu]

/-- C7, witness: status 500 with an empty body, and status 502 with a body that is
not JSON. -/
theorem Do_malformed_error_body_witness :
    (∃ e, (Unmarshal (decodeErrorResponse sampleResponseDecoder) []
          { Response := some (cannedResponse 500 []), APIError := none }).2 = some e
      ∧ ((cannedClient (cannedResponse 500 [])).Do idleDecoder sampleResponseDecoder
          (some liveContext) sampleRequest (some 0)).resp = some (cannedResponse 500 [])
      ∧ ((cannedClient (cannedResponse 500 [])).Do idleDecoder sampleResponseDecoder
          (some liveContext) sampleRequest (some 0)).err = some e
      ∧ e.isErrorResponse = false
      ∧ ((cannedClient (cannedResponse 500 [])).Do idleDecoder sampleResponseDecoder
          (some liveContext) sampleRequest (some 0)).v = some 0)
    ∧ (∃ e, (Unmarshal (decodeErrorResponse sampleResponseDecoder) (str "Bad Gateway")
          { Response := some (cannedResponse 502 (str "Bad Gateway")), APIError := none }).2 = some e
      ∧ ((cannedClient (cannedResponse 502 (str "Bad Gateway"))).Do idleDecoder sampleResponseDecoder
          (some liveContext) sampleRequest (some 0)).resp = some (cannedResponse 502 (str "Bad Gateway"))
      ∧ ((cannedClient (cannedResponse 502 (str "Bad Gateway"))).Do idleDecoder sampleResponseDecoder
          (some liveContext) sampleRequest (some 0)).err = some e
      ∧ e.isErrorResponse = false
      ∧ ((cannedClient (cannedResponse 502 (str "Bad Gateway"))).Do idleDecoder sampleResponseDecoder
          (some liveContext) sampleRequest (some 0)).v = some 0) :=
  ⟨Do_malformed_error_body idleDecoder sampleResponseDecoder (cannedClient (cannedResponse 500 []))
      liveContext sampleRequest (some 0) (cannedResponse 500 []) 500 [] rfl rfl (by decide) rfl
      (by decide),
   Do_malformed_error_body idleDecoder sampleResponseDecoder
      (cannedClient (cannedResponse 502 (str "Bad Gateway")))
      liveContext sampleRequest (some 0) (cannedResponse 502 (str "Bad Gateway")) 502
      (str "Bad Gateway") rfl rfl (by decide) rfl (by decide)⟩

/-! ## Properties of Client.NewRequest -/

/-- Removing the entries of one key does not change the lookup of another. -/
theorem Header.get_filter_ne (h : Header) (k k1 : Bytes) (hk : k ≠ k1) :
    Header.get (h.filter (fun e => decide (e.1 ≠ k))) k1 = Header.get h k1 := by
  induction h with
  | nil => rfl
  | cons e rest ih =>
    obtain ⟨ek, ev⟩ := e
    by_cases he : ek = k
    · have hne : ¬ ek = k1 := by rw [he]; exact hk
      rw [List.filter_cons_of_neg (by simp [he]), ih]
      simp [Header.get, hne]
    · rw [List.filter_cons_of_pos (by simp [he])]
      simp only [Header.get]
      rw [ih]

/-- A lookup after an assignment: the assigned key has the new value, every other key
what it had. -/
theorem Header.get_put (h : Header) (k k1 : Bytes) (v : List Bytes) :
    (h.put k v).get k1 = if k = k1 then some v else h.get k1 := by
  unfold Header.put
  simp only [Header.get]
  by_cases hk : k = k1
  · simp [hk]
  · simp only [if_neg hk]
    exact Header.get_filter_ne h k k1 hk

/-- The request of `http.NewRequest` has an empty header map. -/
theorem httpNewRequest_header (method url : Bytes) (body : Option Bytes) (req : Request)
    (h : httpNewRequest method url body = .ok req) : req.Header = [] := by
  unfold httpNewRequest at h
  simp only [] at h
  by_cases hv : validMethod (if method = [] then str "GET" else method) = true
  · simp only [hv, Bool.not_true, Bool.false_eq_true, if_false] at h
    cases hp : Parse url with
    | error e => rw [hp] at h; cases h
    | ok u => rw [hp] at h; cases h; rfl
  · simp [hv] at h

/-- A request `NewRequest` returns carries exactly the header map `builtHeader`. -/
theorem NewRequest_header_eq (c : Client) (method urlStr : Bytes) (body : Option Body)
    (req : Request) (h : c.NewRequest method urlStr body = .ret (.ok req)) :
    req.Header = builtHeader c body := by
  unfold Client.NewRequest at h
  cases hb : c.BaseURL with
  | none => simp [hb] at h
  | some base =>
    simp only [hb] at h
    split at h
    · cases h
    · split at h
      · cases h
      · split at h
        · cases h
        · split at h
          · cases h
          · rename_i r0 hr0
            have h0 := httpNewRequest_header _ _ _ _ hr0
            cases h
            simp only [builtHeader, h0]

/-- The lookups in the header map `NewRequest` builds. -/
theorem builtHeader_get (c : Client) (body : Option Body) (k : Bytes) :
    (builtHeader c body).get k =
      if k = str "Accept" then some [str "application/json"]
      else if k = str "Content-Type" then
        (if body.isSome then some [str "application/json"] else none)
      else if k = str "User-Agent" then (if c.UserAgent ≠ [] then some [c.UserAgent] else none)
      else none := by
  have c1 : CanonicalMIMEHeaderKey (str "Content-Type") = str "Content-Type" := by decide
  have c2 : CanonicalMIMEHeaderKey (str "Accept") = str "Accept" := by decide
  have c3 : CanonicalMIMEHeaderKey (str "User-Agent") = str "User-Agent" := by decide
  have n1 : str "Accept" ≠ str "Content-Type" := by decide
  have n2 : str "Accept" ≠ str "User-Agent" := by decide
  have n3 : str "Content-Type" ≠ str "User-Agent" := by decide
  unfold builtHeader
  simp only [Header.Set, c1, c2, c3]
  by_cases ha : k = str "Accept"
  · subst ha
    by_cases hu : c.UserAgent = []
    · simp [hu, Header.get_put]
    · simp [hu, Header.get_put, Ne.symm n2]
  · by_cases hc : k = str "Content-Type"
    · subst hc
      by_cases hu : c.UserAgent = [] <;> cases body <;>
        simp [hu, Header.get_put, n1, n2, n3, Header.get, Ne.symm n1, Ne.symm n2, Ne.symm n3]
    · by_cases hua : k = str "User-Agent"
      · subst hua
        by_cases hu : c.UserAgent = [] <;> cases body <;>
          simp [hu, Header.get_put, n1, n2, n3, Header.get, Ne.symm n1, Ne.symm n2, Ne.symm n3]
      · by_cases hu : c.UserAgent = [] <;> cases body <;>
          simp [hu, Header.get_put, Header.get, ha, hc, hua, Ne.symm ha, Ne.symm hc, Ne.symm hua]

/-- C3: when NewRequest succeeds, the header map of the request is exactly
Accept = "application/json"; Content-Type = "application/json" if and only if the body
is non-nil; User-Agent = c.UserAgent if and only if it is non-empty; and nothing else.
The result is the same for every client with the same BaseURL and UserAgent. -/
theorem NewRequest_headers (c : Client) (method urlStr : Bytes) (body : Option Body)
    (req : Request) (h : c.NewRequest method urlStr body = .ret (.ok req)) :
    (∀ k : Bytes, req.Header.get k =
      if k = str "Accept" then some [str "application/json"]
      else if k = str "Content-Type" then
        (if body.isSome then some [str "application/json"] else none)
      else if k = str "User-Agent" then (if c.UserAgent ≠ [] then some [c.UserAgent] else none)
      else none)
    ∧ (∀ c1 : Client, c1.BaseURL = c.BaseURL → c1.UserAgent = c.UserAgent →
        c1.NewRequest method urlStr body = .ret (.ok req)) := by
  constructor
  · intro k
    rw [NewRequest_header_eq c method urlStr body req h]
    exact builtHeader_get c body k
  · intro c1 hb hu
    rw [← h]
    simp only [Client.NewRequest, hb, hu]

/-- C3, witness: a PUT with a body by the default client carries the three headers and
no other; the client's other fields do not matter. -/
theorem NewRequest_headers_witness :
    sampleClient.NewRequest (str "PUT") (str "account/details/bob") (some sampleBody)
        = .ret (.ok samplePut)
    ∧ samplePut.Header.get (str "Accept") = some [str "application/json"]
    ∧ samplePut.Header.get (str "Content-Type") = some [str "application/json"]
    ∧ samplePut.Header.get (str "User-Agent") = some [str "go-upcloud"]
    ∧ samplePut.Header.get (str "Authorization") = none
    ∧ ({ sampleClient with client := { Do := fun _ => .error .eof } } : Client).NewRequest
        (str "PUT") (str "account/details/bob") (some sampleBody) = .ret (.ok samplePut) :=
  ⟨by rfl,
   (NewRequest_headers sampleClient (str "PUT") (str "account/details/bob") (some sampleBody)
      samplePut (by rfl)).1 (str "Accept"),
   (NewRequest_headers sampleClient (str "PUT") (str "account/details/bob") (some sampleBody)
      samplePut (by rfl)).1 (str "Content-Type"),
   (NewRequest_headers sampleClient (str "PUT") (str "account/details/bob") (some sampleBody)
      samplePut (by rfl)).1 (str "User-Agent"),
   (NewRequest_headers sampleClient (str "PUT") (str "account/details/bob") (some sampleBody)
      samplePut (by rfl)).1 (str "Authorization"),
   (NewRequest_headers sampleClient (str "PUT") (str "account/details/bob") (some sampleBody)
      samplePut (by rfl)).2 _ rfl rfl⟩

/-- The errors of `url.Parse` are not the guard's. -/
theorem Parse_error (rawURL : Bytes) (e : Error) (h : Parse rawURL = .error e) :
    e.isTrailingSlash = false := by
  unfold Parse at h
  split at h
  · cases h; rfl
  · split at h
    · cases h
    · split at h
      · cases h; rfl
      · cases h

/-- The errors of `http.NewRequest` are not the guard's. -/
theorem httpNewRequest_error (method url : Bytes) (body : Option Bytes) (e : Error)
    (h : httpNewRequest method url body = .error e) : e.isTrailingSlash = false := by
  unfold httpNewRequest at h
  simp only [] at h
  by_cases hv : validMethod (if method = [] then str "GET" else method) = true
  · simp only [hv, Bool.not_true, Bool.false_eq_true, if_false] at h
    cases hp : Parse url with
    | error e1 =>
      rw [hp] at h
      cases h
      exact Parse_error url e hp
    | ok u => rw [hp] at h; cases h
  · simp only [hv, Bool.not_false, if_true] at h
    cases h
    rfl

/-- The client `NewClient` allocates: it is in the store at the address returned, with
the default base URL and user agent. -/
theorem NewClient_get (d : HTTPClient) (h : Option HTTPClient) (st : Store) :
    (NewClient d h st).2.get? (NewClient d h st).1
      = some { client := h.getD d,
               BaseURL := some defaultBase,
               UserAgent := userAgent,
               common := { client := some st.length },
               Accounts := some { owner := st.length },
               Pricing := some { owner := st.length },
               Zones := some { owner := st.length } } := by
  have hp : Parse defaultBaseURL = .ok defaultBase := by rfl
  simp only [NewClient, hp]
  simp

/-- C4: a client whose BaseURL.Path does not end in "/" gets a nil request and the
guard's error from NewRequest, for every method, path and body; when the path ends in
"/" the guard's error is never returned; and the base URL that NewClient sets ends in "/". -/
theorem NewRequest_base_guard :
    (∀ (c : Client) (base : URL) (method urlStr : Bytes) (body : Option Body),
        c.BaseURL = some base → HasSuffix base.Path [47] = false →
        c.NewRequest method urlStr body = .ret (.error (.trailingSlash base)))
    ∧ (∀ (c : Client) (base : URL) (method urlStr : Bytes) (body : Option Body) (e : Error),
        c.BaseURL = some base → HasSuffix base.Path [47] = true →
        c.NewRequest method urlStr body = .ret (.error e) → e.isTrailingSlash = false)
    ∧ (∀ (d : HTTPClient) (h : Option HTTPClient) (st : Store),
        ∃ (c : Client) (u : URL), (NewClient d h st).2.get? (NewClient d h st).1 = some c
          ∧ c.BaseURL = some u ∧ HasSuffix u.Path [47] = true) := by
  refine ⟨?_, ?_, ?_⟩
  · intro c base method urlStr body hb hs
    simp [Client.NewRequest, hb, hs]
  · intro c base method urlStr body e hb hs h
    simp only [Client.NewRequest, hb, hs, Bool.not_true, Bool.false_eq_true, if_false] at h
    cases hp : Upcloud.Parse urlStr with
    | error e1 =>
      simp only [URL.Parse, hp] at h
      cases h
      exact Parse_error urlStr e hp
    | ok u =>
      simp only [URL.Parse, hp] at h
      cases body with
      | none =>
        simp only [] at h
        cases hr : httpNewRequest method (base.ResolveReference u).String none with
        | error e2 =>
          rw [hr] at h
          cases h
          exact httpNewRequest_error _ _ _ e hr
        | ok r => rw [hr] at h; cases h
      | some b =>
        simp only [] at h
        cases hen : b.encode with
        | error tag =>
          rw [hen] at h
          cases h
          rfl
        | ok text =>
          rw [hen] at h
          simp only [] at h
          cases hr : httpNewRequest method (base.ResolveReference u).String (some text) with
          | error e2 =>
            rw [hr] at h
            cases h
            exact httpNewRequest_error _ _ _ e hr
          | ok r => rw [hr] at h; cases h
  · intro d h st
    exact ⟨_, _, NewClient_get d h st, rfl, by decide⟩

/-- C4, witness: the base URL `https://api.upcloud.com/1.3` (no trailing slash) with the
empty relative path; the default base URL with the path `account`. -/
theorem NewRequest_base_guard_witness :
    ({ sampleClient with BaseURL := some noSlashBase } : Client).NewRequest (str "GET") [] none
      = .ret (.error (.trailingSlash noSlashBase))
    ∧ (Error.invalidMethod (str "G T")).isTrailingSlash = false :=
  ⟨NewRequest_base_guard.1 _ _ (str "GET") [] none rfl (by decide),
   NewRequest_base_guard.2.1 sampleClient _ (str "G T") (str "account") none _ rfl (by decide)
     (by rfl)⟩

/-! ## Properties of BasicAuthTransport.RoundTrip -/

/-- A key that is not among the entries has no value. -/
theorem Header.get_eq_none (h : Header) (k : Bytes) (hk : k ∉ h.map Prod.fst) :
    Header.get h k = none := by
  induction h with
  | nil => rfl
  | cons e rest ih =>
    obtain ⟨k0, v0⟩ := e
    simp only [List.map_cons, List.mem_cons, not_or] at hk
    simp only [Header.get, if_neg (Ne.symm hk.1)]
    exact ih hk.2

/-- The copy loop of `RoundTrip`: the map written has, for every key of the source,
the source's value, and elsewhere what it had before. -/
theorem Header.get_foldl_put (h m : Header) (k : Bytes) (hn : (h.map Prod.fst).Nodup) :
    Header.get (h.foldl (fun m e => Header.put m e.1 e.2) m) k
      = match Header.get h k with
        | some v => some v
        | none => Header.get m k := by
  induction h generalizing m with
  | nil => rfl
  | cons e rest ih =>
    obtain ⟨k0, v0⟩ := e
    simp only [List.map_cons, List.nodup_cons] at hn
    simp only [List.foldl_cons]
    rw [ih _ hn.2]
    rw [Header.get_put]
    by_cases hk : k0 = k
    · subst hk
      simp [Header.get, Header.get_eq_none rest k0 hn.1]
    · simp only [Header.get, if_neg hk]

/-- The copy loop of `RoundTrip` from an empty map yields a map with the lookups of the
source. -/
theorem Header.get_copy (h : Header) (k : Bytes) (hn : (h.map Prod.fst).Nodup) :
    Header.get (h.foldl (fun m e => Header.put m e.1 e.2) []) k = Header.get h k := by
  rw [Header.get_foldl_put h [] k hn]
  cases Header.get h k <;> rfl

/-- The map of the request that `RoundTrip` forwards: the copy of the original with
Authorization set. -/
theorem RoundTrip_forwarded_map (d : RoundTripper) (t : BasicAuthTransport) (heap : HeaderHeap)
    (req : RequestRef) (hvalid : ∀ a, req.Header = some a → a < heap.length) :
    (t.RoundTrip d heap req).heap.headerOf (t.RoundTrip d heap req).forwarded
      = Header.Set ((heap.headerOf req).foldl (fun m e => Header.put m e.1 e.2) [])
          (str "Authorization") (basicAuthValue t.Username t.Password) := by
  have hsame : (heap ++ [[]] : HeaderHeap).headerOf req = heap.headerOf req := by
    unfold HeaderHeap.headerOf
    cases hh : req.Header with
    | none => rfl
    | some a =>
      simp only [List.get?_eq_getElem?]
      rw [List.getElem?_append_left (hvalid a hh)]
  simp only [BasicAuthTransport.RoundTrip, hsame]
  simp [HeaderHeap.headerOf]

/-- C8: after RoundTrip the header map of the request passed in is what it was, and so
is every map that existed; the request forwarded to the wrapped transport has a map of
its own whose lookups are those of the original except for Authorization, which is
"Basic " + base64(username + ":" + password); all its other fields are the original's;
and the wrapped transport answers that request. -/
theorem RoundTrip_no_mutation (d : RoundTripper) (t : BasicAuthTransport) (heap : HeaderHeap)
    (req : RequestRef)
    (hvalid : ∀ a, req.Header = some a → a < heap.length)
    (hmap : ((heap.headerOf req).map Prod.fst).Nodup) :
    (t.RoundTrip d heap req).heap.headerOf req = heap.headerOf req
    ∧ (∀ a, a < heap.length → (t.RoundTrip d heap req).heap.get? a = heap.get? a)
    ∧ (t.RoundTrip d heap req).forwarded.Header ≠ req.Header
    ∧ (∀ k : Bytes,
        ((t.RoundTrip d heap req).heap.headerOf (t.RoundTrip d heap req).forwarded).get k
          = if k = str "Authorization" then some [basicAuthValue t.Username t.Password]
            else (heap.headerOf req).get k)
    ∧ ({ (t.RoundTrip d heap req).forwarded with Header := req.Header } : RequestRef) = req
    ∧ (t.RoundTrip d heap req).result
        = (t.transport d).RoundTrip
            ((t.RoundTrip d heap req).heap.load (t.RoundTrip d heap req).forwarded) := by
  have hold : ∀ a, a < heap.length →
      (t.RoundTrip d heap req).heap.get? a = heap.get? a := by
    intro a ha
    have hne : heap.length ≠ a := by omega
    simp only [BasicAuthTransport.RoundTrip, List.get?_eq_getElem?]
    rw [List.getElem?_set_ne hne, List.getElem?_set_ne hne, List.getElem?_append_left ha]
  have hca : CanonicalMIMEHeaderKey (str "Authorization") = str "Authorization" := by decide
  refine ⟨?_, hold, ?_, ?_, rfl, rfl⟩
  · unfold HeaderHeap.headerOf
    cases hh : req.Header with
    | none => rfl
    | some a => simp only [hold a (hvalid a hh)]
  · intro h
    have h1 : req.Header = some heap.length := by
      rw [← h]
      rfl
    exact absurd (hvalid _ h1) (Nat.lt_irrefl _)
  · intro k
    rw [RoundTrip_forwarded_map d t heap req hvalid]
    simp only [Header.Set, hca]
    rw [Header.get_put]
    by_cases hk : str "Authorization" = k
    · subst hk
      simp
    · have hk1 : ¬ k = str "Authorization" := fun h => hk h.symm
      simp only [if_neg hk, if_neg hk1]
      exact Header.get_copy _ k hmap

/-- C8, witness: a request whose map holds Accept and an old Authorization. -/
theorem RoundTrip_no_mutation_witness :
    (sampleAuth.RoundTrip { RoundTrip := fun _ => .error .eof } [sampleHeader]
        sampleRequestRef).heap.get? 0 = some sampleHeader
    ∧ ((sampleAuth.RoundTrip { RoundTrip := fun _ => .error .eof } [sampleHeader]
        sampleRequestRef).heap.headerOf
          (sampleAuth.RoundTrip { RoundTrip := fun _ => .error .eof } [sampleHeader]
            sampleRequestRef).forwarded).get (str "Authorization")
        = some [str "Basic QWxhZGRpbjpvcGVuIHNlc2FtZQ=="]
    ∧ ((sampleAuth.RoundTrip { RoundTrip := fun _ => .error .eof } [sampleHeader]
        sampleRequestRef).heap.headerOf
          (sampleAuth.RoundTrip { RoundTrip := fun _ => .error .eof } [sampleHeader]
            sampleRequestRef).forwarded).get (str "Accept")
        = some [str "application/json"] :=
  ⟨(RoundTrip_no_mutation { RoundTrip := fun _ => .error .eof } sampleAuth [sampleHeader]
      sampleRequestRef (by decide) (by decide)).2.1 0 (by decide),
   (RoundTrip_no_mutation { RoundTrip := fun _ => .error .eof } sampleAuth [sampleHeader]
      sampleRequestRef (by decide) (by decide)).2.2.2.1 (str "Authorization"),
   (RoundTrip_no_mutation { RoundTrip := fun _ => .error .eof } sampleAuth [sampleHeader]
      sampleRequestRef (by decide) (by decide)).2.2.2.1 (str "Accept")⟩

/-! ## Properties of NewClient -/

/-- C9 (what the code does): the client NewClient returns holds, built at
construction, the facades Accounts, Pricing and Zones, each pointing to the field
`common` of that client, whose back-reference is the client itself; it holds no facade
for Plans or Timezones, and a zero-valued `PlansService` or `TimezonesService` (no
client behind it) panics in its method. -/
theorem NewClient_facades {τ : Type} (dec : Decoder τ) (decResp : ResponseDecoder)
    (d : HTTPClient) (h : Option HTTPClient) (st : Store) (ctx : Option Context) (payload : τ) :
    ∃ c : Client, (NewClient d h st).2.get? (NewClient d h st).1 = some c
      ∧ c.BaseURL = some defaultBase ∧ c.UserAgent = userAgent
      ∧ c.common.client = some (NewClient d h st).1
      ∧ c.facade .Accounts = some { owner := (NewClient d h st).1 }
      ∧ c.facade .Pricing = some { owner := (NewClient d h st).1 }
      ∧ c.facade .Zones = some { owner := (NewClient d h st).1 }
      ∧ (NewClient d h st).2.service { owner := (NewClient d h st).1 }
          = some { client := some (NewClient d h st).1 }
      ∧ c.facade .Plans = none
      ∧ c.facade .Timezones = none
      ∧ (PlansService.ListAvailablePlans dec decResp (NewClient d h st).2 { client := none } ctx
          payload).isPanic = true
      ∧ (TimezonesService.ListTimezones dec decResp (NewClient d h st).2 { client := none } ctx
          payload).isPanic = true := by
  refine ⟨_, NewClient_get d h st, rfl, rfl, rfl, rfl, rfl, rfl, ?_, rfl, rfl, rfl, rfl⟩
  simp only [Store.service, NewClient_get d h st]
  rfl

/-! ## The URL of a request for a plain relative path -/

/-- A path-safe byte is none of `#`, `?`, `%`, `/`, no control byte, and is not escaped in a path. -/
theorem pathSafe_facts (c : Nat) (h : pathSafe c = true) :
    c ≠ 35 ∧ c ≠ 63 ∧ c ≠ 37 ∧ c ≠ 47 ∧ ¬ c < 32 ∧ c ≠ 127
      ∧ shouldEscape c .encodePath = false := by
  simp only [pathSafe, isLetter, isLower, isUpper, isDigit, Bool.or_eq_true, Bool.and_eq_true,
    decide_eq_true_eq] at h
  refine ⟨by omega, by omega, by omega, by omega, by omega, by omega, ?_⟩
  unfold shouldEscape
  by_cases h1 : (isLetter c || isDigit c) = true
  · simp [h1]
  · have h2 : c = 45 ∨ c = 95 ∨ c = 46 ∨ c = 126 ∨ c = 36 ∨ c = 38 ∨ c = 43 ∨ c = 44 ∨ c = 58
        ∨ c = 59 ∨ c = 61 ∨ c = 64 := by
      simp only [isLetter, isLower, isUpper, isDigit, Bool.or_eq_true, Bool.and_eq_true,
        decide_eq_true_eq] at h1
      omega
    rcases h2 with h2 | h2 | h2 | h2 | h2 | h2 | h2 | h2 | h2 | h2 | h2 | h2 <;> subst h2 <;> decide

/-- A byte of a plain host is none of `# ? % / : @ [ ]`, no control byte, and is not escaped in a host. -/
theorem hostSafe_facts (c : Nat) (h : hostSafe c = true) :
    c ≠ 35 ∧ c ≠ 63 ∧ c ≠ 37 ∧ c ≠ 47 ∧ c ≠ 58 ∧ c ≠ 64 ∧ c ≠ 91 ∧ c ≠ 93 ∧ ¬ c < 32 ∧ c ≠ 127
      ∧ shouldEscape c .encodeHost = false := by
  simp only [hostSafe, isLetter, isLower, isUpper, isDigit, Bool.or_eq_true, Bool.and_eq_true,
    decide_eq_true_eq] at h
  refine ⟨by omega, by omega, by omega, by omega, by omega, by omega, by omega, by omega,
    by omega, by omega, ?_⟩
  unfold shouldEscape
  by_cases h1 : (isLetter c || isDigit c) = true
  · simp [h1]
  · have h2 : c = 45 ∨ c = 46 := by
      simp only [isLetter, isLower, isUpper, isDigit, Bool.or_eq_true, Bool.and_eq_true,
        decide_eq_true_eq] at h1
      omega
    rcases h2 with h2 | h2 <;> subst h2 <;> decide

/-- A byte of a plain scheme is none of `#`, `?`, `:`, `/`, no control byte and no upper-case letter. -/
theorem schemeSafe_facts (c : Nat) (h : schemeSafe c = true) :
    c ≠ 35 ∧ c ≠ 63 ∧ c ≠ 58 ∧ c ≠ 47 ∧ ¬ c < 32 ∧ c ≠ 127 ∧ isUpper c = false := by
  simp only [schemeSafe, isLower, isDigit, Bool.or_eq_true, Bool.and_eq_true,
    decide_eq_true_eq] at h
  refine ⟨by omega, by omega, by omega, by omega, by omega, by omega, ?_⟩
  simp only [isUpper, Bool.and_eq_false_iff, decide_eq_false_iff_not]
  omega

/-- Cutting at a separator that does not occur leaves the text whole. -/
theorem cutByte_of_not_mem (sep : Nat) (s : Bytes) (h : sep ∉ s) :
    cutByte sep s = (s, [], false) := by
  induction s with
  | nil => rfl
  | cons x s ih =>
    simp only [List.mem_cons, not_or] at h
    simp only [cutByte, if_neg (Ne.symm h.1), ih h.2]

/-- Cutting at the first separator: the text before it and the text after it. -/
theorem cutByte_append (sep : Nat) (a b : Bytes) (h : sep ∉ a) :
    cutByte sep (a ++ sep :: b) = (a, b, true) := by
  induction a with
  | nil => simp [cutByte]
  | cons x s ih =>
    simp only [List.mem_cons, not_or] at h
    show cutByte sep (x :: (s ++ sep :: b)) = _
    simp only [cutByte, if_neg (Ne.symm h.1), ih h.2]

/-- The index of the first occurrence of a byte. -/
theorem indexByte_append (c : Nat) (a b : Bytes) (h : c ∉ a) :
    indexByte c (a ++ c :: b) = some a.length := by
  induction a with
  | nil => simp [indexByte]
  | cons x s ih =>
    simp only [List.mem_cons, not_or] at h
    simp [indexByte, Ne.symm h.1, ih h.2]

/-- A byte that does not occur has no last index. -/
theorem lastIndexByte_of_not_mem (c : Nat) (s : Bytes) (h : c ∉ s) : lastIndexByte c s = none := by
  induction s with
  | nil => rfl
  | cons x s ih =>
    simp only [List.mem_cons, not_or] at h
    simp [lastIndexByte, ih h.2, Ne.symm h.1]

/-- The last index of the byte a text ends in. -/
theorem lastIndexByte_append_self (c : Nat) (s : Bytes) :
    lastIndexByte c (s ++ [c]) = some s.length := by
  induction s with
  | nil => simp [lastIndexByte]
  | cons x s ih => simp [lastIndexByte, ih]

/-- A text without control bytes passes the check of `parse`. -/
theorem containsCTL_eq_false (s : Bytes) (h : ∀ c ∈ s, ¬ c < 32 ∧ c ≠ 127) :
    containsCTL s = false := by
  unfold containsCTL
  rw [List.any_eq_false]
  intro c hc
  have := h c hc
  simp [this.1, this.2]

/-- Escaping changes nothing when no byte needs it. -/
theorem escape_id (s : Bytes) (mode : Encoding) (h : ∀ c ∈ s, shouldEscape c mode = false) :
    escape s mode = s := by
  induction s with
  | nil => rfl
  | cons x s ih =>
    have hx := h x (List.mem_cons_self _ _)
    have hs := ih (fun c hc => h c (List.mem_cons_of_mem _ hc))
    simp [escape, hx, hs]

/-- The check of `unescape` at a byte other than `%`. -/
theorem unescapeCheck_cons_ne (mode : Encoding) (c : Nat) (rest : Bytes) (h : c ≠ 37) :
    unescapeCheck mode (c :: rest)
      = if (mode = .encodeHost ∨ mode = .encodeZone) ∧ c < 0x80 ∧ shouldEscape c .encodeHost then
          some ([c], false)
        else unescapeCheck mode rest := by
  cases rest with
  | nil => simp [unescapeCheck, h]
  | cons a r => cases r <;> simp [unescapeCheck, h]

/-- The rewriting of `unescape` at a byte other than `%`. -/
theorem unescapeBytes_cons_ne (mode : Encoding) (c : Nat) (rest : Bytes) (h : c ≠ 37) :
    unescapeBytes mode (c :: rest)
      = (if c = 43 ∧ mode = .encodeQueryComponent then 32 else c) :: unescapeBytes mode rest := by
  cases rest with
  | nil => simp [unescapeBytes, h]
  | cons a r => cases r <;> simp [unescapeBytes, h]

/-- A path without `%` passes the check of `unescape`. -/
theorem unescapeCheck_path (s : Bytes) (h : 37 ∉ s) : unescapeCheck .encodePath s = none := by
  induction s with
  | nil => rfl
  | cons x s ih =>
    simp only [List.mem_cons, not_or] at h
    have hx : ¬ x = 37 := fun e => h.1 e.symm
    rw [unescapeCheck_cons_ne _ _ _ hx]
    simp [ih h.2]

/-- A host without `%` and without bytes to escape passes the check of `unescape`. -/
theorem unescapeCheck_host (s : Bytes) (h : 37 ∉ s)
    (hs : ∀ c ∈ s, shouldEscape c .encodeHost = false) : unescapeCheck .encodeHost s = none := by
  induction s with
  | nil => rfl
  | cons x s ih =>
    simp only [List.mem_cons, not_or] at h
    have hx : ¬ x = 37 := fun e => h.1 e.symm
    have hx2 := hs x (List.mem_cons_self _ _)
    rw [unescapeCheck_cons_ne _ _ _ hx]
    simp [hx2, ih h.2 (fun c hc => hs c (List.mem_cons_of_mem _ hc))]

/-- Unescaping changes nothing in a text without `%` (outside a query component). -/
theorem unescapeBytes_id (s : Bytes) (mode : Encoding) (h : 37 ∉ s)
    (hm : mode ≠ .encodeQueryComponent) : unescapeBytes mode s = s := by
  induction s with
  | nil => rfl
  | cons x s ih =>
    simp only [List.mem_cons, not_or] at h
    have hx : ¬ x = 37 := fun e => h.1 e.symm
    rw [unescapeBytes_cons_ne _ _ _ hx]
    simp [hm, ih h.2]

/-- A path without `%` unescapes to itself. -/
theorem unescape_path_id (s : Bytes) (h : 37 ∉ s) : unescape s .encodePath = .ok s := by
  simp [unescape, unescapeCheck_path s h, unescapeBytes_id s _ h]

/-- A host without `%` and without bytes to escape unescapes to itself. -/
theorem unescape_host_id (s : Bytes) (h : 37 ∉ s)
    (hs : ∀ c ∈ s, shouldEscape c .encodeHost = false) : unescape s .encodeHost = .ok s := by
  simp [unescape, unescapeCheck_host s h hs, unescapeBytes_id s _ h]

/-- Splitting always yields at least one element. -/
theorem splitByte_ne_nil (sep : Nat) (s : Bytes) : splitByte sep s ≠ [] := by
  induction s with
  | nil => simp [splitByte]
  | cons x s ih =>
    simp only [splitByte]
    split
    · simp
    · split <;> simp

/-- Joining the elements of a split gives the text back. -/
theorem joinSlash_splitByte (s : Bytes) : joinSlash (splitByte 47 s) = s := by
  induction s with
  | nil => rfl
  | cons x s ih =>
    simp only [splitByte]
    by_cases hx : x = 47
    · simp only [if_pos hx]
      cases hs : splitByte 47 s with
      | nil => exact absurd hs (splitByte_ne_nil 47 s)
      | cons seg segs =>
        rw [hs] at ih
        simp only [joinSlash, List.nil_append, List.flatMap_cons, List.cons_append] at ih ⊢
        rw [hx, ih]
    · simp only [if_neg hx]
      cases hs : splitByte 47 s with
      | nil => exact absurd hs (splitByte_ne_nil 47 s)
      | cons seg segs =>
        rw [hs] at ih
        simp only [joinSlash, List.cons_append] at ih ⊢
        rw [ih]

/-- Splitting a text at one of its separators: the elements before it, then those after it. -/
theorem splitByte_append (sep : Nat) (a b : Bytes) :
    splitByte sep (a ++ sep :: b) = splitByte sep a ++ splitByte sep b := by
  induction a with
  | nil => simp [splitByte]
  | cons x s ih =>
    show splitByte sep (x :: (s ++ sep :: b)) = _
    simp only [splitByte, ih]
    by_cases hx : x = sep
    · simp [hx]
    · simp only [if_neg hx]
      cases hs : splitByte sep s with
      | nil => exact absurd hs (splitByte_ne_nil sep s)
      | cons seg segs => simp

/-- A text without the separator is its own single element. -/
theorem splitByte_of_not_mem (sep : Nat) (s : Bytes) (h : sep ∉ s) : splitByte sep s = [s] := by
  induction s with
  | nil => rfl
  | cons x s ih =>
    simp only [List.mem_cons, not_or] at h
    simp [splitByte, Ne.symm h.1, ih h.2]

/-- One round of the loop of `resolvePath` for an element that is not a dot segment. -/
theorem resolveStep_plain (acc elem : Bytes) (first : Bool) (h1 : elem ≠ [46])
    (h2 : elem ≠ [46, 46]) :
    resolveStep (acc, first) elem = ((if first then acc else acc ++ [47]) ++ elem, false) := by
  simp [resolveStep, h1, h2]

/-- The loop of `resolvePath` over elements that are not dot segments, after the first element. -/
theorem foldl_resolveStep (segs : List Bytes) (acc : Bytes)
    (h : ∀ seg ∈ segs, seg ≠ [46] ∧ seg ≠ [46, 46]) :
    segs.foldl resolveStep (acc, false) = (acc ++ segs.flatMap (fun s => 47 :: s), false) := by
  induction segs generalizing acc with
  | nil => simp
  | cons seg segs ih =>
    have hseg := h seg (List.mem_cons_self _ _)
    simp only [List.foldl_cons, resolveStep_plain acc seg false hseg.1 hseg.2]
    rw [ih _ (fun s hs => h s (List.mem_cons_of_mem _ hs))]
    simp

/-- The loop of `resolvePath` over elements that are not dot segments writes their join. -/
theorem foldl_resolveStep_first (segs : List Bytes)
    (h : ∀ seg ∈ segs, seg ≠ [46] ∧ seg ≠ [46, 46]) (hne : segs ≠ []) :
    (segs.foldl resolveStep ([], true)).1 = joinSlash segs := by
  cases segs with
  | nil => exact absurd rfl hne
  | cons seg segs =>
    have hseg := h seg (List.mem_cons_self _ _)
    simp only [List.foldl_cons, resolveStep_plain [] seg true hseg.1 hseg.2]
    simp only [if_true, List.nil_append]
    rw [foldl_resolveStep segs seg (fun s hs => h s (List.mem_cons_of_mem _ hs))]
    rfl

/-- A rooted path without dot segments resolves to itself. -/
theorem resolvePath_clean (base ref full : Bytes)
    (hfull : resolveFull base ref = full)
    (hroot : full.head? = some 47) (hclean : noDotSegments full = true) :
    resolvePath base ref = full := by
  unfold resolvePath
  simp only []
  rw [hfull]
  have hne : full ≠ [] := by
    intro h
    rw [h] at hroot
    cases hroot
  simp only [if_neg hne]
  have hall : ∀ seg ∈ splitByte 47 full, seg ≠ [46] ∧ seg ≠ [46, 46] := by
    intro seg hseg
    have := (List.all_eq_true.mp hclean) seg hseg
    simpa using this
  rw [foldl_resolveStep_first _ hall (splitByte_ne_nil 47 full), joinSlash_splitByte]
  have hlast : (splitByte 47 full).getLast?.getD [] ≠ [46]
      ∧ (splitByte 47 full).getLast?.getD [] ≠ [46, 46] := by
    cases hl : (splitByte 47 full).getLast? with
    | none => simp
    | some l =>
      have hm : l ∈ splitByte 47 full := List.mem_of_getLast?_eq_some hl
      simpa using hall l hm
  simp only [hlast.1, hlast.2, or_self, if_false]
  cases full with
  | nil => exact absurd rfl hne
  | cons x rest =>
    simp only [List.head?_cons, Option.some.injEq] at hroot
    simp [hroot]

/-- A plain text has none of `#`, `?`, `%`, no control byte, and no byte that a path escapes. -/
theorem plainText_facts (s : Bytes) (h : plainText s = true) :
    35 ∉ s ∧ 63 ∉ s ∧ 37 ∉ s ∧ (∀ c ∈ s, ¬ c < 32 ∧ c ≠ 127)
      ∧ (∀ c ∈ s, shouldEscape c .encodePath = false) := by
  have hall : ∀ c ∈ s, pathSafe c = true ∨ c = 47 := by
    intro c hc
    have := (List.all_eq_true.mp h) c hc
    simpa using this
  have key : ∀ c ∈ s, c ≠ 35 ∧ c ≠ 63 ∧ c ≠ 37 ∧ ¬ c < 32 ∧ c ≠ 127
      ∧ shouldEscape c .encodePath = false := by
    intro c hc
    rcases hall c hc with h1 | h1
    · have := pathSafe_facts c h1
      exact ⟨this.1, this.2.1, this.2.2.1, this.2.2.2.2.1, this.2.2.2.2.2.1, this.2.2.2.2.2.2⟩
    · subst h1
      decide
  refine ⟨fun hm => (key _ hm).1 rfl, fun hm => (key _ hm).2.1 rfl, fun hm => (key _ hm).2.2.1 rfl,
    fun c hc => ⟨(key c hc).2.2.2.1, (key c hc).2.2.2.2.1⟩, fun c hc => (key c hc).2.2.2.2.2⟩

/-- Two plain texts one after the other are a plain text. -/
theorem plainText_append (a b : Bytes) (ha : plainText a = true) (hb : plainText b = true) :
    plainText (a ++ b) = true := by
  unfold plainText at *
  rw [List.all_append, ha, hb]
  rfl

/-- A text does not end in a byte that does not occur in it. -/
theorem HasSuffix_singleton_false (s : Bytes) (c : Nat) (h : c ∉ s) : HasSuffix s [c] = false := by
  unfold HasSuffix
  cases hs : List.isSuffixOf [c] s with
  | false => rfl
  | true =>
    rw [List.isSuffixOf_iff_suffix] at hs
    exact absurd (hs.subset (List.mem_singleton_self c)) h

/-- A text does not start with a text whose first byte is not its first byte. -/
theorem HasPrefix_cons_false (s : Bytes) (c : Nat) (rest : Bytes) (h : s.head? ≠ some c) :
    HasPrefix s (c :: rest) = false := by
  cases s with
  | nil => rfl
  | cons x s =>
    have hx : ¬ c = x := fun e => h (by simp [e])
    simp [HasPrefix, List.isPrefixOf, hx]

/-- Lower-casing changes nothing in a text without upper-case letters. -/
theorem toLowerASCII_id (s : Bytes) (h : ∀ c ∈ s, isUpper c = false) : toLowerASCII s = s := by
  unfold toLowerASCII
  induction s with
  | nil => rfl
  | cons x s ih =>
    simp [h x (List.mem_cons_self _ _), ih (fun c hc => h c (List.mem_cons_of_mem _ hc))]

/-- The scheme loop on a scheme followed by a colon. -/
theorem getSchemeAux_scheme (pre l rest : Bytes)
    (hl : ∀ c ∈ l, isLetter c = true ∨ schemeSafe c = true)
    (hpre : pre ≠ [] ∨ ∃ c l1, l = c :: l1 ∧ isLetter c = true) :
    getSchemeAux (pre ++ l ++ 58 :: rest) pre.length (l ++ 58 :: rest) = .ok (pre ++ l, rest) := by
  induction l generalizing pre with
  | nil =>
    have hp : pre ≠ [] := by
      rcases hpre with h | ⟨c, l1, h, _⟩
      · exact h
      · cases h
    have hlen : pre.length ≠ 0 := by
      intro h
      exact hp (List.length_eq_zero.mp h)
    simp [getSchemeAux, isLetter, isLower, isUpper, isDigit, hlen]
  | cons c l ih =>
    have hc := hl c (List.mem_cons_self _ _)
    have hrec := ih (pre ++ [c]) (fun x hx => hl x (List.mem_cons_of_mem _ hx)) (Or.inl (by simp))
    simp only [List.append_assoc, List.singleton_append, List.length_append,
      List.length_singleton] at hrec
    simp only [List.cons_append, getSchemeAux]
    by_cases h1 : isLetter c = true
    · simp only [h1, if_true]
      simpa using hrec
    · have h2 : schemeSafe c = true := by
        rcases hc with h | h
        · exact absurd h h1
        · exact h
      have hpre2 : pre.length ≠ 0 := by
        rcases hpre with h | ⟨c1, l1, h, hc1⟩
        · intro h0
          exact h (List.length_eq_zero.mp h0)
        · cases h
          exact absurd hc1 h1
      have h3 : (isDigit c || decide (c = 43) || decide (c = 45) || decide (c = 46)) = true := by
        simp only [schemeSafe, isLetter, Bool.or_eq_true, decide_eq_true_eq] at h2 h1 ⊢
        tauto
      simp only [h1, h3, if_true, if_neg hpre2]
      simpa using hrec

/-- The function `getScheme` on a plain scheme followed by a colon: the scheme and the rest. -/
theorem getScheme_scheme (sch rest : Bytes) (h : plainScheme sch = true) :
    getScheme (sch ++ 58 :: rest) = .ok (sch, rest) := by
  cases sch with
  | nil => simp [plainScheme] at h
  | cons c l =>
    simp only [plainScheme, Bool.and_eq_true, List.all_eq_true] at h
    have := getSchemeAux_scheme [] (c :: l) rest
      (by
        intro x hx
        rcases List.mem_cons.mp hx with hx | hx
        · left
          rw [hx]
          simp [isLetter, h.1]
        · right
          exact h.2 x hx)
      (Or.inr ⟨c, l, rfl, by simp [isLetter, h.1]⟩)
    simpa [getScheme] using this

/-- A plain scheme is not empty, has none of `#`, `?`, no control byte, no upper-case letter, and does not start with `*`. -/
theorem plainScheme_facts (sch : Bytes) (h : plainScheme sch = true) :
    sch ≠ [] ∧ (∀ c ∈ sch, c ≠ 35 ∧ c ≠ 63 ∧ ¬ c < 32 ∧ c ≠ 127 ∧ isUpper c = false)
      ∧ sch.head? ≠ some 42 := by
  cases sch with
  | nil => simp [plainScheme] at h
  | cons c l =>
    simp only [plainScheme, Bool.and_eq_true, List.all_eq_true] at h
    have hc : schemeSafe c = true := by simp [schemeSafe, h.1]
    refine ⟨by simp, ?_, ?_⟩
    · intro x hx
      have hs : schemeSafe x = true := by
        rcases List.mem_cons.mp hx with hx | hx
        · rw [hx]; exact hc
        · exact h.2 x hx
      have := schemeSafe_facts x hs
      exact ⟨this.1, this.2.1, this.2.2.2.2.1, this.2.2.2.2.2.1, this.2.2.2.2.2.2⟩
    · have := h.1
      simp only [isLower, Bool.and_eq_true, decide_eq_true_eq] at this
      simp only [List.head?_cons, ne_eq, Option.some.injEq]
      omega

/-- A plain host is not empty, has none of `# ? % / : @ [ ]`, no control byte, and no byte that a host escapes. -/
theorem plainHost_facts (h : Bytes) (hh : plainHost h = true) :
    h ≠ [] ∧ 35 ∉ h ∧ 63 ∉ h ∧ 37 ∉ h ∧ 47 ∉ h ∧ 58 ∉ h ∧ 64 ∉ h ∧ 91 ∉ h ∧ 93 ∉ h
      ∧ (∀ c ∈ h, ¬ c < 32 ∧ c ≠ 127) ∧ (∀ c ∈ h, shouldEscape c .encodeHost = false) := by
  simp only [plainHost, Bool.and_eq_true, decide_eq_true_eq, List.all_eq_true] at hh
  have key := fun c hc => hostSafe_facts c (hh.2 c hc)
  refine ⟨hh.1, fun hm => (key _ hm).1 rfl, fun hm => (key _ hm).2.1 rfl,
    fun hm => (key _ hm).2.2.1 rfl, fun hm => (key _ hm).2.2.2.1 rfl,
    fun hm => (key _ hm).2.2.2.2.1 rfl, fun hm => (key _ hm).2.2.2.2.2.1 rfl,
    fun hm => (key _ hm).2.2.2.2.2.2.1 rfl, fun hm => (key _ hm).2.2.2.2.2.2.2.1 rfl,
    fun c hc => ⟨(key c hc).2.2.2.2.2.2.2.2.1, (key c hc).2.2.2.2.2.2.2.2.2.1⟩,
    fun c hc => (key c hc).2.2.2.2.2.2.2.2.2.2⟩

/-- The method `setPath` on a plain text: Path is the text, RawPath stays empty. -/
theorem setPath_plain (u : URL) (p : Bytes) (hp : plainText p = true) :
    u.setPath p = .ok { u with Path := p, RawPath := [] } := by
  have hf := plainText_facts p hp
  simp [URL.setPath, unescape_path_id p hf.2.2.1, escape_id p _ hf.2.2.2.2]

/-- The method `EscapedPath` of a URL with a plain path and no RawPath. -/
theorem EscapedPath_plain (u : URL) (hp : plainText u.Path = true) (hr : u.RawPath = [])
    (hs : u.Path ≠ [42]) : u.EscapedPath = u.Path := by
  have hf := plainText_facts u.Path hp
  simp [URL.EscapedPath, hr, hs, escape_id u.Path _ hf.2.2.2.2]

/-- A relative reference of plain text whose first element has no colon parses to a
URL that is its path and nothing else. -/
theorem Parse_plain_relative (ref : Bytes) (hp : plainText ref = true)
    (hsch : getScheme ref = .ok ([], ref)) (hhead : ref.head? ≠ some 47)
    (hcolon : (cutByte 47 ref).1.contains 58 = false) (hstar : ref ≠ [42]) :
    Parse ref = .ok { Path := ref } := by
  have hf := plainText_facts ref hp
  have hctl := containsCTL_eq_false ref hf.2.2.2.1
  have hq := cutByte_of_not_mem 63 ref hf.2.1
  have hfrag := cutByte_of_not_mem 35 ref hf.1
  have hsuf := HasSuffix_singleton_false ref 63 hf.2.1
  have hpre1 : HasPrefix ref [47] = false := HasPrefix_cons_false ref 47 [] hhead
  have hpre2 : HasPrefix ref [47, 47] = false := HasPrefix_cons_false ref 47 [47] hhead
  have hlow : toLowerASCII [] = [] := rfl
  have hcolon1 : 58 ∉ (cutByte 47 ref).1 := by simpa using hcolon
  simp only [Parse, hfrag, parse, hctl, hstar, hsch, hlow, hsuf, hq]
  simp [hpre1, hpre2, hcolon1, setPath_plain _ ref hp]

/-- An absolute URL `scheme://host/path` of plain parts parses to those parts. -/
theorem Parse_plain_absolute (sch h full : Bytes) (hs : plainScheme sch = true)
    (hh : plainHost h = true) (hp : plainText full = true) (hroot : full.head? = some 47) :
    Parse (sch ++ 58 :: 47 :: 47 :: (h ++ full)) = .ok { Scheme := sch, Host := h, Path := full } := by
  have hsf := plainScheme_facts sch hs
  have hhf := plainHost_facts h hh
  have hpf := plainText_facts full hp
  have hmem : ∀ c ∈ sch ++ 58 :: 47 :: 47 :: (h ++ full), c ≠ 35 ∧ c ≠ 63 ∧ ¬ c < 32 ∧ c ≠ 127 := by
    intro c hc
    simp only [List.mem_append, List.mem_cons] at hc
    rcases hc with hc | hc | hc | hc | hc | hc
    · have := hsf.2.1 c hc
      exact ⟨this.1, this.2.1, this.2.2.1, this.2.2.2.1⟩
    · subst hc; decide
    · subst hc; decide
    · subst hc; decide
    · exact ⟨fun e => hhf.2.1 (e ▸ hc), fun e => hhf.2.2.1 (e ▸ hc), (hhf.2.2.2.2.2.2.2.2.2.1 c hc).1,
        (hhf.2.2.2.2.2.2.2.2.2.1 c hc).2⟩
    · exact ⟨fun e => hpf.1 (e ▸ hc), fun e => hpf.2.1 (e ▸ hc), (hpf.2.2.2.1 c hc).1,
        (hpf.2.2.2.1 c hc).2⟩
  have hfrag := cutByte_of_not_mem 35 _ (fun hm => (hmem 35 hm).1 rfl)
  have hctl := containsCTL_eq_false _ (fun c hc => ⟨(hmem c hc).2.2.1, (hmem c hc).2.2.2⟩)
  have hstar : sch ++ 58 :: 47 :: 47 :: (h ++ full) ≠ [42] := by
    cases sch with
    | nil => exact absurd rfl hsf.1
    | cons c l => simp
  have hsch := getScheme_scheme sch (47 :: 47 :: (h ++ full)) hs
  have hlow := toLowerASCII_id sch (fun c hc => (hsf.2.1 c hc).2.2.2.2)
  have hrest : 63 ∉ 47 :: 47 :: (h ++ full) := by
    intro hm
    exact (hmem 63 (List.mem_append_right _ (List.mem_cons_of_mem _ hm))).2.1 rfl
  have hq := cutByte_of_not_mem 63 _ hrest
  have hsuf := HasSuffix_singleton_false _ 63 hrest
  obtain ⟨tail, htail⟩ : ∃ tail, full = 47 :: tail := by
    cases full with
    | nil => cases hroot
    | cons x t =>
      simp only [List.head?_cons, Option.some.injEq] at hroot
      exact ⟨t, by rw [hroot]⟩
  have hidx : indexByte 47 (h ++ full) = some h.length := by
    rw [htail]
    exact indexByte_append 47 h tail hhf.2.2.2.2.1
  have hhost : parseHost h = .ok h := by
    have h91 : HasPrefix h [91] = false := by
      apply HasPrefix_cons_false
      intro e
      exact hhf.2.2.2.2.2.2.2.1 (List.mem_of_mem_head? e)
    simp [parseHost, h91, lastIndexByte_of_not_mem 58 h hhf.2.2.2.2.2.1,
      unescape_host_id h hhf.2.2.2.1 hhf.2.2.2.2.2.2.2.2.2.2]
  have hauth : parseAuthority h = .ok (none, h) := by
    simp [parseAuthority, lastIndexByte_of_not_mem 64 h hhf.2.2.2.2.2.2.1, hhost]
  simp only [Parse, hfrag, parse, hctl, hstar, hsch, hlow, hsuf, hq]
  simp [HasPrefix, List.isPrefixOf, hsf.1, hidx, hauth, setPath_plain _ full hp]

/-- The text of a URL `scheme://host/path` of plain parts. -/
theorem String_plain (sch h full : Bytes) (hs : sch ≠ []) (hh : plainHost h = true)
    (hp : plainText full = true) (hroot : full.head? = some 47) :
    ({ Scheme := sch, Host := h, Path := full } : URL).String
      = sch ++ 58 :: 47 :: 47 :: (h ++ full) := by
  have hstar : full ≠ [42] := by
    intro e
    rw [e] at hroot
    cases hroot
  have hne : full ≠ [] := by
    intro e
    rw [e] at hroot
    cases hroot
  have hesc := EscapedPath_plain { Scheme := sch, Host := h, Path := full } hp rfl hstar
  have hhf := plainHost_facts h hh
  simp only [URL.String, hesc]
  simp [hs, hhf.1, hroot, hne, escape_id h _ hhf.2.2.2.2.2.2.2.2.2.2]

/-- A text without a colon in its first element has no scheme. -/
theorem getSchemeAux_none (raw l : Bytes) (i : Nat) (h : 58 ∉ (cutByte 47 l).1) :
    getSchemeAux raw i l = .ok ([], raw) := by
  induction l generalizing i with
  | nil => rfl
  | cons c l ih =>
    simp only [getSchemeAux]
    by_cases h47 : c = 47
    · subst h47
      simp [isLetter, isLower, isUpper, isDigit]
    · have hcut : (cutByte 47 (c :: l)).1 = c :: (cutByte 47 l).1 := by
        simp [cutByte, h47]
      rw [hcut] at h
      simp only [List.mem_cons, not_or] at h
      have hc58 : ¬ c = 58 := fun e => h.1 e.symm
      have hrec := fun j => ih j h.2
      split
      · exact hrec _
      · split
        · split
          · rfl
          · exact hrec _
        · simp [hc58]

/-- What a plain relative path is, and that it has no scheme. -/
theorem plainRelative_facts (ref : Bytes) (h : plainRelative ref = true) :
    ref ≠ [] ∧ ref.head? ≠ some 47 ∧ plainText ref = true ∧ noDotSegments ref = true
      ∧ (cutByte 47 ref).1.contains 58 = false ∧ ref ≠ [42]
      ∧ getScheme ref = .ok ([], ref) := by
  simp only [plainRelative, Bool.and_eq_true, decide_eq_true_eq, Bool.not_eq_true'] at h
  obtain ⟨⟨⟨⟨h1, h2⟩, h3⟩, h4⟩, h5⟩ := h
  refine ⟨h1, h2, h3, h4, h5, ?_, ?_⟩
  · intro e
    rw [e] at h3
    revert h3
    decide
  · exact getSchemeAux_none ref ref 0 (by simpa using h5)

/-- What a plain directory path is, and that it ends in a slash. -/
theorem plainDir_facts (p : Bytes) (h : plainDir p = true) :
    p.head? = some 47 ∧ plainText p = true ∧ noDotSegments p = true
      ∧ ∃ p0, p = p0 ++ [47] := by
  simp only [plainDir, Bool.and_eq_true, decide_eq_true_eq] at h
  obtain ⟨⟨⟨h1, h2⟩, h3⟩, h4⟩ := h
  refine ⟨h1, h3, h4, ?_⟩
  unfold HasSuffix at h2
  rw [List.isSuffixOf_iff_suffix] at h2
  obtain ⟨t, ht⟩ := h2
  exact ⟨t, ht.symm⟩

/-- A plain relative path after a plain directory path has no dot segments. -/
theorem noDotSegments_append (p0 ref : Bytes) (hd : noDotSegments (p0 ++ [47]) = true)
    (hr : noDotSegments ref = true) : noDotSegments (p0 ++ 47 :: ref) = true := by
  unfold noDotSegments at *
  rw [splitByte_append] at hd ⊢
  rw [List.all_append] at hd ⊢
  rw [Bool.and_eq_true] at hd ⊢
  exact ⟨hd.1, hr⟩

/-- The text `resolvePath` works on, for a directory and a relative path: one after
the other. -/
theorem resolveFull_dir (p0 ref : Bytes) (hne : ref ≠ []) (hhead : ref.head? ≠ some 47) :
    resolveFull (p0 ++ [47]) ref = p0 ++ 47 :: ref := by
  have htake : List.take (p0.length + 1) (p0 ++ [47]) = p0 ++ [47] := by
    apply List.take_of_length_le
    simp
  simp [resolveFull, hne, hhead, lastIndexByte_append_self, htake]

/-- A plain relative path resolved against a plain base URL: the base's scheme and
host, and the two paths one after the other. -/
theorem ResolveReference_plain (base : URL) (ref : Bytes) (hb : base.isPlain = true)
    (hr : plainRelative ref = true) :
    base.ResolveReference { Path := ref }
      = { Scheme := base.Scheme, Host := base.Host, Path := base.Path ++ ref } := by
  simp only [URL.isPlain, Bool.and_eq_true, decide_eq_true_eq] at hb
  obtain ⟨⟨⟨⟨⟨hsch, hop⟩, huser⟩, hhost⟩, hdir⟩, hraw⟩ := hb
  obtain ⟨hroot, hptext, hpclean, p0, hp0⟩ := plainDir_facts base.Path hdir
  obtain ⟨hne, hhead, hrtext, hrclean, -, hstar, -⟩ := plainRelative_facts ref hr
  have hbstar : base.Path ≠ [42] := by
    intro e
    rw [e] at hroot
    cases hroot
  have hesc1 := EscapedPath_plain base hptext hraw hbstar
  have hesc2 := EscapedPath_plain ({ Path := ref } : URL) hrtext rfl hstar
  have hfulltext : plainText (base.Path ++ ref) = true := plainText_append _ _ hptext hrtext
  have hres : resolvePath base.Path ref = base.Path ++ ref := by
    apply resolvePath_clean
    · rw [hp0, resolveFull_dir p0 ref hne hhead]
      simp
    · cases hb : base.Path with
      | nil => rw [hb] at hroot; cases hroot
      | cons x t => rw [hb] at hroot; simpa using hroot
    · rw [hp0] at hpclean ⊢
      have := noDotSegments_append p0 ref hpclean hrclean
      simpa using this
  simp only [URL.ResolveReference, hesc1, hesc2]
  simp [hne, hres, setPath_plain _ _ hfulltext, huser]

/-- A plain host has no port to remove. -/
theorem removeEmptyPort_plain (h : Bytes) (hh : plainHost h = true) : removeEmptyPort h = h := by
  have hhf := plainHost_facts h hh
  simp [removeEmptyPort, lastIndexByte_of_not_mem 58 h hhf.2.2.2.2.2.1]

/-- The request `NewRequest` builds, without a body, for a plain relative path under a
plain base URL. -/
theorem NewRequest_plain (c : Client) (base : URL) (method ref : Bytes)
    (hbase : c.BaseURL = some base) (hb : base.isPlain = true) (hr : plainRelative ref = true)
    (hm : validMethod method = true) :
    c.NewRequest method ref none
      = .ret (.ok { Method := method,
                    URL := { Scheme := base.Scheme, Host := base.Host, Path := base.Path ++ ref },
                    Header := builtHeader c none, Body := none, Host := base.Host,
                    ctx := some { done := false, err := none } }) := by
  have hres := ResolveReference_plain base ref hb hr
  simp only [URL.isPlain, Bool.and_eq_true, decide_eq_true_eq] at hb
  obtain ⟨⟨⟨⟨⟨hsch, hop⟩, huser⟩, hhost⟩, hdir⟩, hraw⟩ := hb
  obtain ⟨hroot, hptext, hpclean, p0, hp0⟩ := plainDir_facts base.Path hdir
  obtain ⟨hne, hhead, hrtext, hrclean, hcolon, hstar, hgs⟩ := plainRelative_facts ref hr
  have hsuf : HasSuffix base.Path [47] = true := by
    simp only [plainDir, Bool.and_eq_true, decide_eq_true_eq] at hdir
    exact hdir.1.1.2
  have hparse := Parse_plain_relative ref hrtext hgs hhead hcolon hstar
  have hfulltext : plainText (base.Path ++ ref) = true := plainText_append _ _ hptext hrtext
  have hfullroot : (base.Path ++ ref).head? = some 47 := by
    cases hbp : base.Path with
    | nil => rw [hbp] at hroot; cases hroot
    | cons x t => rw [hbp] at hroot; simpa using hroot
  have hstr := String_plain base.Scheme base.Host (base.Path ++ ref)
    (plainScheme_facts _ hsch).1 hhost hfulltext hfullroot
  have habs := Parse_plain_absolute base.Scheme base.Host (base.Path ++ ref) hsch hhost hfulltext
    hfullroot
  have hmne : method ≠ [] := by
    intro e
    rw [e] at hm
    cases hm
  have hport := removeEmptyPort_plain base.Host hhost
  simp only [Client.NewRequest, hbase, hsuf, URL.Parse, hparse, hres, hstr, httpNewRequest,
    if_neg hmne, hm, habs, hport, builtHeader]
  simp

/-- The relative path of GetAccountDetails is in plain form when the user name is one
plain path segment. -/
theorem accountDetails_plainRelative (username : Bytes) (h : plainSegment username = true) :
    plainRelative (str "account/details/" ++ username) = true := by
  simp only [plainSegment, Bool.and_eq_true, decide_eq_true_eq, List.all_eq_true] at h
  obtain ⟨⟨hall, hdot1⟩, hdot2⟩ := h
  have hno47 : 47 ∉ username := fun hm => (pathSafe_facts 47 (hall 47 hm)).2.2.2.1 rfl
  have hlit : str "account/details/"
      = [97, 99, 99, 111, 117, 110, 116] ++ 47 :: ([100, 101, 116, 97, 105, 108, 115] ++ 47 :: []) := by
    decide
  have hshape : str "account/details/" ++ username
      = [97, 99, 99, 111, 117, 110, 116] ++ 47 :: ([100, 101, 116, 97, 105, 108, 115] ++ 47 :: username) := by
    rw [hlit]
    simp
  have htext : plainText (str "account/details/" ++ username) = true := by
    apply plainText_append
    · decide
    · simp only [plainText, List.all_eq_true, Bool.or_eq_true, decide_eq_true_eq]
      intro c hc
      exact Or.inl (hall c hc)
  have hsplit : splitByte 47 (str "account/details/" ++ username)
      = [[97, 99, 99, 111, 117, 110, 116], [100, 101, 116, 97, 105, 108, 115], username] := by
    rw [hshape, splitByte_append, splitByte_append, splitByte_of_not_mem 47 username hno47]
    rfl
  have hcut : (cutByte 47 (str "account/details/" ++ username)).1 = [97, 99, 99, 111, 117, 110, 116] := by
    rw [hshape, cutByte_append 47 _ _ (by decide)]
  simp only [plainRelative, Bool.and_eq_true, decide_eq_true_eq, Bool.not_eq_true']
  refine ⟨⟨⟨⟨?_, ?_⟩, htext⟩, ?_⟩, ?_⟩
  · rw [hshape]
    simp
  · rw [hshape]
    simp
  · simp only [noDotSegments, hsplit, List.all_cons, List.all_nil, Bool.and_true,
      Bool.and_eq_true, decide_eq_true_eq]
    exact ⟨⟨by decide, by decide⟩, ⟨by decide, by decide⟩, hdot1, hdot2⟩
  · rw [hcut]
    decide

/-! ## Properties of AccountService.GetAccountDetails -/

/-- The client of the sample store. -/
theorem sampleStore_get : sampleStore.get? 0 = some newSampleClient :=
  NewClient_get sampleHTTP none []

/-- With a non-nil context GetAccountDetails sends the request that NewRequest builds
for the path "account/details/" + username, bound to the context, and no other. -/
theorem GetAccountDetails_sent {τ : Type} (dec : Decoder τ) (decResp : ResponseDecoder)
    (st : Store) (s : service) (a : Addr) (c : Client) (username : Bytes) (account : τ)
    (req : Request) (cx : Context)
    (hs : s.client = some a) (hc : st.get? a = some c)
    (hreq : c.NewRequest (str "GET") (str "account/details/" ++ username) none = .ret (.ok req)) :
    ∃ r, AccountService.GetAccountDetails dec decResp st s (some cx) username account = .ret r
      ∧ r.sent = [req.WithContext cx] := by
  simp only [AccountService.GetAccountDetails, hs, hc, hreq]
  cases he : (c.Do dec decResp (some cx) req (some account)).err with
  | none => exact ⟨_, rfl, Do_sent dec decResp c cx req (some account)⟩
  | some e => exact ⟨_, rfl, Do_sent dec decResp c cx req (some account)⟩

/-- C10, as stated, fails: for the client of NewClient and the user name `a?b` the
request built, and sent, has the path `/1.3/account/details/a` and the query `b`; for
the user name `..` it has the path `/1.3/account/`.  Neither path is
BaseURL.Path + "account/details/" + username. -/
theorem GetAccountDetails_path_counterexample :
    (newSampleClient.NewRequest (str "GET") (str "account/details/" ++ str "a?b") none
        = .ret (.ok queryRequest)
      ∧ (∃ r, AccountService.GetAccountDetails idleDecoder sampleResponseDecoder sampleStore
            { client := some 0 } (some liveContext) (str "a?b") 0 = .ret r
          ∧ r.sent = [queryRequest.WithContext liveContext])
      ∧ queryRequest.URL.RawQuery = str "b"
      ∧ queryRequest.URL.Path ≠ defaultBase.Path ++ str "account/details/" ++ str "a?b")
    ∧ (newSampleClient.NewRequest (str "GET") (str "account/details/" ++ str "..") none
        = .ret (.ok parentRequest)
      ∧ (∃ r, AccountService.GetAccountDetails idleDecoder sampleResponseDecoder sampleStore
            { client := some 0 } (some liveContext) (str "..") 0 = .ret r
          ∧ r.sent = [parentRequest.WithContext liveContext])
      ∧ parentRequest.URL.Path ≠ defaultBase.Path ++ str "account/details/" ++ str "..") :=
  ⟨⟨by rfl,
    GetAccountDetails_sent idleDecoder sampleResponseDecoder sampleStore { client := some 0 } 0
      newSampleClient (str "a?b") 0 queryRequest liveContext rfl sampleStore_get (by rfl),
    rfl, by decide⟩,
   ⟨by rfl,
    GetAccountDetails_sent idleDecoder sampleResponseDecoder sampleStore { client := some 0 } 0
      newSampleClient (str "..") 0 parentRequest liveContext rfl sampleStore_get (by rfl),
    by decide⟩⟩

/-- C10, amended: for a client whose base URL is in plain form (`scheme://host/dir/`)
and a user name that is one plain path segment (letters, digits and
`- _ . ~ $ & + , : ; = @`, neither `.` nor `..`), the request GetAccountDetails builds
is a GET without a body whose URL has the base URL's scheme and host, the path
BaseURL.Path + "account/details/" + username, and neither query nor fragment; with a
non-nil context that request, bound to the context, is the one request sent. -/
theorem GetAccountDetails_request_path {τ : Type} (dec : Decoder τ) (decResp : ResponseDecoder)
    (st : Store) (s : service) (a : Addr) (c : Client) (base : URL) (username : Bytes)
    (account : τ)
    (hs : s.client = some a) (hc : st.get? a = some c) (hbase : c.BaseURL = some base)
    (hb : base.isPlain = true) (hu : plainSegment username = true) :
    ∃ req : Request,
      c.NewRequest (str "GET") (str "account/details/" ++ username) none = .ret (.ok req)
      ∧ req.Method = str "GET" ∧ req.Body = none
      ∧ req.URL.Scheme = base.Scheme ∧ req.URL.Host = base.Host
      ∧ req.URL.Path = base.Path ++ str "account/details/" ++ username
      ∧ req.URL.RawQuery = [] ∧ req.URL.ForceQuery = false ∧ req.URL.Fragment = []
      ∧ req.URL.Opaque = [] ∧ req.URL.User = none
      ∧ (∀ cx : Context, ∃ r,
          AccountService.GetAccountDetails dec decResp st s (some cx) username account = .ret r
          ∧ r.sent = [req.WithContext cx]) := by
  have hreq := NewRequest_plain c base (str "GET") (str "account/details/" ++ username) hbase hb
    (accountDetails_plainRelative username hu) (by decide)
  refine ⟨_, hreq, rfl, rfl, rfl, rfl, by simp, rfl, rfl, rfl, rfl, rfl, ?_⟩
  intro cx
  exact GetAccountDetails_sent dec decResp st s a c username account _ cx hs hc hreq

/-- C10, witness: the client of NewClient and the user name `bob`. -/
theorem GetAccountDetails_request_path_witness :
    ∃ req : Request,
      newSampleClient.NewRequest (str "GET") (str "account/details/" ++ str "bob") none
        = .ret (.ok req)
      ∧ req.Method = str "GET" ∧ req.Body = none
      ∧ req.URL.Scheme = defaultBase.Scheme ∧ req.URL.Host = defaultBase.Host
      ∧ req.URL.Path = defaultBase.Path ++ str "account/details/" ++ str "bob"
      ∧ req.URL.RawQuery = [] ∧ req.URL.ForceQuery = false ∧ req.URL.Fragment = []
      ∧ req.URL.Opaque = [] ∧ req.URL.User = none
      ∧ (∀ cx : Context, ∃ r,
          AccountService.GetAccountDetails idleDecoder sampleResponseDecoder sampleStore
            { client := some 0 } (some cx) (str "bob") 0 = .ret r
          ∧ r.sent = [req.WithContext cx]) :=
  GetAccountDetails_request_path idleDecoder sampleResponseDecoder sampleStore
    { client := some 0 } 0 newSampleClient defaultBase (str "bob") 0 rfl sampleStore_get rfl
    (by decide) (by decide)

/-! ## The step bounds of the JSON reader -/

/-- Skipping white space does not lengthen the input. -/
theorem skipSpace_length (s : Bytes) : (skipSpace s).length ≤ s.length := by
  induction s with
  | nil => simp [skipSpace]
  | cons c s ih =>
    simp only [skipSpace]
    split
    · simp only [List.length_cons]; omega
    · simp

/-- The input after a literal name is no longer than the input. -/
theorem expectLit_length (lit s rest : Bytes) (h : expectLit lit s = .ok rest) :
    rest.length ≤ s.length := by
  induction lit generalizing s with
  | nil =>
    simp only [expectLit] at h
    cases h
    exact Nat.le_refl _
  | cons l ls ih =>
    cases s with
    | nil => simp [expectLit] at h
    | cons c s =>
      simp only [expectLit] at h
      split at h
      · have := ih s h
        simp only [List.length_cons]; omega
      · cases h

/-- The input after a run of digits is no longer than the input. -/
theorem spanDigits_length (s : Bytes) : (spanDigits s).2.length ≤ s.length := by
  induction s with
  | nil => simp [spanDigits]
  | cons c s ih =>
    simp only [spanDigits]
    split
    · simp only [List.length_cons]; omega
    · simp

/-- The input after one or more digits is no longer than the input. -/
theorem scanDigits1_length (s d r : Bytes) (h : scanDigits1 s = .ok (d, r)) :
    r.length ≤ s.length := by
  unfold scanDigits1 at h
  cases s with
  | nil => cases h
  | cons c rest =>
    simp only [] at h
    split at h
    · injection h with h
      have := spanDigits_length (c :: rest)
      rw [h] at this
      exact this
    · cases h

/-- The input after an exponent is no longer than the input. -/
theorem scanExp_length (s d r : Bytes) (h : scanExp s = .ok (d, r)) : r.length ≤ s.length := by
  unfold scanExp at h
  split at h
  · rename_i c rest
    split at h
    · split at h
      · rename_i sg rest2
        split at h
        · split at h
          · rename_i d1 r1 h1
            cases h
            have := scanDigits1_length _ _ _ h1
            simp only [List.length_cons]; omega
          · cases h
        · split at h
          · rename_i d1 r1 h1
            cases h
            have := scanDigits1_length _ _ _ h1
            simp only [List.length_cons] at this ⊢; omega
          · cases h
      · cases h
    · cases h
      exact Nat.le_refl _
  · cases h
    exact Nat.le_refl _

/-- The input after a fraction is no longer than the input. -/
theorem scanFrac_length (s d r : Bytes) (h : scanFrac s = .ok (d, r)) : r.length ≤ s.length := by
  unfold scanFrac at h
  split at h
  · split at h
    · rename_i d1 r1 h1
      cases h
      have := scanDigits1_length _ _ _ h1
      simp only [List.length_cons]; omega
    · cases h
  · cases h
    exact Nat.le_refl _

/-- The input after an integer part is no longer than the input. -/
theorem scanInt_length (s d r : Bytes) (h : scanInt s = .ok (d, r)) : r.length ≤ s.length := by
  unfold scanInt at h
  split at h
  · cases h
  · rename_i c rest
    split at h
    · cases h
      simp
    · split at h
      · cases h
        have := spanDigits_length rest
        simp only [List.length_cons]; omega
      · cases h

/-- The input after an unsigned number is no longer than the input. -/
theorem scanUnsigned_length (sign s d r : Bytes) (h : scanUnsigned sign s = .ok (d, r)) :
    r.length ≤ s.length := by
  unfold scanUnsigned at h
  split at h
  · cases h
  · rename_i i s2 hi
    split at h
    · cases h
    · rename_i f s3 hf
      split at h
      · cases h
      · rename_i x s4 hx
        cases h
        have h1 := scanInt_length _ _ _ hi
        have h2 := scanFrac_length _ _ _ hf
        have h3 := scanExp_length _ _ _ hx
        omega

/-- The input after a number is no longer than the input. -/
theorem scanNumber_length (s d r : Bytes) (h : scanNumber s = .ok (d, r)) :
    r.length ≤ s.length := by
  unfold scanNumber at h
  split at h
  · exact scanUnsigned_length _ _ _ _ h
  · split at h
    · have := scanUnsigned_length _ _ _ _ h
      simp only [List.length_cons]; omega
    · exact scanUnsigned_length _ _ _ _ h

/-- The input after a string body is no longer than the input, by induction on a bound of its length. -/
theorem scanString_length_aux (n : Nat) : ∀ (s raw rest : Bytes), s.length ≤ n →
    scanString s = .ok (raw, rest) → rest.length ≤ s.length := by
  induction n with
  | zero =>
    intro s raw rest hn h
    have : s = [] := List.length_eq_zero.mp (Nat.le_zero.mp hn)
    subst this
    simp [scanString] at h
  | succ n ih =>
    intro s raw rest hn h
    unfold scanString at h
    split at h
    · cases h
    · cases h
      simp
    · cases h
    · split at h
      · split at h
        · split at h
          · rename_i r t hr
            cases h
            have := ih _ _ _ (by simp only [List.length_cons] at hn ⊢; omega) hr
            simp only [List.length_cons]; omega
          · cases h
        · cases h
        · cases h
        · cases h
        · cases h
      · split at h <;> cases h
      · split at h <;> cases h
      · split at h <;> cases h
      · cases h
    · split at h
      · split at h
        · rename_i r t hr
          cases h
          have := ih _ _ _ (by simp only [List.length_cons] at hn ⊢; omega) hr
          simp only [List.length_cons]; omega
        · cases h
      · cases h
    · split at h
      · cases h
      · split at h
        · rename_i r t hr
          cases h
          have := ih _ _ _ (by simp only [List.length_cons] at hn ⊢; omega) hr
          simp only [List.length_cons]; omega
        · cases h

/-- The input after a string body is no longer than the input. -/
theorem scanString_length (s raw rest : Bytes) (h : scanString s = .ok (raw, rest)) :
    rest.length ≤ s.length := scanString_length_aux s.length s raw rest (Nat.le_refl _) h

/-- The input after the first byte that is not white space is shorter than the input. -/
theorem skipSpace_cons_length (s : Bytes) (c : Nat) (rest : Bytes) (h : skipSpace s = c :: rest) :
    rest.length < s.length := by
  have := skipSpace_length s
  rw [h] at this
  simp only [List.length_cons] at this
  omega

/-- The parsers return a rest that is no longer than their input. -/
theorem parse_length (fuel : Nat) :
    (∀ depth s v rest, parseValue fuel depth s = .ok (v, rest) → rest.length ≤ s.length)
    ∧ (∀ depth s m rest, parseMembers fuel depth s = .ok (m, rest) → rest.length ≤ s.length)
    ∧ (∀ depth s m rest, parseElems fuel depth s = .ok (m, rest) → rest.length ≤ s.length) := by
  induction fuel with
  | zero =>
    refine ⟨?_, ?_, ?_⟩ <;> intro depth s v rest h
    · simp [parseValue] at h
    · simp [parseMembers] at h
    · simp [parseElems] at h
  | succ n ih =>
    obtain ⟨ihv, ihm, ihe⟩ := ih
    refine ⟨?_, ?_, ?_⟩
    · intro depth s v rest h
      simp only [parseValue] at h
      split at h
      · cases h
      · rename_i c r0 h0
        have l0 := skipSpace_cons_length s c r0 h0
        split at h
        · split at h
          · cases h
          · split at h
            · cases h
            · rename_i k r1 h1
              have l1 := skipSpace_cons_length r0 k r1 h1
              split at h
              · cases h
                omega
              · split at h
                · split at h
                  · cases h
                  · rename_i rawKey r2 h2
                    have l2 := scanString_length _ _ _ h2
                    split at h
                    · cases h
                    · rename_i colon r3 h3
                      have l3 := skipSpace_cons_length r2 colon r3 h3
                      split at h
                      · split at h
                        · cases h
                        · rename_i v1 r4 h4
                          have l4 := ihv _ _ _ _ h4
                          split at h
                          · cases h
                          · rename_i more r5 h5
                            have l5 := ihm _ _ _ _ h5
                            cases h
                            omega
                      · cases h
                · cases h
        · split at h
          · split at h
            · cases h
            · split at h
              · cases h
              · rename_i k r1 h1
                have l1 := skipSpace_cons_length r0 k r1 h1
                split at h
                · cases h
                  omega
                · split at h
                  · cases h
                  · rename_i v1 r2 h2
                    have l2 := ihv _ _ _ _ h2
                    split at h
                    · cases h
                    · rename_i more r3 h3
                      have l3 := ihe _ _ _ _ h3
                      cases h
                      omega
          · split at h
            · split at h
              · cases h
              · rename_i raw r1 h1
                have l1 := scanString_length _ _ _ h1
                cases h
                omega
            · split at h
              · split at h
                · cases h
                · rename_i raw r1 h1
                  have l1 := scanNumber_length _ _ _ h1
                  simp only [List.length_cons] at l1
                  cases h
                  omega
              · split at h
                · split at h
                  · cases h
                  · rename_i r1 h1
                    have l1 := expectLit_length _ _ _ h1
                    cases h
                    omega
                · split at h
                  · split at h
                    · cases h
                    · rename_i r1 h1
                      have l1 := expectLit_length _ _ _ h1
                      cases h
                      omega
                  · split at h
                    · split at h
                      · cases h
                      · rename_i r1 h1
                        have l1 := expectLit_length _ _ _ h1
                        cases h
                        omega
                    · cases h
    · intro depth s m rest h
      simp only [parseMembers] at h
      split at h
      · cases h
      · rename_i c r0 h0
        have l0 := skipSpace_cons_length s c r0 h0
        split at h
        · cases h
          omega
        · split at h
          · split at h
            · cases h
            · rename_i q r1 h1
              have l1 := skipSpace_cons_length r0 q r1 h1
              split at h
              · split at h
                · cases h
                · rename_i rawKey r2 h2
                  have l2 := scanString_length _ _ _ h2
                  split at h
                  · cases h
                  · rename_i colon r3 h3
                    have l3 := skipSpace_cons_length r2 colon r3 h3
                    split at h
                    · split at h
                      · cases h
                      · rename_i v1 r4 h4
                        have l4 := ihv _ _ _ _ h4
                        split at h
                        · cases h
                        · rename_i more r5 h5
                          have l5 := ihm _ _ _ _ h5
                          cases h
                          omega
                    · cases h
              · cases h
          · cases h
    · intro depth s m rest h
      simp only [parseElems] at h
      split at h
      · cases h
      · rename_i c r0 h0
        have l0 := skipSpace_cons_length s c r0 h0
        split at h
        · cases h
          omega
        · split at h
          · split at h
            · cases h
            · rename_i v1 r1 h1
              have l1 := ihv _ _ _ _ h1
              split at h
              · cases h
              · rename_i more r2 h2
                have l2 := ihe _ _ _ _ h2
                cases h
                omega
          · cases h

/-- The result of the parsers does not depend on the step bound once it exceeds the
length of the input. -/
theorem parse_fuel (fuel : Nat) :
    (∀ fuel2 depth s, s.length < fuel → s.length < fuel2 →
        parseValue fuel depth s = parseValue fuel2 depth s)
    ∧ (∀ fuel2 depth s, s.length < fuel → s.length < fuel2 →
        parseMembers fuel depth s = parseMembers fuel2 depth s)
    ∧ (∀ fuel2 depth s, s.length < fuel → s.length < fuel2 →
        parseElems fuel depth s = parseElems fuel2 depth s) := by
  induction fuel with
  | zero =>
    refine ⟨?_, ?_, ?_⟩ <;> intro fuel2 depth s h <;> exact absurd h (Nat.not_lt_zero _)
  | succ n ih =>
    obtain ⟨ihv, ihm, ihe⟩ := ih
    refine ⟨?_, ?_, ?_⟩
    · intro fuel2 depth s hl hl2
      cases fuel2 with
      | zero => exact absurd hl2 (Nat.not_lt_zero _)
      | succ m =>
        simp only [parseValue]
        cases h0 : skipSpace s with
        | nil => rfl
        | cons c r0 =>
          have l0 := skipSpace_cons_length s c r0 h0
          simp only []
          by_cases hc1 : c = 123
          · simp only [if_pos hc1]
            by_cases hd : maxNestingDepth ≤ depth
            · simp only [if_pos hd]
            · simp only [if_neg hd]
              cases h1 : skipSpace r0 with
              | nil => rfl
              | cons k r1 =>
                have l1 := skipSpace_cons_length r0 k r1 h1
                simp only []
                by_cases hk1 : k = 125
                · simp only [if_pos hk1]
                · simp only [if_neg hk1]
                  by_cases hk2 : k = 34
                  · simp only [if_pos hk2]
                    cases h2 : scanString r1 with
                    | error e => rfl
                    | ok p =>
                      obtain ⟨rawKey, r2⟩ := p
                      have l2 := scanString_length _ _ _ h2
                      simp only []
                      cases h3 : skipSpace r2 with
                      | nil => rfl
                      | cons colon r3 =>
                        have l3 := skipSpace_cons_length r2 colon r3 h3
                        simp only []
                        by_cases hcol : colon = 58
                        · simp only [if_pos hcol]
                          rw [ihv m (depth + 1) r3 (by omega) (by omega)]
                          cases h4 : parseValue m (depth + 1) r3 with
                          | error e => rfl
                          | ok p4 =>
                            obtain ⟨v1, r4⟩ := p4
                            have l4 := (parse_length m).1 _ _ _ _ h4
                            simp only []
                            rw [ihm m (depth + 1) r4 (by omega) (by omega)]
                        · simp only [if_neg hcol]
                  · simp only [if_neg hk2]
          · simp only [if_neg hc1]
            by_cases hc2 : c = 91
            · simp only [if_pos hc2]
              by_cases hd : maxNestingDepth ≤ depth
              · simp only [if_pos hd]
              · simp only [if_neg hd]
                cases h1 : skipSpace r0 with
                | nil => rfl
                | cons k r1 =>
                  simp only []
                  by_cases hk1 : k = 93
                  · simp only [if_pos hk1]
                  · simp only [if_neg hk1]
                    rw [ihv m (depth + 1) r0 (by omega) (by omega)]
                    cases h4 : parseValue m (depth + 1) r0 with
                    | error e => rfl
                    | ok p4 =>
                      obtain ⟨v1, r4⟩ := p4
                      have l4 := (parse_length m).1 _ _ _ _ h4
                      simp only []
                      rw [ihe m (depth + 1) r4 (by omega) (by omega)]
            · simp only [if_neg hc2]
    · intro fuel2 depth s hl hl2
      cases fuel2 with
      | zero => exact absurd hl2 (Nat.not_lt_zero _)
      | succ m =>
        simp only [parseMembers]
        cases h0 : skipSpace s with
        | nil => rfl
        | cons c r0 =>
          have l0 := skipSpace_cons_length s c r0 h0
          simp only []
          by_cases hc1 : c = 125
          · simp only [if_pos hc1]
          · simp only [if_neg hc1]
            by_cases hc2 : c = 44
            · simp only [if_pos hc2]
              cases h1 : skipSpace r0 with
              | nil => rfl
              | cons q r1 =>
                have l1 := skipSpace_cons_length r0 q r1 h1
                simp only []
                by_cases hq : q = 34
                · simp only [if_pos hq]
                  cases h2 : scanString r1 with
                  | error e => rfl
                  | ok p =>
                    obtain ⟨rawKey, r2⟩ := p
                    have l2 := scanString_length _ _ _ h2
                    simp only []
                    cases h3 : skipSpace r2 with
                    | nil => rfl
                    | cons colon r3 =>
                      have l3 := skipSpace_cons_length r2 colon r3 h3
                      simp only []
                      by_cases hcol : colon = 58
                      · simp only [if_pos hcol]
                        rw [ihv m depth r3 (by omega) (by omega)]
                        cases h4 : parseValue m depth r3 with
                        | error e => rfl
                        | ok p4 =>
                          obtain ⟨v1, r4⟩ := p4
                          have l4 := (parse_length m).1 _ _ _ _ h4
                          simp only []
                          rw [ihm m depth r4 (by omega) (by omega)]
                      · simp only [if_neg hcol]
                · simp only [if_neg hq]
            · simp only [if_neg hc2]
    · intro fuel2 depth s hl hl2
      cases fuel2 with
      | zero => exact absurd hl2 (Nat.not_lt_zero _)
      | succ m =>
        simp only [parseElems]
        cases h0 : skipSpace s with
        | nil => rfl
        | cons c r0 =>
          have l0 := skipSpace_cons_length s c r0 h0
          simp only []
          by_cases hc1 : c = 93
          · simp only [if_pos hc1]
          · simp only [if_neg hc1]
            by_cases hc2 : c = 44
            · simp only [if_pos hc2]
              rw [ihv m depth r0 (by omega) (by omega)]
              cases h4 : parseValue m depth r0 with
              | error e => rfl
              | ok p4 =>
                obtain ⟨v1, r4⟩ := p4
                have l4 := (parse_length m).1 _ _ _ _ h4
                simp only []
                rw [ihe m depth r4 (by omega) (by omega)]
            · simp only [if_neg hc2]

/-- The step bound of `parseJSON` is enough: a larger one gives the same document. -/
theorem parseJSON_fuel (data : Bytes) (fuel : Nat) (h : data.length < fuel) :
    parseValue fuel 0 data = parseValue (data.length + 1) 0 data :=
  (parse_fuel fuel).1 (data.length + 1) 0 data h (Nat.lt_succ_self _)

/-- The result of `unquoteAux` does not depend on the step bound once it is at least
the length of the text. -/
theorem unquoteAux_fuel (n : Nat) : ∀ (m : Nat) (s : Bytes), s.length ≤ n → s.length ≤ m →
    unquoteAux n s = unquoteAux m s := by
  induction n with
  | zero =>
    intro m s h1 h2
    have : s = [] := List.length_eq_zero.mp (Nat.le_zero.mp h1)
    subst this
    cases m <;> simp [unquoteAux]
  | succ n ih =>
    intro m s h1 h2
    cases m with
    | zero =>
      have : s = [] := List.length_eq_zero.mp (Nat.le_zero.mp h2)
      subst this
      simp [unquoteAux]
    | succ m =>
      unfold unquoteAux
      split
      · rename_i heq
        cases heq
      · rfl
      · rename_i n0 a b c d rest heq
        injection heq with heq
        subst heq
        simp only [List.length_cons] at h1 h2
        have e1 := ih m rest (by omega) (by omega)
        have e2 := ih m (rest.drop 6) (by simp only [List.length_drop]; omega)
          (by simp only [List.length_drop]; omega)
        simp only [e1, e2]
      · rename_i n0 e rest _ heq
        injection heq with heq
        subst heq
        simp only [List.length_cons] at h1 h2
        have e1 := ih m rest (by omega) (by omega)
        simp only [e1]
      · rfl
      · rename_i n0 c rest _ _ _ heq
        injection heq with heq
        subst heq
        simp only [List.length_cons] at h1 h2
        have e1 := ih m rest (by omega) (by omega)
        split
        · simp only [e1]
        · split
          · rename_i b1 b2 b3 rest3 _ _ _
            simp only [List.length_cons] at h1 h2
            have e2 := ih m (b2 :: b3 :: rest3) (by simp only [List.length_cons]; omega)
              (by simp only [List.length_cons]; omega)
            have e3 := ih m (b3 :: rest3) (by simp only [List.length_cons]; omega)
              (by simp only [List.length_cons]; omega)
            have e4 := ih m rest3 (by omega) (by omega)
            simp only [e1, e2, e3, e4]
          · rename_i b1 b2 _ _ _
            simp only [List.length_cons, List.length_nil] at h1 h2
            have e2 := ih m [b2] (by simp only [List.length_cons, List.length_nil]; omega)
              (by simp only [List.length_cons, List.length_nil]; omega)
            simp only [e1, e2]
          · simp only [e1]
          · rfl



/-- The step bound of `unquote` is enough: a larger one gives the same text. -/
theorem unquote_fuel (raw : Bytes) (fuel : Nat) (h : raw.length ≤ fuel) :
    unquoteAux fuel raw = unquote raw :=
  unquoteAux_fuel fuel raw.length raw h (Nat.le_refl _)

/-! ## Properties of ErrorResponse.Error -/

/-- On an `*ErrorResponse` whose Response, Response.Request and APIError are all set,
`Error()` returns the text `<method> <url>: <status> <code> - <message>`. -/
theorem Error_wellformed (resp : Response) (req : Request) (e : APIError)
    (h : resp.Request = some req) :
    ErrorResponse.Error { Response := some resp, APIError := some e }
      = .ret (req.Method ++ [32] ++ req.URL.String ++ [58, 32] ++ formatInt resp.StatusCode
          ++ [32] ++ e.Code ++ [32, 45, 32] ++ e.Message) := by
  simp only [ErrorResponse.Error, h]

/-- The text of `Error()` for the specification's example: status 422, code `INVALID`,
message `bad field`. -/
theorem Error_sample :
    ErrorResponse.Error { Response := some (echoResponse 422 sampleErrorBody),
                          APIError := some { Message := str "bad field", Code := str "INVALID" } }
      = .ret (str "GET https://api.upcloud.com/1.3/account: 422 INVALID - bad field") := by
  rfl

/-- C11 (what the code does): for the status 500 and each of the bodies `{}`, `null` and
`{"error":null}`, which are valid JSON without an error object, Do returns an
`*ErrorResponse` whose Response is set and whose APIError is nil, and `Error()` on it
dereferences the nil APIError: it panics. -/
theorem Do_error_response_nil_APIError (decResp : ResponseDecoder) :
    (((cannedClient (echoResponse 500 emptyObjectBody)).Do idleDecoder decResp (some liveContext)
          sampleRequest none).err
        = some (.api (bareErrorResponse (echoResponse 500 emptyObjectBody)))
      ∧ (bareErrorResponse (echoResponse 500 emptyObjectBody)).Error = .panic)
    ∧ (((cannedClient (echoResponse 500 nullBody)).Do idleDecoder decResp (some liveContext)
          sampleRequest none).err
        = some (.api (bareErrorResponse (echoResponse 500 nullBody)))
      ∧ (bareErrorResponse (echoResponse 500 nullBody)).Error = .panic)
    ∧ (((cannedClient (echoResponse 500 nullErrorBody)).Do idleDecoder decResp (some liveContext)
          sampleRequest none).err
        = some (.api (bareErrorResponse (echoResponse 500 nullErrorBody)))
      ∧ (bareErrorResponse (echoResponse 500 nullErrorBody)).Error = .panic) := by
  refine ⟨⟨by rfl, by rfl⟩, ⟨by rfl, by rfl⟩, ⟨by rfl, by rfl⟩⟩

/-! ## Properties of AccountService.ModifyAccount -/

theorem membersHaveKey_append (key : Bytes) (xs ys : List (Bytes × JSON)) :
    membersHaveKey key (xs ++ ys) = (membersHaveKey key xs || membersHaveKey key ys) := by
  induction xs with
  | nil => simp [membersHaveKey]
  | cons kv rest ih =>
    obtain ⟨k, v⟩ := kv
    have ih2 : membersHaveKey key (rest.append ys)
        = (membersHaveKey key rest || membersHaveKey key ys) := ih
    simp only [List.cons_append, membersHaveKey, ih, ih2, Bool.or_assoc]

/-- An array of strings holds no key. -/
theorem elemsHaveKey_strings (key : Bytes) (xs : List Bytes) :
    elemsHaveKey key (xs.map JSON.str) = false := by
  induction xs with
  | nil => simp [elemsHaveKey]
  | cons x rest ih => simp [elemsHaveKey, JSON.hasKey, ih]

/-- The JSON of a `[]string` holds no key. -/
theorem stringsJSON_hasKey (key : Bytes) (v : Option (List Bytes)) :
    (stringsJSON v).hasKey key = false := by
  cases v with
  | none => simp [stringsJSON, JSON.hasKey]
  | some xs => simp [stringsJSON, JSON.hasKey, elemsHaveKey_strings]

/-- A string field tagged `omitempty` does not contribute a key other than its own,
and none at all when it is empty. -/
theorem omitEmptyString_hasKey (key k v : Bytes) (h : k ≠ key ∨ v = []) :
    membersHaveKey key (omitEmptyString k v) = false := by
  unfold omitEmptyString
  by_cases hv : v = []
  · simp [hv, membersHaveKey]
  · cases h with
    | inl hk => simp [hv, membersHaveKey, JSON.hasKey, hk]
    | inr h0 => exact absurd h0 hv

/-- A slice field tagged `omitempty` does not contribute a key other than its own. -/
theorem omitEmptyStrings_hasKey (key k : Bytes) (v : Option (List Bytes)) (h : k ≠ key) :
    membersHaveKey key (omitEmptyStrings k v) = false := by
  unfold omitEmptyStrings
  cases v with
  | none => simp [membersHaveKey]
  | some xs =>
    cases xs with
    | nil => simp [membersHaveKey]
    | cons x rest =>
      simp only [membersHaveKey, stringsJSON_hasKey, decide_eq_false_iff_not.mpr h, Bool.or_false]

/-- The entries of `ServerAccess.Servers` hold only the keys `storage` and `uuid`. -/
theorem elemsHaveKey_servers (key : Bytes) (es : List ServerEntry)
    (h1 : str "storage" ≠ key) (h2 : str "uuid" ≠ key) :
    elemsHaveKey key (es.map ServerEntry.toJSON) = false := by
  induction es with
  | nil => simp [elemsHaveKey]
  | cons x rest ih =>
    simp [elemsHaveKey, JSON.hasKey, ih, ServerEntry.toJSON, membersHaveKey, h1, h2]

/-- The entries of `TagAccess.Tags` hold only the keys `name` and `storage`. -/
theorem elemsHaveKey_tags (key : Bytes) (es : List TagEntry)
    (h1 : str "name" ≠ key) (h2 : str "storage" ≠ key) :
    elemsHaveKey key (es.map TagEntry.toJSON) = false := by
  induction es with
  | nil => simp [elemsHaveKey]
  | cons x rest ih =>
    simp [elemsHaveKey, JSON.hasKey, ih, TagEntry.toJSON, membersHaveKey, h1, h2]


/-- None of the other keys is one of `main_account`, `username`, `type`, `password`. -/
theorem otherKeys_ne (key : Bytes)
    (hk : key ∈ [str "main_account", str "username", str "type", str "password"]) :
    ∀ k ∈ otherKeys, k ≠ key := by
  simp only [List.mem_cons, List.mem_singleton, List.not_mem_nil, or_false] at hk
  rcases hk with hk | hk | hk | hk <;> subst hk <;> decide

/-- An account whose MainAccount, Type, Username and Password are empty is encoded
without any key that differs from all the other keys. -/
theorem Account.members_hasKey (key : Bytes) (a : Account)
    (hne : ∀ k ∈ otherKeys, k ≠ key)
    (h1 : a.MainAccount = []) (h2 : a.Type_ = []) (h3 : a.Username = [])
    (h4 : a.Password = []) :
    membersHaveKey key a.members = false := by
  have e1 : omitEmptyString (str "main_account") a.MainAccount = [] := by
    simp [omitEmptyString, h1]
  have e2 : omitEmptyString (str "type") a.Type_ = [] := by simp [omitEmptyString, h2]
  have e3 : omitEmptyString (str "username") a.Username = [] := by simp [omitEmptyString, h3]
  have e4 : omitEmptyString (str "password") a.Password = [] := by simp [omitEmptyString, h4]
  have hs : ∀ k ∈ otherKeys, ∀ v : Bytes, membersHaveKey key (omitEmptyString k v) = false :=
    fun k hk v => omitEmptyString_hasKey key k v (Or.inl (hne k hk))
  have hd : ∀ k ∈ otherKeys, decide (k = key) = false :=
    fun k hk => decide_eq_false (hne k hk)
  have hsrv : (serversJSON a.ServerAccess.Servers).hasKey key = false := by
    cases a.ServerAccess.Servers with
    | none => simp [serversJSON, JSON.hasKey]
    | some es =>
      simp only [serversJSON, JSON.hasKey]
      exact elemsHaveKey_servers key es (hne (str "storage") (by decide))
        (hne (str "uuid") (by decide))
  have htag : (tagsJSON a.TagAccess.Tags).hasKey key = false := by
    cases a.TagAccess.Tags with
    | none => simp [tagsJSON, JSON.hasKey]
    | some es =>
      simp only [tagsJSON, JSON.hasKey]
      exact elemsHaveKey_tags key es (hne (str "name") (by decide))
        (hne (str "storage") (by decide))
  have hnet : membersHaveKey key (omitEmptyStrings (str "network") a.NetworkAccess.Networks)
      = false := omitEmptyStrings_hasKey key _ _ (hne (str "network") (by decide))
  simp only [Account.members, e1, e2, e3, e4, membersHaveKey_append, List.nil_append]
  simp only [membersHaveKey]
  simp only [hs (str "first_name") (by decide), hs (str "last_name") (by decide),
    hs (str "company") (by decide), hs (str "address") (by decide),
    hs (str "postal_code") (by decide), hs (str "city") (by decide),
    hs (str "state") (by decide), hs (str "country") (by decide),
    hs (str "vat_number") (by decide), hs (str "enable_3rd_party_services") (by decide)]
  simp only [hd (str "currency") (by decide), hd (str "language") (by decide),
    hd (str "phone") (by decide), hd (str "email") (by decide),
    hd (str "timezone") (by decide), hd (str "roles") (by decide),
    hd (str "allow_api") (by decide),
    hd (str "allow_gui") (by decide), hd (str "network_access") (by decide),
    hd (str "server_access") (by decide),
    hd (str "storage_access") (by decide),
    hd (str "tag_access") (by decide),
    hd (str "ip_filters") (by decide)]
  simp only [JSON.hasKey, membersHaveKey, hnet, stringsJSON_hasKey, hsrv, htag,
    hd (str "role") (by decide), hd (str "server") (by decide), hd (str "storage") (by decide),
    hd (str "tag") (by decide), hd (str "ip_filter") (by decide), Bool.or_false]

/-- The request `NewRequest` builds for a body that the encoder accepts carries the
encoder's text as its body and the method it was given. -/
theorem NewRequest_body (c : Client) (method urlStr text : Bytes) (req : Request)
    (hm : method ≠ [])
    (h : c.NewRequest method urlStr (some { encode := .ok text }) = .ret (.ok req)) :
    req.Method = method ∧ req.Body = some text := by
  simp only [Client.NewRequest] at h
  cases hb : c.BaseURL with
  | none => rw [hb] at h; cases h
  | some base =>
    rw [hb] at h
    simp only [] at h
    by_cases hs : (!HasSuffix base.Path [47]) = true
    · rw [if_pos hs] at h; cases h
    · rw [if_neg hs] at h
      cases hp : base.Parse urlStr with
      | error e => rw [hp] at h; cases h
      | ok u =>
        rw [hp] at h
        simp only [] at h
        cases hq : httpNewRequest method u.String (some text) with
        | error e => rw [hq] at h; cases h
        | ok r0 =>
          rw [hq] at h
          simp only [] at h
          have hr : r0.Method = method ∧ r0.Body = some text := by
            simp only [httpNewRequest, if_neg hm] at hq
            by_cases hv : (!validMethod method) = true
            · rw [if_pos hv] at hq; cases hq
            · rw [if_neg hv] at hq
              cases hpp : Parse u.String with
              | error e => rw [hpp] at hq; cases hq
              | ok uu =>
                rw [hpp] at hq
                simp only [] at hq
                cases hq
                exact ⟨rfl, rfl⟩
          cases h
          exact hr

/-- With a non-nil base URL `NewRequest` does not panic. -/
theorem NewRequest_ret (c : Client) (base : URL) (method urlStr : Bytes) (body : Option Body)
    (hb : c.BaseURL = some base) : ∃ x, c.NewRequest method urlStr body = .ret x := by
  simp only [Client.NewRequest, hb]
  by_cases hs : (!HasSuffix base.Path [47]) = true
  · rw [if_pos hs]; exact ⟨_, rfl⟩
  · rw [if_neg hs]
    cases base.Parse urlStr with
    | error e => exact ⟨_, rfl⟩
    | ok u =>
      simp only []
      cases body with
      | none =>
        simp only []
        cases httpNewRequest method u.String none with
        | error e => exact ⟨_, rfl⟩
        | ok r0 => exact ⟨_, rfl⟩
      | some b =>
        simp only []
        cases b.encode with
        | error n => exact ⟨_, rfl⟩
        | ok text =>
          simp only []
          cases httpNewRequest method u.String (some text) with
          | error e => exact ⟨_, rfl⟩
          | ok r0 => exact ⟨_, rfl⟩

/-- Appending to a list keeps the elements it has. -/
theorem getOpt_append_some {α : Type} (l l2 : List α) (p : Nat) (a : α) (h : l.get? p = some a) :
    (l ++ l2).get? p = some a := by
  induction l generalizing p with
  | nil => cases h
  | cons x rest ih =>
    cases p with
    | zero => exact h
    | succ n => exact ih n h

/-- The element appended to a list sits at the index that is the list's length. -/
theorem getOpt_append_length {α : Type} (l : List α) (a : α) : (l ++ [a]).get? l.length = some a := by
  induction l with
  | nil => rfl
  | cons x rest ih => exact ih

/-- With a nil context Do hands no request to the underlying client. -/
theorem Do_nil_sent {τ : Type} (dec : Decoder τ) (decResp : ResponseDecoder)
    (c : Client) (req : Request) (v : Option τ) : (c.Do dec decResp none req v).sent = [] := rfl

/-- C12: for every kind, user name and account `a` at the address `p`, with a client
whose base URL is set, ModifyAccount returns, and: the account `t` it serialises is `a`
with MainAccount, Username, Type and Password empty and every other field as in `a`;
none of the keys main_account, username, type and password occurs in the envelope of
`t`, at any depth; the body encoded for `&AccountDetails{Account: &trimAccount}` is
the JSON text of that envelope and a line feed; afterwards the account at `p` is still
`a`; every request handed to the underlying client is a PUT with that text as its body;
with a non-nil context the request sent is the one NewRequest builds for the path
"account/" + kind + "/" + username; and ModifyAccountDetails and
ModifySubAccountDetails are ModifyAccount with the kinds `details` and `sub`. -/
theorem ModifyAccount_trimmed_body (decResp : ResponseDecoder) (st : Store)
    (mem : AccountMemory) (s : service) (ctx : Option Context) (kind username : Bytes)
    (p : Addr) (a : Account) (ca : Addr) (c : Client) (base : URL)
    (ha : mem.get? p = some a) (hs : s.client = some ca) (hc : st.get? ca = some c)
    (hbase : c.BaseURL = some base) :
    ∃ (t : Account) (r : ModifyResult),
      t = { a with MainAccount := [], Username := [], Type_ := [], Password := [] }
      ∧ (∀ key ∈ [str "main_account", str "username", str "type", str "password"],
          (JSON.obj [(str "account", t.toJSON)]).hasKey key = false)
      ∧ (AccountDetails.body (mem ++ [t]) { Account := some mem.length }).encode
          = .ok (encodeJSON (.obj [(str "account", t.toJSON)]) ++ [10])
      ∧ AccountService.ModifyAccount decResp st mem s ctx kind (some p) username = .ret r
      ∧ r.accounts.get? p = some a
      ∧ (∀ q ∈ r.sent, q.Method = str "PUT"
          ∧ q.Body = some (encodeJSON (.obj [(str "account", t.toJSON)]) ++ [10]))
      ∧ (∀ (req : Request) (cx : Context), ctx = some cx →
          c.NewRequest (str "PUT") (str "account/" ++ kind ++ [47] ++ username)
              (some (AccountDetails.body (mem ++ [t]) { Account := some mem.length }))
            = .ret (.ok req) →
          r.sent = [req.WithContext cx])
      ∧ AccountService.ModifyAccountDetails decResp st mem s ctx (some p) username
          = AccountService.ModifyAccount decResp st mem s ctx (str "details") (some p) username
      ∧ AccountService.ModifySubAccountDetails decResp st mem s ctx (some p) username
          = AccountService.ModifyAccount decResp st mem s ctx (str "sub") (some p) username := by
  have hbody : ∀ t : Account,
      (AccountDetails.body (mem ++ [t]) { Account := some mem.length })
        = { encode := .ok (encodeJSON (.obj [(str "account", t.toJSON)]) ++ [10]) } := by
    intro t
    simp only [AccountDetails.body, AccountDetails.toJSON, getOpt_append_length]
  have hkeys : ∀ key ∈ [str "main_account", str "username", str "type", str "password"],
      (JSON.obj [(str "account",
        Account.toJSON { a with MainAccount := [], Username := [], Type_ := [], Password := [] })]).hasKey
        key = false := by
    intro key hk
    have hne := otherKeys_ne key hk
    have hacc : str "account" ≠ key := by
      simp only [List.mem_cons, List.mem_singleton, List.not_mem_nil, or_false] at hk
      rcases hk with hk | hk | hk | hk <;> subst hk <;> decide
    have h1 := Account.members_hasKey key
      { a with MainAccount := [], Username := [], Type_ := [], Password := [] } hne rfl rfl rfl rfl
    rw [JSON.hasKey, membersHaveKey, Account.toJSON, JSON.hasKey, h1, membersHaveKey,
      decide_eq_false hacc]
    rfl
  obtain ⟨t, ht⟩ : ∃ t : Account,
      t = { a with MainAccount := [], Username := [], Type_ := [], Password := [] } := ⟨_, rfl⟩
  rw [← ht] at hkeys
  obtain ⟨x, hx⟩ := NewRequest_ret c base (str "PUT") (str "account/" ++ kind ++ [47] ++ username)
    (some (AccountDetails.body (mem ++ [t]) { Account := some mem.length })) hbase
  cases x with
  | error e =>
    have hrun : AccountService.ModifyAccount decResp st mem s ctx kind (some p) username
        = .ret { resp := none, err := some e, sent := [], accounts := mem ++ [t] } := by
      simp only [AccountService.ModifyAccount, ha, hs, hc]
      rw [← ht, hx]
    refine ⟨t, { resp := none, err := some e, sent := [], accounts := mem ++ [t] }, ht, hkeys,
      ?_, hrun, ?_, ?_, ?_, rfl, rfl⟩
    · rw [hbody]
    · exact getOpt_append_some mem _ p a ha
    · intro q hq
      cases hq
    · intro req cx _ hreq
      rw [hx] at hreq
      cases hreq
  | ok req =>
    have hrun : AccountService.ModifyAccount decResp st mem s ctx kind (some p) username
        = .ret { resp := (c.Do noTarget decResp ctx req none).resp,
                 err := (c.Do noTarget decResp ctx req none).err,
                 sent := (c.Do noTarget decResp ctx req none).sent,
                 accounts := mem ++ [t] } := by
      simp only [AccountService.ModifyAccount, ha, hs, hc]
      rw [← ht, hx]
    refine ⟨t, { resp := (c.Do noTarget decResp ctx req none).resp,
                 err := (c.Do noTarget decResp ctx req none).err,
                 sent := (c.Do noTarget decResp ctx req none).sent,
                 accounts := mem ++ [t] }, ht, hkeys, ?_, hrun, ?_, ?_, ?_, rfl, rfl⟩
    · rw [hbody]
    · exact getOpt_append_some mem _ p a ha
    · intro q hq
      have hb := hx
      rw [hbody] at hb
      obtain ⟨hm, hbd⟩ := NewRequest_body c (str "PUT") _ _ req (by decide) hb
      cases ctx with
      | none =>
        simp only [Do_nil_sent] at hq
        cases hq
      | some cx =>
        simp only [Do_sent, List.mem_singleton] at hq
        subst hq
        exact ⟨hm, hbd⟩
    · intro req2 cx hctx hreq
      rw [hx] at hreq
      cases hreq
      subst hctx
      simp only [Do_sent]

/-- C12, witness: the client of NewClient, the sample account, the kind `details` and
the user name `ada`. -/
theorem ModifyAccount_trimmed_body_witness :
    ∃ (t : Account) (r : ModifyResult),
      t = { sampleAccount with MainAccount := [], Username := [], Type_ := [], Password := [] }
      ∧ (∀ key ∈ [str "main_account", str "username", str "type", str "password"],
          (JSON.obj [(str "account", t.toJSON)]).hasKey key = false)
      ∧ (AccountDetails.body ([sampleAccount] ++ [t]) { Account := some [sampleAccount].length }).encode
          = .ok (encodeJSON (.obj [(str "account", t.toJSON)]) ++ [10])
      ∧ AccountService.ModifyAccount sampleResponseDecoder sampleStore [sampleAccount]
          { client := some 0 } (some liveContext) (str "details") (some 0) (str "ada") = .ret r
      ∧ r.accounts.get? 0 = some sampleAccount
      ∧ (∀ q ∈ r.sent, q.Method = str "PUT"
          ∧ q.Body = some (encodeJSON (.obj [(str "account", t.toJSON)]) ++ [10]))
      ∧ (∀ (req : Request) (cx : Context), some liveContext = some cx →
          newSampleClient.NewRequest (str "PUT") (str "account/" ++ str "details" ++ [47] ++ str "ada")
              (some (AccountDetails.body ([sampleAccount] ++ [t])
                { Account := some [sampleAccount].length }))
            = .ret (.ok req) →
          r.sent = [req.WithContext cx])
      ∧ AccountService.ModifyAccountDetails sampleResponseDecoder sampleStore [sampleAccount]
          { client := some 0 } (some liveContext) (some 0) (str "ada")
          = AccountService.ModifyAccount sampleResponseDecoder sampleStore [sampleAccount]
              { client := some 0 } (some liveContext) (str "details") (some 0) (str "ada")
      ∧ AccountService.ModifySubAccountDetails sampleResponseDecoder sampleStore [sampleAccount]
          { client := some 0 } (some liveContext) (some 0) (str "ada")
          = AccountService.ModifyAccount sampleResponseDecoder sampleStore [sampleAccount]
              { client := some 0 } (some liveContext) (str "sub") (some 0) (str "ada") :=
  ModifyAccount_trimmed_body sampleResponseDecoder sampleStore [sampleAccount]
    { client := some 0 } (some liveContext) (str "details") (str "ada") 0 sampleAccount 0
    newSampleClient defaultBase rfl rfl sampleStore_get rfl

set_option maxRecDepth 100000 in
set_option maxHeartbeats 4000000 in
/-- The sample call, evaluated: one PUT to `/1.3/account/details/ada` whose body is the
text of the trimmed envelope, and the caller's account still first in memory. -/
theorem ModifyAccount_sample :
    (AccountService.ModifyAccount sampleResponseDecoder sampleStore [sampleAccount]
        { client := some 0 } (some liveContext) (str "details") (some 0) (str "ada")).summary
      = some ([(str "PUT", str "/1.3/account/details/ada", some sampleTrimmedText)],
              [sampleAccount, sampleTrimmed]) := by
  rfl

end Upcloud
